import Mathlib

/-!
# humane-data-pipeline: settings resolver and fan-out executor

A shallow embedding of `src/pipeline/PipelineProcessor.js` (the settings
resolver `resolveFromArg` / `mapSettingWithArgs` / `resolveSettings` and the
executor `runPipeline`) together with the properties stated about them.

Conventions of the embedding:

* JavaScript values are the terms of `JSVal`. Arrays are dense lists, plain
  objects are lists of own enumerable string-keyed properties in key order.
* A thrown `ValidationError` is the `error` case of `Except`.
* The argument bag and `process.env` are property lists. `_.has` and `_.get`
  read a name as lodash does (`castPath`): as one key when it is a plain
  name, holds no path syntax or is itself a key of the bag, and otherwise as
  a path of own properties (`stringToPath`, lodash 4.17).
* Streams are symbolic terms: the root stream, the result of a transform
  processor applied to a stream, or a fork of a stream. Which records a
  stream carries is the business of highland and of the processors.
* A string holds characters of the Basic Multilingual Plane, one UTF-16 code
  unit each; a number is an integer. The own properties of a function and of
  a placeholder instance are not part of the model: the statements that
  follow a path into the values of a bag are made for bags of data
  (`bagData`).
* The executor is embedded twice. `runPipeline` is the walk with processors
  that return: it records the invocations made and numbers the promises.
  `runPipelineWith` takes what the processors do as a parameter: a transform
  processor returns or raises, and what it raises ends the walk; an output
  processor runs inside the executor of a promise, where what it raises
  becomes a rejection of that promise. `runPipelineWith_simulates` relates
  the two.
-/

namespace HumanePipeline

/-! ## Values -/

/-- Modelled from the spec: `Pipeline.js` (the declaration of `PipelineArg` and
`PipelineEnvArg`) is missing. A placeholder carries what the resolver reads
through `name()`, `required()` and `defaultValue()`, and the allow-set that
the spec gives an argument descriptor (`validValues`, absent when `none`).
A `defaultValue` of `undefined` means that no default was declared. -/
structure Placeholder (α : Type) where
  name : String
  required : Bool
  defaultValue : α
  validValues : Option (List α)

/-- JavaScript values that can occur in a settings template, in the argument
bag or in a resolved settings value. -/
inductive JSVal where
  | undefined
  | null
  | bool (b : Bool)
  | num (n : Int)
  | str (s : String)
  /-- an array -/
  | arr (items : List JSVal)
  /-- a plain object (`_.isPlainObject`) -/
  | obj (fields : List (String × JSVal))
  /-- an instance of `PipelineArg` -/
  | pipelineArg (p : Placeholder JSVal)
  /-- an instance of `PipelineEnvArg` -/
  | pipelineEnvArg (p : Placeholder JSVal)
  /-- a function -/
  | func (id : Nat)
  /-- an instance of any other class (not a plain object) -/
  | inst (cls : String) (fields : List (String × JSVal))

/-- The own properties of an object, key by key: the run's argument bag, or
`process.env`. -/
abbrev Bag := List (String × JSVal)

/-- The error class thrown by the resolver and the executor. -/
structure ValidationError where
  message : String
  deriving DecidableEq, Repr

/-! ## Settings resolver -/

/-- `_.isUndefined(value)`. -/
def JSVal.isUndefined : JSVal → Bool
  | .undefined => true
  | _ => false

/-! ### lodash property paths -/

/-- `\w` of a JavaScript regular expression. -/
def isWordChar (c : Char) : Bool := c.isAlphanum || c == '_'

/-- `reIsPlainProp.test(name)`, with `reIsPlainProp = /^\w*$/`. -/
def isPlainProp (name : String) : Bool := name.data.all isWordChar

/-- A line terminator, which `.` of a regular expression does not match. -/
def isLineTerminator (c : Char) : Bool :=
  c == '\n' || c == '\r' || c.toNat == 0x2028 || c.toNat == 0x2029

/-- After an opening quote `q`: the quoted characters up to the closing quote
(a backslash takes the next character with it), and what follows the closing
quote. -/
def scanQuoted (q : Char) : List Char → Option (List Char × List Char)
  | [] => none
  | c :: cs =>
    if c == q then some ([], cs)
    else if c == '\\' then
      match cs with
      | [] => none
      | d :: ds =>
        if isLineTerminator d then none
        else (scanQuoted q ds).map (fun r => (c :: d :: r.1, r.2))
    else (scanQuoted q cs).map (fun r => (c :: r.1, r.2))

/-- `-?\d+(?:\.\d+)?` at the start of the characters: the number's text and
what follows it. -/
def scanNumber (cs : List Char) : Option (List Char × List Char) :=
  let sign := cs.takeWhile (· == '-') |>.take 1
  let rest := cs.drop sign.length
  let whole := rest.takeWhile Char.isDigit
  let rest := rest.dropWhile Char.isDigit
  if whole.isEmpty then none
  else
    match rest with
    | '.' :: more =>
      let frac := more.takeWhile Char.isDigit
      if frac.isEmpty then some (sign ++ whole, rest)
      else some (sign ++ whole ++ '.' :: frac, more.dropWhile Char.isDigit)
    | _ => some (sign ++ whole, rest)

/-- `subString.replace(reEscapeChar, '$1')`, with `reEscapeChar = /\\(\\)?/g`. -/
def unescape : List Char → List Char
  | [] => []
  | '\\' :: '\\' :: cs => '\\' :: unescape cs
  | '\\' :: cs => unescape cs
  | c :: cs => c :: unescape cs

/-- The bracket alternative of `rePropName` after an opening bracket: a number
or a quoted string, then the closing bracket. The result is the key and the
number of characters the expression takes after the opening bracket. -/
def bracketKey (cs : List Char) : Option (String × Nat) :=
  match scanNumber cs with
  | some (text, ']' :: _) => some (String.mk text, text.length + 1)
  | _ =>
    match cs with
    | q :: body =>
      if q == '"' || q == '\'' then
        match scanQuoted q body with
        | some (quoted, ']' :: _) => some (String.mk (unescape quoted), quoted.length + 3)
        | _ => none
      else none
    | [] => none

/-- The last alternative of `rePropName`, an empty match before `.` or `[]`
followed by `.`, `[]` or the end: it yields the empty key. -/
def emptyKey : List Char → List String
  | ['.'] => [""]
  | '.' :: '.' :: _ => [""]
  | '.' :: '[' :: ']' :: _ => [""]
  | ['[', ']'] => [""]
  | '[' :: ']' :: '.' :: _ => [""]
  | '[' :: ']' :: '[' :: ']' :: _ => [""]
  | _ => []

/-- The key made of the characters collected so far, if any. -/
def flushRun : Option (List Char) → List String
  | some run => [String.mk run]
  | none => []

/-- The matches of `rePropName` from left to right: `skip` characters of a
bracket expression already matched are passed over, `run` holds the
characters of the run being read. -/
def scanProps : Nat → Option (List Char) → List Char → List String
  | _, run, [] => flushRun run
  | skip + 1, run, _ :: rest => scanProps skip run rest
  | 0, run, c :: rest =>
    if c == '.' || c == '[' || c == ']' then
      flushRun run ++
        (match (if c == '[' then bracketKey rest else none) with
         | some (key, taken) => key :: scanProps taken none rest
         | none => emptyKey (c :: rest) ++ scanProps 0 none rest)
    else scanProps 0 (some (run.getD [] ++ [c])) rest

/-- `stringToPath(name)`. -/
def stringToPath (name : String) : List String :=
  (match name.data with
   | '.' :: _ => [""]
   | _ => []) ++ scanProps 0 none name.data

/-- Some `[` is followed by characters other than brackets and a `]`, or by a
quoted string and a `]`. -/
def hasBracketExpr : List Char → Bool
  | [] => false
  | c :: rest =>
    (c == '[' &&
      ((rest.dropWhile (fun d => d != '[' && d != ']')).head? == some ']' ||
       (match rest with
        | q :: body =>
          (q == '"' || q == '\'') &&
            (match scanQuoted q body with
             | some (_, ']' :: _) => true
             | _ => false)
        | [] => false))) ||
    hasBracketExpr rest

/-- `reIsDeepProp.test(name)`: the name holds a dot or a bracket expression. -/
def isDeepProp (name : String) : Bool :=
  name.data.any (· == '.') || hasBracketExpr name.data

/-- `castPath(name, bag)`: the name is one key when `isKey(name, bag)`, that
is when it is a plain name, holds no path syntax or is itself a key of the
bag; otherwise it is split by `stringToPath`. -/
def castPath (name : String) (bag : Bag) : List String :=
  if isPlainProp name || !isDeepProp name || (bag.lookup name).isSome then [name]
  else stringToPath name

/-- The value of an array index key: decimal digits without a leading zero. -/
def indexKey (key : String) : Option Nat :=
  match key.data with
  | [] => none
  | ['0'] => some 0
  | '0' :: _ => none
  | cs => if cs.all Char.isDigit then some (cs.foldl (fun n c => 10 * n + (c.toNat - 48)) 0)
          else none

/-- The own property `key` of a value, if it has one
(`hasOwnProperty.call(value, key)` and `value[key]`): an entry of a plain
object or of a class instance, an index or the length of an array or of a
string. Functions and placeholder instances carry no property in this model. -/
def ownProp : JSVal → String → Option JSVal
  | .obj fields, key => fields.lookup key
  | .inst _ fields, key => fields.lookup key
  | .arr items, key =>
    if key == "length" then some (.num items.length)
    else (indexKey key).bind (fun i => items.get? i)
  | .str s, key =>
    if key == "length" then some (.num s.length)
    else (indexKey key).bind (fun i => (s.data.get? i).map (fun c => .str (String.mk [c])))
  | _, _ => none

/-- The value reached from `value` along the keys, each an own property of
the value before it. -/
def followPath : JSVal → List String → Option JSVal
  | value, [] => some value
  | value, key :: keys =>
    match ownProp value key with
    | some next => followPath next keys
    | none => none

/-- `_.has(bag, name)` together with `_.get(bag, name)`: the value found at
the path `name`, `none` when `_.has` is false. -/
def lodashFind (bag : Bag) (name : String) : Option JSVal :=
  match castPath name bag with
  | [] => none
  | path => followPath (.obj bag) path

/-- The name is read as one key whatever the bag holds: it is a plain name or
holds no dot and no bracket expression. -/
def hasNoPathSyntax (name : String) : Bool :=
  isPlainProp name || !isDeepProp name

/-- `resolveFromArg(setting, arg, argGroup)`: `_.has(arg, name)` and
`_.get(arg, name)` read the name as a lodash path (`lodashFind`). -/
def resolveFromArg (setting : Placeholder JSVal) (arg : Bag) (argGroup : String) :
    Except ValidationError JSVal :=
  match lodashFind arg setting.name with
  | some v => .ok v
  | none =>
    if setting.required && setting.defaultValue.isUndefined then
      .error ⟨"Required " ++ argGroup ++ " " ++ setting.name ++ " not provided"⟩
    else
      .ok setting.defaultValue

mutual
/-- `mapSettingWithArgs(setting, args)`. The container case calls
`resolveSettings` in the source; its body is written out here so that the
recursion is structural (see `mapSettingWithArgs_arr`, `mapSettingWithArgs_obj`). -/
def mapSettingWithArgs (args env : Bag) : JSVal → Except ValidationError JSVal
  | .pipelineArg p => resolveFromArg p args "arg"
  | .pipelineEnvArg p => resolveFromArg p env "env"
  | .arr items => (mapArray args env items).map JSVal.arr
  | .obj fields => (mapValues args env fields).map JSVal.obj
  | setting => .ok setting
/-- `_.map(settings, setting => this.mapSettingWithArgs(setting, args))`. -/
def mapArray (args env : Bag) : List JSVal → Except ValidationError (List JSVal)
  | [] => .ok []
  | x :: xs =>
    match mapSettingWithArgs args env x with
    | .error e => .error e
    | .ok y =>
      match mapArray args env xs with
      | .error e => .error e
      | .ok ys => .ok (y :: ys)
/-- `_.mapValues(settings, setting => this.mapSettingWithArgs(setting, args))`. -/
def mapValues (args env : Bag) :
    List (String × JSVal) → Except ValidationError (List (String × JSVal))
  | [] => .ok []
  | (k, x) :: xs =>
    match mapSettingWithArgs args env x with
    | .error e => .error e
    | .ok y =>
      match mapValues args env xs with
      | .error e => .error e
      | .ok ys => .ok ((k, y) :: ys)
end

/-- `resolveSettings(settings, args)`; `env` is `process.env`. -/
def resolveSettings (settings : JSVal) (args env : Bag) : Except ValidationError JSVal :=
  match settings with
  | .arr items => (mapArray args env items).map JSVal.arr
  | .obj fields => (mapValues args env fields).map JSVal.obj
  | s => .ok s

/-! ## Pipeline tree -/

/-- Symbolic streams. `transformed p k s c` is the value returned by the call
`p(k, s, c)` of a transform processor; `fork s` is `highland(s).fork()`. -/
inductive Stream where
  | root
  | transformed (processor key : String) (input : Stream) (settings : JSVal)
  | fork (source : Stream)
  deriving Inhabited

/-- Modelled from the spec: `Pipeline.js` (the pipeline classes) is missing.
An element of a stage list or of a fork list: an instance of one of the four
pipeline classes tested with `instanceof`, a JavaScript array, or any other
value. Processors are named by a string. -/
inductive Pipeline where
  /-- an `InputPipeline` -/
  | input (key : String)
  /-- a `TransformPipeline` with `key()`, `transformProcessor()`, `settings()` -/
  | transform (key processor : String) (settings : JSVal)
  /-- an `OutputPipeline` with `key()`, `outputProcessor()`, `settings()` -/
  | output (key processor : String) (settings : JSVal)
  /-- a `ChildPipeline` with its stage list `pipelines()` -/
  | child (pipelines : List Pipeline)
  /-- a JavaScript array (`_.isArray`): a fork sequence -/
  | array (items : List Pipeline)
  /-- any other value -/
  | other (tag : String)

/-- The third argument of an output processor,
`_.defaultsDeep({resolve}, settings)`: the object holding under the key
`resolve` the resolver of the promise numbered `resolve`, completed by lodash
with the properties of the resolved `settings`. -/
structure OutputSettings where
  resolve : Nat
  settings : JSVal

/-- A processor invocation observed during a run. -/
inductive Call where
  /-- `pipeline.transformProcessor()(key, stream, settings)` -/
  | transform (processor key : String) (stream : Stream) (settings : JSVal)
  /-- `childPipeline.outputProcessor()(key, stream, settings)` -/
  | output (processor key : String) (stream : Stream) (settings : OutputSettings)

/-- Working state of one `runPipeline` invocation: the `promises` array (a
promise is named by the position at which it is pushed) and the processor
invocations made so far, oldest first. -/
structure RunState where
  promises : List Nat
  calls : List Call

/-- The message of both configuration errors of the executor. -/
def multiChildMessage : String := "Multi child pipeline can be either output or fork only"

/-- `promises.push(new Promise(resolve => outputProcessor(key, fork, ...)))`:
the executor of the promise runs at once, so the processor is invoked before
the promise is pushed. -/
def RunState.pushOutput (st : RunState) (processor key : String) (stream : Stream)
    (settings : JSVal) : RunState :=
  { promises := st.promises ++ [st.promises.length],
    calls := st.calls ++ [Call.output processor key (Stream.fork stream)
      ⟨st.promises.length, settings⟩] }

/-- The invocation of a transform processor. -/
def RunState.pushTransform (st : RunState) (processor key : String) (stream : Stream)
    (settings : JSVal) : RunState :=
  { st with calls := st.calls ++ [Call.transform processor key stream settings] }

/-! ## Executor -/

mutual
/-- `buildStreamPipeline(stream, pipelines)`: the outer `_.forEach` over a stage
list, threading the local variable `stream`. The result is the state reached
and the error thrown, if any. -/
def buildStreamPipeline (args env : Bag) :
    List Pipeline → RunState → Stream → RunState × Option ValidationError
  | [] => fun st _ => (st, none)
  | pipeline :: rest => fun st stream =>
    match stageStep args env pipeline st stream with
    | (st', .ok stream') => buildStreamPipeline args env rest st' stream'
    | (st', .error e) => (st', some e)
termination_by structural ps => ps
/-- The body of the outer `_.forEach`: one stage, with a transform processor
that returns its result stream (`stageStepWith` has the processor as a
parameter). It returns the state reached and the value of `stream` after the
stage, or the error thrown. -/
def stageStep (args env : Bag) :
    Pipeline → RunState → Stream → RunState × Except ValidationError Stream
  | .array items => fun st stream =>
    match forEachChild args env items st stream with
    | (st', none) => (st', .ok stream)
    | (st', some e) => (st', .error e)
  | .transform key processor settings => fun st stream =>
    match resolveSettings settings args env with
    | .error e => (st, .error e)
    | .ok s =>
      (st.pushTransform processor key stream s, .ok (Stream.transformed processor key stream s))
  | .input _ => fun st stream => (st, .ok stream)
  | .output _ _ _ => fun st _ => (st, .error ⟨multiChildMessage⟩)
  | .child _ => fun st _ => (st, .error ⟨multiChildMessage⟩)
  | .other _ => fun st _ => (st, .error ⟨multiChildMessage⟩)
termination_by structural p => p
/-- The inner `_.forEach` over the entries of a fork sequence. -/
def forEachChild (args env : Bag) :
    List Pipeline → RunState → Stream → RunState × Option ValidationError
  | [] => fun st _ => (st, none)
  | childPipeline :: rest => fun st stream =>
    match childStep args env childPipeline st stream with
    | (st', none) => forEachChild args env rest st' stream
    | (st', some e) => (st', some e)
termination_by structural ps => ps
/-- The body of the inner `_.forEach`: one entry of a fork sequence. -/
def childStep (args env : Bag) :
    Pipeline → RunState → Stream → RunState × Option ValidationError
  | .output key processor settings => fun st stream =>
    match resolveSettings settings args env with
    | .error e => (st, some e)
    | .ok s => (st.pushOutput processor key stream s, none)
  | .child pipelines => fun st stream =>
    buildStreamPipeline args env pipelines st (Stream.fork stream)
  | .input _ => fun st _ => (st, some ⟨multiChildMessage⟩)
  | .transform _ _ _ => fun st _ => (st, some ⟨multiChildMessage⟩)
  | .array _ => fun st _ => (st, some ⟨multiChildMessage⟩)
  | .other _ => fun st _ => (st, some ⟨multiChildMessage⟩)
termination_by structural p => p
end

/-- The result of `runPipeline`: the processor invocations it made, and either
the returned `promises` or the error it threw. -/
structure RunResult where
  calls : List Call
  result : Except ValidationError (List Nat)

/-- `runPipeline(rootStream)` for a processor whose `rootPipeline().pipelines()`
is `pipelines`, whose `args()` is `args`, under the environment `env`. -/
def runPipeline (pipelines : List Pipeline) (args env : Bag) (rootStream : Stream) :
    RunResult :=
  match buildStreamPipeline args env pipelines ⟨[], []⟩ rootStream with
  | (st, none) => ⟨st.calls, .ok st.promises⟩
  | (st, some e) => ⟨st.calls, .error e⟩

mutual
/-- Number of `OutputPipeline` leaves reachable from a stage list: the sum
over its stages. -/
def countStageOutputs : List Pipeline → Nat
  | [] => 0
  | pipeline :: rest => stageOutputs pipeline + countStageOutputs rest
termination_by structural ps => ps
/-- Output leaves reachable from one stage: those of a fork sequence. -/
def stageOutputs : Pipeline → Nat
  | .array items => countForkOutputs items
  | _ => 0
termination_by structural p => p
/-- Number of `OutputPipeline` leaves reachable from a fork list. -/
def countForkOutputs : List Pipeline → Nat
  | [] => 0
  | childPipeline :: rest => childOutputs childPipeline + countForkOutputs rest
termination_by structural ps => ps
/-- Output leaves reachable from one fork entry: an `OutputPipeline` is one
leaf, a `ChildPipeline` contributes the leaves of its stage list. -/
def childOutputs : Pipeline → Nat
  | .output _ _ _ => 1
  | .child pipelines => countStageOutputs pipelines
  | _ => 0
termination_by structural p => p
end

/-! ## Specification-side definitions -/

/-- The values that are neither a placeholder nor a container the resolver
walks into: every "other literal". -/
def JSVal.isLiteral : JSVal → Bool
  | .arr _ => false
  | .obj _ => false
  | .pipelineArg _ => false
  | .pipelineEnvArg _ => false
  | _ => true

mutual
/-- The resolution of a template as the spec words it: a sequence is resolved
element-wise in order, a mapping value-wise under the same keys in the same
order, a `PipelineArg` leaf is replaced by its value from the argument bag, a
`PipelineEnvArg` leaf by its value from the environment, and any other value
is kept. -/
inductive ResolvesTo (args env : Bag) : JSVal → JSVal → Prop where
  | arg (p : Placeholder JSVal) (v : JSVal) :
      resolveFromArg p args "arg" = .ok v → ResolvesTo args env (.pipelineArg p) v
  | envArg (p : Placeholder JSVal) (v : JSVal) :
      resolveFromArg p env "env" = .ok v → ResolvesTo args env (.pipelineEnvArg p) v
  | seq (xs ys : List JSVal) :
      ItemsResolveTo args env xs ys → ResolvesTo args env (.arr xs) (.arr ys)
  | mapping (fs gs : List (String × JSVal)) :
      FieldsResolveTo args env fs gs → ResolvesTo args env (.obj fs) (.obj gs)
  | literal (v : JSVal) : v.isLiteral = true → ResolvesTo args env v v
/-- Element-wise resolution of a sequence: same length, same order. -/
inductive ItemsResolveTo (args env : Bag) : List JSVal → List JSVal → Prop where
  | nil : ItemsResolveTo args env [] []
  | cons (x y : JSVal) (xs ys : List JSVal) :
      ResolvesTo args env x y → ItemsResolveTo args env xs ys →
      ItemsResolveTo args env (x :: xs) (y :: ys)
/-- Value-wise resolution of a mapping: the same keys in the same order. -/
inductive FieldsResolveTo (args env : Bag) :
    List (String × JSVal) → List (String × JSVal) → Prop where
  | nil : FieldsResolveTo args env [] []
  | cons (k : String) (x y : JSVal) (fs gs : List (String × JSVal)) :
      ResolvesTo args env x y → FieldsResolveTo args env fs gs →
      FieldsResolveTo args env ((k, x) :: fs) ((k, y) :: gs)
end

/-- The walk of a stage list as `buildStreamPipeline` performs it, reporting
in addition the value of the local variable `stream` when the walk ends
(`buildStreamPipeline_eq_walkStages` relates the two). -/
def walkStages (args env : Bag) :
    List Pipeline → RunState → Stream → RunState × Except ValidationError Stream
  | [] => fun st stream => (st, .ok stream)
  | pipeline :: rest => fun st stream =>
    match stageStep args env pipeline st stream with
    | (st', .ok stream') => walkStages args env rest st' stream'
    | (st', .error e) => (st', .error e)

/-- An entry that a fork sequence accepts: an `OutputPipeline` or a
`ChildPipeline`. -/
def Pipeline.isForkEntry : Pipeline → Bool
  | .output _ _ _ => true
  | .child _ => true
  | _ => false

/-- A transform stage with its settings resolved: key, processor, settings. -/
structure TransformStep where
  key : String
  processor : String
  settings : JSVal

/-- The transforms of a stage list made of `TransformPipeline` stages and
`InputPipeline` markers only, in definition order, each with its settings
template resolved against the argument bag; `none` when the list holds another
kind of stage or a template does not resolve. -/
def resolvedChain (args env : Bag) : List Pipeline → Option (List TransformStep)
  | [] => some []
  | .transform key processor settings :: rest =>
    match resolveSettings settings args env with
    | .ok s => (resolvedChain args env rest).map (fun ts => ⟨key, processor, s⟩ :: ts)
    | .error _ => none
  | .input _ :: rest => resolvedChain args env rest
  | _ :: _ => none

/-- The stream `Tn(kn, ... T1(k1, stream, s1) ..., sn)`. -/
def applyChain (stream : Stream) (ts : List TransformStep) : Stream :=
  ts.foldl (fun acc t => Stream.transformed t.processor t.key acc t.settings) stream

/-- The invocations of a chain of transforms: each once, in order, each on
the output of the previous one. -/
def chainCalls (stream : Stream) : List TransformStep → List Call
  | [] => []
  | t :: rest =>
    Call.transform t.processor t.key stream t.settings ::
      chainCalls (Stream.transformed t.processor t.key stream t.settings) rest

/-- A placeholder that cannot be resolved against a bag: `_.has` does not find
its name in the bag (`lodashFind`), it is required, and it has no default
value. -/
def isMissingIn (p : Placeholder JSVal) (bag : Bag) : Bool :=
  (lodashFind bag p.name).isNone && p.required && p.defaultValue.isUndefined

mutual
/-- A value is, or holds at some depth through nested mappings and sequences,
a placeholder that cannot be resolved. -/
def hasMissing (args env : Bag) : JSVal → Bool
  | .pipelineArg p => isMissingIn p args
  | .pipelineEnvArg p => isMissingIn p env
  | .arr items => anyMissing args env items
  | .obj fields => anyFieldMissing args env fields
  | _ => false
/-- Some element of a sequence `hasMissing`. -/
def anyMissing (args env : Bag) : List JSVal → Bool
  | [] => false
  | x :: xs => hasMissing args env x || anyMissing args env xs
/-- Some value of a mapping `hasMissing`. -/
def anyFieldMissing (args env : Bag) : List (String × JSVal) → Bool
  | [] => false
  | (_, x) :: fs => hasMissing args env x || anyFieldMissing args env fs
end

/-- A settings template (a mapping or a sequence) contains a placeholder that
cannot be resolved. -/
def templateHasMissing (args env : Bag) : JSVal → Bool
  | .arr items => anyMissing args env items
  | .obj fields => anyFieldMissing args env fields
  | _ => false

/-- The invocation is that of an output processor. -/
def Call.isOutput : Call → Bool
  | .output _ _ _ _ => true
  | .transform _ _ _ _ => false

/-- Number of output-processor invocations in a list of invocations. -/
def outputCallCount (calls : List Call) : Nat :=
  calls.countP Call.isOutput

/-! ### Walk order -/

/-- What the walk meets, in walk order: the transform and output stages, and
the elements it rejects. -/
inductive Item where
  | transform (key processor : String) (settings : JSVal)
  | output (key processor : String) (settings : JSVal)
  /-- a stage that is no array, `TransformPipeline` or `InputPipeline` -/
  | malformedStage
  /-- a fork entry that is no `OutputPipeline` or `ChildPipeline` -/
  | malformedEntry

mutual
/-- The elements of a stage list in walk order: stage lists and fork lists in
definition order, a `ChildPipeline` descended into where it occurs. -/
def walkOrder : List Pipeline → List Item
  | [] => []
  | pipeline :: rest => stageItems pipeline ++ walkOrder rest
termination_by structural ps => ps
/-- The elements met at one stage. -/
def stageItems : Pipeline → List Item
  | .array items => forkItems items
  | .transform key processor settings => [.transform key processor settings]
  | .input _ => []
  | _ => [.malformedStage]
termination_by structural p => p
/-- The elements of a fork list in walk order. -/
def forkItems : List Pipeline → List Item
  | [] => []
  | childPipeline :: rest => entryItems childPipeline ++ forkItems rest
termination_by structural ps => ps
/-- The elements met at one fork entry. -/
def entryItems : Pipeline → List Item
  | .output key processor settings => [.output key processor settings]
  | .child pipelines => walkOrder pipelines
  | _ => [.malformedEntry]
termination_by structural p => p
end

/-- A processor invocation without its stream: which processor, under which
key, with which resolved settings. -/
inductive Invoked where
  | transform (processor key : String) (settings : JSVal)
  | output (processor key : String) (settings : JSVal)

/-- The invocation made by a call, its stream and resolver left out. -/
def Call.invoked : Call → Invoked
  | .transform processor key _ settings => .transform processor key settings
  | .output processor key _ settings => .output processor key settings.settings

/-- What meeting an element does: the invocation of its processor with the
resolved settings, or the error raised. -/
def Item.invoke (args env : Bag) : Item → Except ValidationError Invoked
  | .transform key processor settings =>
    (resolveSettings settings args env).map (Invoked.transform processor key)
  | .output key processor settings =>
    (resolveSettings settings args env).map (Invoked.output processor key)
  | .malformedStage => .error ⟨multiChildMessage⟩
  | .malformedEntry => .error ⟨multiChildMessage⟩

/-- The elements are met one after the other until the first that raises:
the invocations made, and the error if any. -/
def scanItems (args env : Bag) : List Item → List Invoked × Option ValidationError
  | [] => ([], none)
  | item :: rest =>
    match item.invoke args env with
    | .error e => ([], some e)
    | .ok v => (v :: (scanItems args env rest).1, (scanItems args env rest).2)

/-- The error of a stage step, if any. -/
def stepError : Except ValidationError Stream → Option ValidationError
  | .error e => some e
  | .ok _ => none

/-! ### Values without placeholders -/

mutual
/-- The value is no placeholder and holds none at any depth through nested
mappings and sequences. -/
def placeholderFree : JSVal → Bool
  | .pipelineArg _ => false
  | .pipelineEnvArg _ => false
  | .arr items => allFree items
  | .obj fields => allFieldsFree fields
  | _ => true
/-- Every element of a sequence is `placeholderFree`. -/
def allFree : List JSVal → Bool
  | [] => true
  | x :: xs => placeholderFree x && allFree xs
/-- Every value of a mapping is `placeholderFree`. -/
def allFieldsFree : List (String × JSVal) → Bool
  | [] => true
  | (_, x) :: fs => placeholderFree x && allFieldsFree fs
end

mutual
/-- Every placeholder met in the template, at any depth through nested
mappings and sequences, has a default value that is `placeholderFree`. -/
def defaultsFree : JSVal → Bool
  | .pipelineArg p => placeholderFree p.defaultValue
  | .pipelineEnvArg p => placeholderFree p.defaultValue
  | .arr items => allDefaultsFree items
  | .obj fields => allFieldDefaultsFree fields
  | _ => true
/-- Every element of a sequence is `defaultsFree`. -/
def allDefaultsFree : List JSVal → Bool
  | [] => true
  | x :: xs => defaultsFree x && allDefaultsFree xs
/-- Every value of a mapping is `defaultsFree`. -/
def allFieldDefaultsFree : List (String × JSVal) → Bool
  | [] => true
  | (_, x) :: fs => defaultsFree x && allFieldDefaultsFree fs
end

/-- Every value of the bag is `placeholderFree`. -/
def bagFree (bag : Bag) : Bool :=
  bag.all (fun kv => placeholderFree kv.2)

mutual
/-- The value is data: it is no function and no placeholder instance, and it
holds none at any depth through sequences, mappings and the fields of
instances. -/
def isData : JSVal → Bool
  | .func _ => false
  | .pipelineArg _ => false
  | .pipelineEnvArg _ => false
  | .arr items => allData items
  | .obj fields => allFieldsData fields
  | .inst _ fields => allFieldsData fields
  | _ => true
/-- Every element of a sequence `isData`. -/
def allData : List JSVal → Bool
  | [] => true
  | x :: xs => isData x && allData xs
/-- Every value of a mapping `isData`. -/
def allFieldsData : List (String × JSVal) → Bool
  | [] => true
  | (_, x) :: fs => isData x && allFieldsData fs
end

/-- Every value of the bag `isData`. -/
def bagData (bag : Bag) : Bool :=
  allFieldsData bag

mutual
/-- Every placeholder met in the template, at any depth through nested
mappings and sequences, has a name without path syntax. -/
def namesPlain : JSVal → Bool
  | .pipelineArg p => hasNoPathSyntax p.name
  | .pipelineEnvArg p => hasNoPathSyntax p.name
  | .arr items => allNamesPlain items
  | .obj fields => allFieldNamesPlain fields
  | _ => true
/-- Every element of a sequence has `namesPlain`. -/
def allNamesPlain : List JSVal → Bool
  | [] => true
  | x :: xs => namesPlain x && allNamesPlain xs
/-- Every value of a mapping has `namesPlain`. -/
def allFieldNamesPlain : List (String × JSVal) → Bool
  | [] => true
  | (_, x) :: fs => namesPlain x && allFieldNamesPlain fs
end

/-- What `_.has` finds for the name in the bag, if anything, is
`placeholderFree`. -/
def findFree (bag : Bag) (name : String) : Bool :=
  match lodashFind bag name with
  | some v => placeholderFree v
  | none => true

mutual
/-- Every placeholder met in the template, at any depth through nested
mappings and sequences, has a name that is `findFree` in its bag. -/
def foundFree (args env : Bag) : JSVal → Bool
  | .pipelineArg p => findFree args p.name
  | .pipelineEnvArg p => findFree env p.name
  | .arr items => allFoundFree args env items
  | .obj fields => allFieldsFoundFree args env fields
  | _ => true
/-- Every element of a sequence is `foundFree`. -/
def allFoundFree (args env : Bag) : List JSVal → Bool
  | [] => true
  | x :: xs => foundFree args env x && allFoundFree args env xs
/-- Every value of a mapping is `foundFree`. -/
def allFieldsFoundFree (args env : Bag) : List (String × JSVal) → Bool
  | [] => true
  | (_, x) :: fs => foundFree args env x && allFieldsFoundFree args env fs
end

/-! ### Handles and output leaves -/

/-- The resolver handed to an output processor: the number of the promise it
settles. -/
def Call.resolver : Call → Option Nat
  | .output _ _ _ settings => some settings.resolve
  | .transform _ _ _ _ => none

/-- The element is an `OutputPipeline` leaf. -/
def Item.isOutput : Item → Bool
  | .output _ _ _ => true
  | _ => false

/-- The element is one the walk rejects. -/
def Item.isMalformed : Item → Bool
  | .malformedStage => true
  | .malformedEntry => true
  | _ => false

/-- The settings template of a transform or output element. -/
def Item.template : Item → Option JSVal
  | .transform _ _ settings => some settings
  | .output _ _ settings => some settings
  | _ => none

/-- The promises are numbered in push order and the output invocations made
so far carry, in order, the resolvers of exactly these promises. -/
def RunState.Aligned (st : RunState) : Prop :=
  (st.calls.filter Call.isOutput).map Call.resolver = st.promises.map some ∧
  st.promises = List.range st.promises.length

/-! ### Processors that raise -/

/-- What an invocation of a transform processor does: it returns its result
stream, or it raises. -/
inductive TransformOutcome where
  | returns
  | raises (error : String)

/-- What an invocation of an output processor does with the `resolve` signal
it is handed, the only signal there is (`_.defaultsDeep({resolve}, settings)`
holds no `reject`). -/
inductive Outcome where
  /-- it raises during the invocation, not having invoked `resolve` -/
  | raises (error : String)
  /-- it invokes `resolve`, during the invocation or later -/
  | resolves
  /-- it invokes `resolve` with a promise that is rejected with `error` -/
  | resolvesRejected (error : String)
  /-- it returns and fails afterwards with `error`, never invoking `resolve` -/
  | failsLater (error : String)
  /-- it returns and never invokes `resolve` -/
  | idle

/-- The state in which a promise ends. -/
inductive HandleState where
  | pending
  | fulfilled
  | rejected (error : String)

/-- `new Promise(resolve => outputProcessor(...))`: the executor runs at once;
what it raises rejects the promise and is not raised by `new Promise`; a call
of `resolve` fulfils the promise, or makes it follow the promise it is given;
otherwise the promise stays pending. -/
def newPromise : Outcome → HandleState
  | .raises error => .rejected error
  | .resolves => .fulfilled
  | .resolvesRejected error => .rejected error
  | .failsLater _ => .pending
  | .idle => .pending

/-- The behaviour of the processors of a run. A transform invocation is
identified by the number of invocations made before it and by its arguments,
an output invocation by its arguments, among them the resolver of its own
promise. -/
structure Processors where
  transform : Nat → Call → TransformOutcome
  output : Call → Outcome

/-- What a run raises: a `ValidationError` of the resolver or of the executor,
or what a transform processor raised. -/
inductive RunError where
  | validation (e : ValidationError)
  | raised (error : String)

/-- Working state of one `runPipeline` invocation with the promises
themselves: the `promises` array, each promise given by the state in which it
ends (a promise is named by its position), and the invocations made so far. -/
structure WalkState where
  promises : List HandleState
  calls : List Call

/-- `promises.push(new Promise(resolve => outputProcessor(key, fork, ...)))`
with the promise constructed from what the processor does. -/
def WalkState.pushOutput (procs : Processors) (st : WalkState) (processor key : String)
    (stream : Stream) (settings : JSVal) : WalkState :=
  { promises := st.promises ++
      [newPromise (procs.output (Call.output processor key (Stream.fork stream)
        ⟨st.promises.length, settings⟩))],
    calls := st.calls ++ [Call.output processor key (Stream.fork stream)
      ⟨st.promises.length, settings⟩] }

/-- The invocation of a transform processor. -/
def WalkState.pushTransform (st : WalkState) (processor key : String) (stream : Stream)
    (settings : JSVal) : WalkState :=
  { st with calls := st.calls ++ [Call.transform processor key stream settings] }

/-- The state with each promise replaced by its number. -/
def WalkState.erase (st : WalkState) : RunState :=
  ⟨List.range st.promises.length, st.calls⟩

mutual
/-- `buildStreamPipeline(stream, pipelines)` with processors that behave as
`procs` says: the outer `_.forEach` over a stage list. -/
def buildStreamPipelineWith (procs : Processors) (args env : Bag) :
    List Pipeline → WalkState → Stream → WalkState × Option RunError
  | [] => fun st _ => (st, none)
  | pipeline :: rest => fun st stream =>
    match stageStepWith procs args env pipeline st stream with
    | (st', .ok stream') => buildStreamPipelineWith procs args env rest st' stream'
    | (st', .error e) => (st', some e)
termination_by structural ps => ps
/-- The body of the outer `_.forEach`: one stage. The call of the transform
processor is not guarded: what the processor raises ends the walk. -/
def stageStepWith (procs : Processors) (args env : Bag) :
    Pipeline → WalkState → Stream → WalkState × Except RunError Stream
  | .array items => fun st stream =>
    match forEachChildWith procs args env items st stream with
    | (st', none) => (st', .ok stream)
    | (st', some e) => (st', .error e)
  | .transform key processor settings => fun st stream =>
    match resolveSettings settings args env with
    | .error e => (st, .error (.validation e))
    | .ok s =>
      match procs.transform st.calls.length (Call.transform processor key stream s) with
      | .returns =>
        (st.pushTransform processor key stream s,
          .ok (Stream.transformed processor key stream s))
      | .raises error => (st.pushTransform processor key stream s, .error (.raised error))
  | .input _ => fun st stream => (st, .ok stream)
  | .output _ _ _ => fun st _ => (st, .error (.validation ⟨multiChildMessage⟩))
  | .child _ => fun st _ => (st, .error (.validation ⟨multiChildMessage⟩))
  | .other _ => fun st _ => (st, .error (.validation ⟨multiChildMessage⟩))
termination_by structural p => p
/-- The inner `_.forEach` over the entries of a fork sequence. -/
def forEachChildWith (procs : Processors) (args env : Bag) :
    List Pipeline → WalkState → Stream → WalkState × Option RunError
  | [] => fun st _ => (st, none)
  | childPipeline :: rest => fun st stream =>
    match childStepWith procs args env childPipeline st stream with
    | (st', none) => forEachChildWith procs args env rest st' stream
    | (st', some e) => (st', some e)
termination_by structural ps => ps
/-- The body of the inner `_.forEach`: one entry of a fork sequence. The
output processor is invoked inside the executor of its promise, so the walk
goes on whatever the processor does. -/
def childStepWith (procs : Processors) (args env : Bag) :
    Pipeline → WalkState → Stream → WalkState × Option RunError
  | .output key processor settings => fun st stream =>
    match resolveSettings settings args env with
    | .error e => (st, some (.validation e))
    | .ok s => (st.pushOutput procs processor key stream s, none)
  | .child pipelines => fun st stream =>
    buildStreamPipelineWith procs args env pipelines st (Stream.fork stream)
  | .input _ => fun st _ => (st, some (.validation ⟨multiChildMessage⟩))
  | .transform _ _ _ => fun st _ => (st, some (.validation ⟨multiChildMessage⟩))
  | .array _ => fun st _ => (st, some (.validation ⟨multiChildMessage⟩))
  | .other _ => fun st _ => (st, some (.validation ⟨multiChildMessage⟩))
termination_by structural p => p
end

/-- The result of `runPipeline` with the promises themselves: the processor
invocations made, and either the returned `promises`, each given by the state
in which it ends, or what was raised. -/
structure RunOutcome where
  calls : List Call
  result : Except RunError (List HandleState)

/-- `runPipeline(rootStream)` with processors that behave as `procs` says. -/
def runPipelineWith (procs : Processors) (pipelines : List Pipeline) (args env : Bag)
    (rootStream : Stream) : RunOutcome :=
  match buildStreamPipelineWith procs args env pipelines ⟨[], []⟩ rootStream with
  | (st, none) => ⟨st.calls, .ok st.promises⟩
  | (st, some e) => ⟨st.calls, .error e⟩

/-- The error of a stage step with processors, if any. -/
def stepErrorWith : Except RunError Stream → Option RunError
  | .error e => some e
  | .ok _ => none

/-- The two states hold the same invocations and as many promises. -/
def WalkState.Similar (st st' : WalkState) : Prop :=
  st.calls = st'.calls ∧ st.promises.length = st'.promises.length

/-- A walk with processors against the walk in which every processor returns:
as long as no transform processor raises the two agree, and a walk ended by a
transform processor that raises has made invocations that the other walk
makes first, the last of them being the one that raised. -/
def simulates (procs : Processors) (walk : WalkState × Option RunError)
    (plain : RunState × Option ValidationError) : Prop :=
  match walk.2 with
  | none => plain = (walk.1.erase, none)
  | some (.validation e) => plain = (walk.1.erase, some e)
  | some (.raised x) =>
    (∃ more, plain.1.calls = walk.1.calls ++ more) ∧
    ∃ cs c, walk.1.calls = cs ++ [c] ∧ c.isOutput = false ∧
      procs.transform cs.length c = .raises x

/-- The relation `simulates` for one stage, with the value of `stream` after
the stage. -/
def simulatesStep (procs : Processors) (walk : WalkState × Except RunError Stream)
    (plain : RunState × Except ValidationError Stream) : Prop :=
  match walk.2 with
  | .ok s => plain = (walk.1.erase, .ok s)
  | .error (.validation e) => plain = (walk.1.erase, .error e)
  | .error (.raised x) =>
    (∃ more, plain.1.calls = walk.1.calls ++ more) ∧
    ∃ cs c, walk.1.calls = cs ++ [c] ∧ c.isOutput = false ∧
      procs.transform cs.length c = .raises x

/-- Each output invocation made so far was handed the resolver of a promise
of the state, and that promise is the one constructed from what the processor
does with this invocation. -/
def WalkState.Settled (procs : Processors) (st : WalkState) : Prop :=
  ∀ c ∈ st.calls, ∀ h, c.resolver = some h →
    st.promises.get? h = some (newPromise (procs.output c))

/-! ## FilePattern input processor -/

/-- JavaScript truthiness (`!x` is its negation). Numbers are integers in this
model, so the falsy number is 0. -/
def JSVal.truthy : JSVal → Bool
  | .undefined => false
  | .null => false
  | .bool b => b
  | .num n => n != 0
  | .str s => s != ""
  | _ => true

/-- `_.isString(x)`. -/
def JSVal.isString : JSVal → Bool
  | .str _ => true
  | _ => false

/-- `_.isObject(x)`: arrays, functions, plain objects and class instances. -/
def JSVal.isObject : JSVal → Bool
  | .arr _ => true
  | .obj _ => true
  | .func _ => true
  | .inst _ _ => true
  | .pipelineArg _ => true
  | .pipelineEnvArg _ => true
  | _ => false

/-- The property read `x.pattern` on a truthy `x`: the entry of a plain object
or of a class instance, `undefined` when there is none and on the other
values, which carry no such property in this model. -/
def patternOf : JSVal → JSVal
  | .obj fields => (fields.lookup "pattern").getD .undefined
  | .inst _ fields => (fields.lookup "pattern").getD .undefined
  | _ => .undefined

namespace FilePattern

/-- The factory closure returned by `builder`,
`(rootPipeline, params, args) => new FilePatternInputProcessor(...)`. -/
inductive ProcessorFactory where
  | filePatternInputProcessor

/-- The record returned by `builder`. -/
structure BuilderResult where
  settings : JSVal
  inputProcessor : ProcessorFactory

/-- `builder(buildKey, fileNameOrSettings)`. -/
def builder (_buildKey : JSVal) (fileNameOrSettings : JSVal) : BuilderResult :=
  let settings :=
    if fileNameOrSettings.truthy then
      if fileNameOrSettings.isString then JSVal.obj [("input", fileNameOrSettings)]
      else if fileNameOrSettings.isObject then fileNameOrSettings
      else JSVal.null
    else JSVal.null
  ⟨settings, .filePatternInputProcessor⟩

/-- What `run()` does, in order. The argument of `_processFile` is
`_.defaults({file: item}, that.params())`, recorded by its two ingredients. -/
inductive FileEvent where
  /-- `glob(pattern, callback)` -/
  | glob (pattern : JSVal)
  /-- `that._processFile(...)` is called for a file -/
  | started (file : String) (params : JSVal)
  /-- the promise returned for the file is fulfilled -/
  | completed (file : String)
  /-- the promise returned for the file is rejected -/
  | failed (file : String) (error : String)

/-- `Promise.mapSeries(files, item => that._processFile(...))`: the files are
taken one after the other, the promise of each awaited before the next call;
the first rejection rejects the result and ends the iteration. `processFile`
gives the outcome of `_processFile` (`File.js`, not part of the sources) for a
file. The result is the events and the outcome of the returned promise. -/
def mapSeries (processFile : String → JSVal → Except String JSVal) (params : JSVal) :
    List String → List FileEvent × Except String (List JSVal)
  | [] => ([], .ok [])
  | file :: rest =>
    match processFile file params with
    | .error e => ([.started file params, .failed file e], .error e)
    | .ok r =>
      (.started file params :: .completed file :: (mapSeries processFile params rest).1,
        (mapSeries processFile params rest).2.map (fun rs => r :: rs))

/-- The promise returned by `run()`: what happened, and its outcome. -/
structure FileRun where
  events : List FileEvent
  settled : Except String (List JSVal)

/-- `FilePatternInputProcessor.run()` for a processor whose `params()` is
`params`; `glob` gives the outcome of the file match (an error or the files). -/
def run (params : JSVal) (glob : JSVal → Except String (List String))
    (processFile : String → JSVal → Except String JSVal) : Except ValidationError FileRun :=
  if !params.truthy || !(patternOf params).truthy then
    .error ⟨"Must pass file(s) pattern!"⟩
  else
    match glob (patternOf params) with
    | .error e => .ok ⟨[.glob (patternOf params)], .error e⟩
    | .ok files =>
      .ok ⟨.glob (patternOf params) :: (mapSeries processFile params files).1,
        (mapSeries processFile params files).2⟩

/-- The events of files processed to completion one after the other. -/
def completedEvents (params : JSVal) : List String → List FileEvent
  | [] => []
  | file :: rest => .started file params :: .completed file :: completedEvents params rest

end FilePattern

/-! ## Example inputs -/

/-- The tree of the two-level example: a root fork with one output and one
child pipeline that itself forks into two outputs. -/
def twoLevelTree : List Pipeline :=
  [.input "in",
   .array [.output "o1" "stdout" .null,
           .child [.array [.output "o2" "file" .null, .output "o3" "file" .null]]]]

/-- A bag whose value for `a` is a mapping with the entry `b`. -/
def nestedBag : Bag := [("a", .obj [("b", .num 1)])]

/-- A required placeholder without default whose name is a path. -/
def dottedArg : Placeholder JSVal := ⟨"a.b", true, .undefined, none⟩

/-- An optional placeholder with a default whose name is a path. -/
def dottedDefaultArg : Placeholder JSVal := ⟨"a.b", false, .num 7, none⟩

/-- A required placeholder without default. -/
def patternArg : Placeholder JSVal := ⟨"pattern", true, .undefined, none⟩

/-- An optional placeholder with a default value. -/
def watchArg : Placeholder JSVal := ⟨"watch", false, .bool false, none⟩

/-- A template whose entry `x` names the path `a.b`. -/
def dottedTemplate : JSVal := .obj [("x", .pipelineArg dottedDefaultArg)]

/-- A bag whose value for `a` is an instance holding a placeholder. -/
def instanceBag : Bag := [("a", .inst "Holder" [("b", .pipelineArg watchArg)])]

/-- A placeholder with the allow-set of FilePattern's `mode` argument. -/
def modeArg : Placeholder JSVal := ⟨"mode", false, .undefined, some [.str "gzip", .str "zip"]⟩

/-- A tree whose single output takes its `mode` setting from `modeArg`. -/
def modeTree : List Pipeline :=
  [.input "in", .array [.output "out" "file" (.obj [("mode", .pipelineArg modeArg)])]]

/-- A nested settings template with placeholders at depth two and three. -/
def nestedTemplate : JSVal :=
  .obj [("file", .obj [("pattern", .pipelineArg patternArg),
                       ("flags", .arr [.pipelineArg watchArg, .num 1])]),
        ("label", .str "x")]

/-- A fork list whose second entry is neither an output nor a child pipeline. -/
def malformedForkTree : List Pipeline :=
  [.input "in",
   .array [.output "o1" "stdout" .null, .other "x", .output "o2" "file" .null]]

/-- A tree whose output needs the argument `pattern`, after one transform. -/
def needsPatternTree : List Pipeline :=
  [.input "in",
   .transform "t1" "json" (.obj []),
   .array [.output "o1" "file" (.obj [("path", .pipelineArg patternArg)])]]

/-- A chain of two transforms around an input marker, then a fork with one
output. -/
def chainTree : List Pipeline :=
  [.transform "t1" "json" (.obj [("depth", .num 1)]),
   .input "in",
   .transform "t2" "pick" (.arr [.pipelineArg patternArg]),
   .array [.output "o1" "stdout" .null]]

/-- A template whose only entry is the optional placeholder `a`. -/
def watchTemplate : JSVal := .obj [("x", .pipelineArg ⟨"a", false, .undefined, none⟩)]

/-- A bag whose value for `a` is itself a placeholder. -/
def placeholderBag : Bag := [("a", .pipelineArg watchArg)]

/-- A fork list with a child pipeline, which applies a transform, between two
outputs. -/
def childBetweenOutputs : List Pipeline :=
  [.output "a" "stdout" .null,
   .child [.transform "t" "json" .null, .array [.output "b" "file" .null]],
   .output "c" "s3" .null]

/-- A stage list with a child pipeline placed directly in it, between a
transform and a fork. -/
def childAsStageTree : List Pipeline :=
  [.input "in", .transform "t1" "json" .null, .child [],
   .array [.output "o1" "stdout" .null]]

/-- Processors of which the output processor under key `o2` raises; every
other output processor resolves and every transform processor returns. -/
def failingO2 : Processors where
  transform := fun _ _ => .returns
  output := fun c =>
    match c with
    | .output _ "o2" _ _ => .raises "disk full"
    | _ => .resolves

/-- Processors of which the output processor under key `o2` fails after it
has returned; every other output processor resolves and every transform
processor returns. -/
def lateFailureO2 : Processors where
  transform := fun _ _ => .returns
  output := fun c =>
    match c with
    | .output _ "o2" _ _ => .failsLater "disk full"
    | _ => .resolves

/-- Processors that all return and resolve. -/
def wellBehaved : Processors where
  transform := fun _ _ => .returns
  output := fun _ => .resolves

/-- A stage list with a transform placed after a fork: no element is
malformed. -/
def transformAfterForkTree : List Pipeline :=
  [.input "in", .array [.output "o1" "stdout" .null], .transform "t2" "json" .null,
   .array [.output "o2" "file" .null]]

/-- Processors of which the transform processor under key `t2` raises, as a
highland operator does on a stream that has been forked. -/
def raisingT2 : Processors where
  transform := fun _ c =>
    match c with
    | .transform _ "t2" _ _ => .raises "Stream already being consumed"
    | _ => .returns
  output := fun _ => .resolves

/-- A file match returning three files. -/
def threeFiles : JSVal → Except String (List String) :=
  fun _ => .ok ["a.csv", "b.csv", "c.csv"]

/-- Processing succeeds for every file but `b.csv`. -/
def failsOnB : String → JSVal → Except String JSVal
  | "b.csv", _ => .error "unreadable"
  | file, _ => .ok (.str file)

/-- Processing succeeds for every file. -/
def alwaysDone : String → JSVal → Except String JSVal :=
  fun file _ => .ok (.str file)

/-- Params of a FilePattern processor with a pattern. -/
def csvParams : JSVal := .obj [("pattern", .str "*.csv")]

/-! # Theorems -/

/-! ## Unfolding lemmas -/

theorem mapSettingWithArgs_arr (args env : Bag) (items : List JSVal) :
    mapSettingWithArgs args env (.arr items) = resolveSettings (.arr items) args env := by
  simp [mapSettingWithArgs, resolveSettings]

theorem mapSettingWithArgs_obj (args env : Bag) (fields : List (String × JSVal)) :
    mapSettingWithArgs args env (.obj fields) = resolveSettings (.obj fields) args env := by
  simp [mapSettingWithArgs, resolveSettings]

/-! ## Placeholder resolution -/

theorem lodashFind_of_lookup (bag : Bag) (name : String) (v : JSVal)
    (h : bag.lookup name = some v) : lodashFind bag name = some v := by
  simp [lodashFind, castPath, h, followPath, ownProp]

theorem lodashFind_of_noPathSyntax (bag : Bag) (name : String)
    (h : hasNoPathSyntax name = true) : lodashFind bag name = bag.lookup name := by
  have hc : castPath name bag = [name] := by
    simp only [hasNoPathSyntax] at h
    simp [castPath, h]
  simp only [lodashFind, hc, followPath, ownProp]
  cases bag.lookup name <;> rfl

theorem resolveFromArg_error_iff (p : Placeholder JSVal) (bag : Bag) (argGroup : String) :
    (∃ e, resolveFromArg p bag argGroup = .error e) ↔
      (lodashFind bag p.name = none ∧ p.required = true ∧ p.defaultValue = .undefined) := by
  unfold resolveFromArg
  cases hl : lodashFind bag p.name with
  | some v => simp
  | none =>
    cases hr : p.required <;> cases hd : p.defaultValue <;> simp [JSVal.isUndefined]

/-- C2, counterexample: the name `a.b` is absent from the bag, the placeholder
is required and has no default, yet `resolveFromArg` does not fail: `_.has`
reads the name as a path and finds the entry `b` of the bag's value for `a`. -/
theorem path_name_resolves_without_key :
    nestedBag.lookup dottedArg.name = none ∧ dottedArg.required = true ∧
    dottedArg.defaultValue = .undefined ∧
    resolveFromArg dottedArg nestedBag "arg" = .ok (.num 1) :=
  ⟨rfl, rfl, rfl, rfl⟩

/-- C2, amended: for a name without path syntax, `resolveFromArg` fails
exactly when the name is absent from the bag, the placeholder is required and
its default is undefined; for any name and a bag of data, it fails exactly
when `_.has` does not find the name in the bag (`lodashFind`, which reads the
name as a lodash path), the placeholder is required and its default is
undefined. The error is a `ValidationError` whose message names the argument
and the argument group, which is the word `arg` for a `PipelineArg` leaf. -/
theorem resolveFromArg_fails_iff (p : Placeholder JSVal) (bag : Bag) (argGroup : String) :
    (bagData bag = true →
      ((∃ e, resolveFromArg p bag argGroup = .error e) ↔
        (lodashFind bag p.name = none ∧ p.required = true ∧
          p.defaultValue = .undefined))) ∧
    (hasNoPathSyntax p.name = true →
      ((∃ e, resolveFromArg p bag argGroup = .error e) ↔
        (bag.lookup p.name = none ∧ p.required = true ∧ p.defaultValue = .undefined))) ∧
    (∀ e, resolveFromArg p bag argGroup = .error e →
      e.message = "Required " ++ argGroup ++ " " ++ p.name ++ " not provided" ∧
      List.IsInfix p.name.data e.message.data ∧
      List.IsInfix argGroup.data e.message.data) ∧
    (∀ env : Bag, mapSettingWithArgs bag env (.pipelineArg p) = resolveFromArg p bag "arg") := by
  refine ⟨fun _ => resolveFromArg_error_iff p bag argGroup, ?_, ?_, ?_⟩
  · intro hplain
    rw [resolveFromArg_error_iff, lodashFind_of_noPathSyntax bag p.name hplain]
  · intro e he
    unfold resolveFromArg at he
    cases hl : lodashFind bag p.name with
    | some v => simp [hl] at he
    | none =>
      have hm : e.message = "Required " ++ argGroup ++ " " ++ p.name ++ " not provided" := by
        simp only [hl] at he
        split at he
        · simp only [Except.error.injEq] at he
          rw [← he]
        · simp at he
      refine ⟨hm, ?_, ?_⟩
      · rw [hm]
        simp only [String.data_append]
        exact ⟨("Required ".data ++ argGroup.data ++ " ".data), " not provided".data, by simp⟩
      · rw [hm]
        simp only [String.data_append]
        exact ⟨"Required ".data, (" ".data ++ p.name.data ++ " not provided".data), by simp⟩
  · intro env
    simp [mapSettingWithArgs]

/-- C2, amended, at concrete inputs: a required placeholder with a plain
name and without default, resolved against an empty bag, and a required
placeholder whose name is a path that the bag does not hold. -/
theorem resolveFromArg_fails_iff_witness :
    resolveFromArg patternArg [] "arg" = .error ⟨"Required arg pattern not provided"⟩ ∧
    (∃ e, resolveFromArg dottedArg [("a", .obj [("c", .num 1)])] "arg" = .error e) ∧
    (∃ e, resolveFromArg patternArg [] "arg" = .error e) ∧
    List.IsInfix "pattern".data "Required arg pattern not provided".data ∧
    List.IsInfix "arg".data "Required arg pattern not provided".data :=
  ⟨rfl,
    ((resolveFromArg_fails_iff dottedArg [("a", .obj [("c", .num 1)])] "arg").1 rfl).mpr
      ⟨rfl, rfl, rfl⟩,
    ((resolveFromArg_fails_iff patternArg [] "arg").2.1 rfl).mpr ⟨rfl, rfl, rfl⟩,
    ((resolveFromArg_fails_iff patternArg [] "arg").2.2.1
      ⟨"Required arg pattern not provided"⟩ rfl).2⟩

/-- C3, counterexample: the name `a.b` is absent from the bag and the
placeholder has the default 7, yet the result is not the default: `_.has`
finds the entry `b` of the bag's value for `a`, and its value 1 is returned. -/
theorem path_name_shadows_default :
    nestedBag.lookup dottedDefaultArg.name = none ∧
    dottedDefaultArg.defaultValue = .num 7 ∧
    resolveFromArg dottedDefaultArg nestedBag "arg" = .ok (.num 1) ∧
    resolveFromArg dottedDefaultArg nestedBag "arg" ≠ .ok dottedDefaultArg.defaultValue := by
  refine ⟨rfl, rfl, rfl, ?_⟩
  intro h
  have h' : (Except.ok (JSVal.num 1) : Except ValidationError JSVal) = .ok (.num 7) := h
  simp at h'

/-- C3, amended: a name that is a key of the bag resolves to the bag's value
for it, whether or not a default exists; a name without path syntax that is
absent from the bag resolves to the default value when there is one; and
against a bag of data, any name that `_.has` does not find in the bag
(`lodashFind`) resolves to the default value when there is one, while a name
that `_.has` finds resolves to the value found. -/
theorem resolveFromArg_value (p : Placeholder JSVal) (bag : Bag) (argGroup : String) :
    (∀ v, bag.lookup p.name = some v → resolveFromArg p bag argGroup = .ok v) ∧
    (bagData bag = true →
      (lodashFind bag p.name = none → p.defaultValue ≠ .undefined →
        resolveFromArg p bag argGroup = .ok p.defaultValue) ∧
      (∀ v, lodashFind bag p.name = some v → resolveFromArg p bag argGroup = .ok v)) ∧
    (hasNoPathSyntax p.name = true → bag.lookup p.name = none →
      p.defaultValue ≠ .undefined →
      resolveFromArg p bag argGroup = .ok p.defaultValue) := by
  have hdefault : lodashFind bag p.name = none → p.defaultValue ≠ .undefined →
      resolveFromArg p bag argGroup = .ok p.defaultValue := by
    intro hn hd
    unfold resolveFromArg
    rw [hn]
    cases hr : p.required <;> cases hdv : p.defaultValue <;> simp_all [JSVal.isUndefined]
  refine ⟨?_, fun _ => ⟨hdefault, ?_⟩, ?_⟩
  · intro v hv
    simp [resolveFromArg, lodashFind_of_lookup bag p.name v hv]
  · intro v hv
    simp [resolveFromArg, hv]
  · intro hplain hn hd
    apply hdefault _ hd
    rw [lodashFind_of_noPathSyntax bag p.name hplain, hn]

/-- C3, amended, at concrete inputs: a bag value wins over the default, the
default is used when the bag has no such name, and it is used for a path that
the bag does not hold. -/
theorem resolveFromArg_value_witness :
    resolveFromArg watchArg [("watch", .bool true)] "arg" = .ok (.bool true) ∧
    resolveFromArg watchArg [("pattern", .str "*.csv")] "arg" = .ok (.bool false) ∧
    resolveFromArg dottedDefaultArg [("a", .obj [("c", .num 1)])] "arg" = .ok (.num 7) :=
  ⟨(resolveFromArg_value watchArg [("watch", .bool true)] "arg").1 (.bool true) rfl,
   (resolveFromArg_value watchArg [("pattern", .str "*.csv")] "arg").2.2 rfl rfl
     (by simp [watchArg]),
   ((resolveFromArg_value dottedDefaultArg [("a", .obj [("c", .num 1)])] "arg").2.1 rfl).1
     rfl (by simp [dottedDefaultArg])⟩

/-- C4, counterexample: the placeholder with allowed values gzip and zip,
resolved against a bag giving rar, does not fail: it resolves to rar, and the
output processor of the tree is invoked with that value. -/
theorem allowSet_not_enforced :
    modeArg.validValues = some [.str "gzip", .str "zip"] ∧
    JSVal.str "rar" ∉ [JSVal.str "gzip", JSVal.str "zip"] ∧
    resolveFromArg modeArg [("mode", .str "rar")] "arg" = .ok (.str "rar") ∧
    (runPipeline modeTree [("mode", .str "rar")] [] .root).result = .ok [0] ∧
    (runPipeline modeTree [("mode", .str "rar")] [] .root).calls =
      [Call.output "file" "out" (.fork .root) ⟨0, .obj [("mode", .str "rar")]⟩] :=
  ⟨rfl, by simp, rfl, rfl, rfl⟩

/-- C4, amended: resolution never consults the allow-set. A value supplied by
the bag is returned as it is even when it lies outside the declared allow-set,
and the result of `resolveFromArg` is the same whatever allow-set is declared. -/
theorem resolveFromArg_ignores_validValues (p : Placeholder JSVal) (bag : Bag)
    (argGroup : String) (allowed : List JSVal) (v : JSVal) :
    p.validValues = some allowed → bag.lookup p.name = some v → v ∉ allowed →
    resolveFromArg p bag argGroup = .ok v ∧
    ∀ vs, resolveFromArg { p with validValues := vs } bag argGroup
      = resolveFromArg p bag argGroup := by
  intro _ hv _
  constructor
  · simp [resolveFromArg, lodashFind_of_lookup bag p.name v hv]
  · intro vs
    simp [resolveFromArg]

/-- C4, amended, at the example of the claim: allowed values gzip and zip, the
bag gives rar. -/
theorem resolveFromArg_ignores_validValues_witness :
    resolveFromArg modeArg [("mode", .str "rar")] "arg" = .ok (.str "rar") :=
  (resolveFromArg_ignores_validValues modeArg [("mode", .str "rar")] "arg"
    [.str "gzip", .str "zip"] (.str "rar") rfl rfl (by simp)).1

/-! ## Shape of a resolved template -/

theorem ItemsResolveTo.length_eq {args env : Bag} {xs ys : List JSVal}
    (h : ItemsResolveTo args env xs ys) : ys.length = xs.length := by
  induction xs generalizing ys with
  | nil => cases h; rfl
  | cons x xs ih =>
    cases h with
    | cons _ y _ ys' hx hrest => simp [ih hrest]

theorem FieldsResolveTo.keys_eq {args env : Bag} {fs gs : List (String × JSVal)}
    (h : FieldsResolveTo args env fs gs) : gs.map Prod.fst = fs.map Prod.fst := by
  induction fs generalizing gs with
  | nil => cases h; rfl
  | cons f fs ih =>
    cases h with
    | cons k x y _ gs' hx hrest => simp [ih hrest]

mutual
theorem mapSettingWithArgs_resolvesTo (args env : Bag) :
    ∀ (t r : JSVal), mapSettingWithArgs args env t = .ok r → ResolvesTo args env t r
  | .pipelineArg p, r, h => by
    simp only [mapSettingWithArgs] at h
    exact .arg p r h
  | .pipelineEnvArg p, r, h => by
    simp only [mapSettingWithArgs] at h
    exact .envArg p r h
  | .arr xs, r, h => by
    simp only [mapSettingWithArgs] at h
    cases hm : mapArray args env xs with
    | error e => simp [hm, Except.map] at h
    | ok ys =>
      simp only [hm, Except.map, Except.ok.injEq] at h
      subst h
      exact .seq xs ys (mapArray_resolvesTo args env xs ys hm)
  | .obj fs, r, h => by
    simp only [mapSettingWithArgs] at h
    cases hm : mapValues args env fs with
    | error e => simp [hm, Except.map] at h
    | ok gs =>
      simp only [hm, Except.map, Except.ok.injEq] at h
      subst h
      exact .mapping fs gs (mapValues_resolvesTo args env fs gs hm)
  | .undefined, r, h => by
    simp only [mapSettingWithArgs, Except.ok.injEq] at h
    subst h
    exact .literal _ rfl
  | .null, r, h => by
    simp only [mapSettingWithArgs, Except.ok.injEq] at h
    subst h
    exact .literal _ rfl
  | .bool _, r, h => by
    simp only [mapSettingWithArgs, Except.ok.injEq] at h
    subst h
    exact .literal _ rfl
  | .num _, r, h => by
    simp only [mapSettingWithArgs, Except.ok.injEq] at h
    subst h
    exact .literal _ rfl
  | .str _, r, h => by
    simp only [mapSettingWithArgs, Except.ok.injEq] at h
    subst h
    exact .literal _ rfl
  | .func _, r, h => by
    simp only [mapSettingWithArgs, Except.ok.injEq] at h
    subst h
    exact .literal _ rfl
  | .inst _ _, r, h => by
    simp only [mapSettingWithArgs, Except.ok.injEq] at h
    subst h
    exact .literal _ rfl
theorem mapArray_resolvesTo (args env : Bag) :
    ∀ (xs ys : List JSVal), mapArray args env xs = .ok ys → ItemsResolveTo args env xs ys
  | [], ys, h => by
    simp only [mapArray, Except.ok.injEq] at h
    subst h
    exact .nil
  | x :: xs, ys, h => by
    simp only [mapArray] at h
    cases hx : mapSettingWithArgs args env x with
    | error e => simp [hx] at h
    | ok y =>
      cases hr : mapArray args env xs with
      | error e => simp [hx, hr] at h
      | ok ys' =>
        simp only [hx, hr, Except.ok.injEq] at h
        subst h
        exact .cons x y xs ys' (mapSettingWithArgs_resolvesTo args env x y hx)
          (mapArray_resolvesTo args env xs ys' hr)
theorem mapValues_resolvesTo (args env : Bag) :
    ∀ (fs gs : List (String × JSVal)), mapValues args env fs = .ok gs →
      FieldsResolveTo args env fs gs
  | [], gs, h => by
    simp only [mapValues, Except.ok.injEq] at h
    subst h
    exact .nil
  | (k, x) :: fs, gs, h => by
    simp only [mapValues] at h
    cases hx : mapSettingWithArgs args env x with
    | error e => simp [hx] at h
    | ok y =>
      cases hr : mapValues args env fs with
      | error e => simp [hx, hr] at h
      | ok gs' =>
        simp only [hx, hr, Except.ok.injEq] at h
        subst h
        exact .cons k x y fs gs' (mapSettingWithArgs_resolvesTo args env x y hx)
          (mapValues_resolvesTo args env fs gs' hr)
end

/-- C5: on a template that is a sequence or a mapping, a successful
`resolveSettings` returns a value of the same shape: a sequence of the same
length, a mapping with the same keys in the same order, and recursively
(`ResolvesTo`) every placeholder leaf replaced by its resolved value and every
other leaf unchanged. -/
theorem resolveSettings_preserves_shape (args env : Bag) (t r : JSVal)
    (hshape : (∃ xs, t = .arr xs) ∨ (∃ fs, t = .obj fs))
    (h : resolveSettings t args env = .ok r) :
    ResolvesTo args env t r ∧
    (∀ xs, t = .arr xs → ∃ ys, r = .arr ys ∧ ys.length = xs.length ∧
      ItemsResolveTo args env xs ys) ∧
    (∀ fs, t = .obj fs → ∃ gs, r = .obj gs ∧ gs.map Prod.fst = fs.map Prod.fst ∧
      FieldsResolveTo args env fs gs) := by
  rcases hshape with ⟨xs, rfl⟩ | ⟨fs, rfl⟩
  · rw [← mapSettingWithArgs_arr] at h
    have hr := mapSettingWithArgs_resolvesTo args env _ _ h
    refine ⟨hr, ?_, ?_⟩
    · intro xs' hxs
      cases hxs
      cases hr with
      | seq _ ys hi => exact ⟨ys, rfl, hi.length_eq, hi⟩
      | literal _ hl => simp [JSVal.isLiteral] at hl
    · intro fs hfs
      cases hfs
  · rw [← mapSettingWithArgs_obj] at h
    have hr := mapSettingWithArgs_resolvesTo args env _ _ h
    refine ⟨hr, ?_, ?_⟩
    · intro xs hxs
      cases hxs
    · intro fs' hfs
      cases hfs
      cases hr with
      | mapping _ gs hi => exact ⟨gs, rfl, hi.keys_eq, hi⟩
      | literal _ hl => simp [JSVal.isLiteral] at hl

/-- C5 at a concrete input: a mapping with a nested mapping and a nested
sequence, placeholders at two depths. -/
theorem resolveSettings_preserves_shape_witness :
    resolveSettings nestedTemplate [("pattern", .str "*.csv")] [] =
      .ok (.obj [("file", .obj [("pattern", .str "*.csv"),
                                ("flags", .arr [.bool false, .num 1])]),
                 ("label", .str "x")]) ∧
    ResolvesTo [("pattern", .str "*.csv")] [] nestedTemplate
      (.obj [("file", .obj [("pattern", .str "*.csv"),
                            ("flags", .arr [.bool false, .num 1])]),
             ("label", .str "x")]) :=
  ⟨rfl, (resolveSettings_preserves_shape [("pattern", .str "*.csv")] [] nestedTemplate _
    (Or.inr ⟨_, rfl⟩) rfl).1⟩

/-! ## Walking a list: prefixes -/

theorem walkStages_append_ok (args env : Bag) (ys : List Pipeline) :
    ∀ (xs : List Pipeline) (st : RunState) (stream : Stream) (st1 : RunState) (s1 : Stream),
      walkStages args env xs st stream = (st1, .ok s1) →
      walkStages args env (xs ++ ys) st stream = walkStages args env ys st1 s1 := by
  intro xs
  induction xs with
  | nil =>
    intro st stream st1 s1 h
    simp only [walkStages, Prod.mk.injEq, Except.ok.injEq] at h
    obtain ⟨rfl, rfl⟩ := h
    rfl
  | cons x xs ih =>
    intro st stream st1 s1 h
    simp only [walkStages, List.cons_append] at h ⊢
    split at h
    · next st' stream' hx =>
      exact ih st' stream' st1 s1 h
    · simp at h

theorem walkStages_append_error (args env : Bag) (ys : List Pipeline) :
    ∀ (xs : List Pipeline) (st : RunState) (stream : Stream) (st1 : RunState)
      (e : ValidationError),
      walkStages args env xs st stream = (st1, .error e) →
      walkStages args env (xs ++ ys) st stream = (st1, .error e) := by
  intro xs
  induction xs with
  | nil =>
    intro st stream st1 e h
    simp [walkStages] at h
  | cons x xs ih =>
    intro st stream st1 e h
    simp only [walkStages, List.cons_append] at h ⊢
    split at h
    · next st' stream' hx =>
      exact ih st' stream' st1 e h
    · next st' e' hx =>
      exact h

theorem buildStreamPipeline_eq_walkStages (args env : Bag) :
    ∀ (ps : List Pipeline) (st : RunState) (stream : Stream),
      buildStreamPipeline args env ps st stream =
        match walkStages args env ps st stream with
        | (st', .ok _) => (st', none)
        | (st', .error e) => (st', some e) := by
  intro ps
  induction ps with
  | nil => intro st stream; simp [buildStreamPipeline, walkStages]
  | cons p ps ih =>
    intro st stream
    simp only [buildStreamPipeline, walkStages]
    split
    · next st' stream' hx => exact ih st' stream'
    · rfl

theorem forEachChild_append_ok (args env : Bag) (ys : List Pipeline) :
    ∀ (xs : List Pipeline) (st : RunState) (stream : Stream) (st1 : RunState),
      forEachChild args env xs st stream = (st1, none) →
      forEachChild args env (xs ++ ys) st stream = forEachChild args env ys st1 stream := by
  intro xs
  induction xs with
  | nil =>
    intro st stream st1 h
    simp only [forEachChild, Prod.mk.injEq, and_true] at h
    subst h
    rfl
  | cons x xs ih =>
    intro st stream st1 h
    simp only [forEachChild, List.cons_append] at h ⊢
    split at h
    · next st' hx =>
      exact ih st' stream st1 h
    · simp at h

theorem forEachChild_append_error (args env : Bag) (ys : List Pipeline) :
    ∀ (xs : List Pipeline) (st : RunState) (stream : Stream) (st1 : RunState)
      (e : ValidationError),
      forEachChild args env xs st stream = (st1, some e) →
      forEachChild args env (xs ++ ys) st stream = (st1, some e) := by
  intro xs
  induction xs with
  | nil =>
    intro st stream st1 e h
    simp [forEachChild] at h
  | cons x xs ih =>
    intro st stream st1 e h
    simp only [forEachChild, List.cons_append] at h ⊢
    split at h
    · next st' hx =>
      exact ih st' stream st1 e h
    · next st' e' hx =>
      exact h

theorem childStep_malformed (args env : Bag) (bad : Pipeline) (st : RunState)
    (stream : Stream) (hbad : bad.isForkEntry = false) :
    childStep args env bad st stream = (st, some ⟨multiChildMessage⟩) := by
  cases bad <;> simp [Pipeline.isForkEntry] at hbad <;> simp [childStep]

theorem forEachChild_malformed_head (args env : Bag) (bad : Pipeline) (after : List Pipeline)
    (st : RunState) (stream : Stream) (hbad : bad.isForkEntry = false) :
    forEachChild args env (bad :: after) st stream = (st, some ⟨multiChildMessage⟩) := by
  simp [forEachChild, childStep_malformed args env bad st stream hbad]

theorem forEachChild_malformed_fails (args env : Bag) (before after : List Pipeline)
    (bad : Pipeline) (st : RunState) (stream : Stream) (hbad : bad.isForkEntry = false) :
    ∃ st' e, forEachChild args env (before ++ bad :: after) st stream = (st', some e) ∧
      forEachChild args env (before ++ [bad]) st stream = (st', some e) := by
  rcases hb : forEachChild args env before st stream with ⟨st1, _ | e⟩
  · refine ⟨st1, ⟨multiChildMessage⟩, ?_, ?_⟩
    · rw [forEachChild_append_ok args env _ before st stream st1 hb]
      exact forEachChild_malformed_head args env bad after st1 stream hbad
    · rw [forEachChild_append_ok args env _ before st stream st1 hb]
      exact forEachChild_malformed_head args env bad [] st1 stream hbad
  · exact ⟨st1, e, forEachChild_append_error args env _ before st stream st1 e hb,
      forEachChild_append_error args env _ before st stream st1 e hb⟩

theorem runPipeline_eq_walkStages (pipelines : List Pipeline) (args env : Bag)
    (rootStream : Stream) :
    runPipeline pipelines args env rootStream =
      match walkStages args env pipelines ⟨[], []⟩ rootStream with
      | (st, .ok _) => ⟨st.calls, .ok st.promises⟩
      | (st, .error e) => ⟨st.calls, .error e⟩ := by
  unfold runPipeline
  rw [buildStreamPipeline_eq_walkStages]
  rcases walkStages args env pipelines ⟨[], []⟩ rootStream with ⟨st, s | e⟩ <;> rfl

/-! ## When resolution fails -/

theorem resolveFromArg_toBool (p : Placeholder JSVal) (bag : Bag) (argGroup : String) :
    (resolveFromArg p bag argGroup).toBool = !isMissingIn p bag := by
  unfold resolveFromArg isMissingIn
  cases hl : lodashFind bag p.name with
  | some v => simp [Except.toBool]
  | none =>
    cases hr : p.required <;> cases hd : p.defaultValue.isUndefined <;> simp [Except.toBool]

mutual
theorem mapSettingWithArgs_toBool (args env : Bag) :
    ∀ t : JSVal, (mapSettingWithArgs args env t).toBool = !hasMissing args env t
  | .pipelineArg p => by
    simp only [mapSettingWithArgs, hasMissing]
    exact resolveFromArg_toBool p args "arg"
  | .pipelineEnvArg p => by
    simp only [mapSettingWithArgs, hasMissing]
    exact resolveFromArg_toBool p env "env"
  | .arr xs => by
    have h := mapArray_toBool args env xs
    simp only [mapSettingWithArgs, hasMissing]
    cases hm : mapArray args env xs <;> simp [hm, Except.map, Except.toBool] at h ⊢ <;> exact h
  | .obj fs => by
    have h := mapValues_toBool args env fs
    simp only [mapSettingWithArgs, hasMissing]
    cases hm : mapValues args env fs <;> simp [hm, Except.map, Except.toBool] at h ⊢ <;> exact h
  | .undefined => by simp [mapSettingWithArgs, hasMissing, Except.toBool]
  | .null => by simp [mapSettingWithArgs, hasMissing, Except.toBool]
  | .bool _ => by simp [mapSettingWithArgs, hasMissing, Except.toBool]
  | .num _ => by simp [mapSettingWithArgs, hasMissing, Except.toBool]
  | .str _ => by simp [mapSettingWithArgs, hasMissing, Except.toBool]
  | .func _ => by simp [mapSettingWithArgs, hasMissing, Except.toBool]
  | .inst _ _ => by simp [mapSettingWithArgs, hasMissing, Except.toBool]
theorem mapArray_toBool (args env : Bag) :
    ∀ xs : List JSVal, (mapArray args env xs).toBool = !anyMissing args env xs
  | [] => by simp [mapArray, anyMissing, Except.toBool]
  | x :: xs => by
    have hx := mapSettingWithArgs_toBool args env x
    have hr := mapArray_toBool args env xs
    simp only [mapArray, anyMissing]
    cases h1 : mapSettingWithArgs args env x <;> cases h2 : mapArray args env xs <;>
      simp [h1, h2, Except.toBool] at hx hr ⊢ <;> simp [hx, hr]
theorem mapValues_toBool (args env : Bag) :
    ∀ fs : List (String × JSVal), (mapValues args env fs).toBool = !anyFieldMissing args env fs
  | [] => by simp [mapValues, anyFieldMissing, Except.toBool]
  | (k, x) :: fs => by
    have hx := mapSettingWithArgs_toBool args env x
    have hr := mapValues_toBool args env fs
    simp only [mapValues, anyFieldMissing]
    cases h1 : mapSettingWithArgs args env x <;> cases h2 : mapValues args env fs <;>
      simp [h1, h2, Except.toBool] at hx hr ⊢ <;> simp [hx, hr]
end

theorem resolveSettings_fails_iff (args env : Bag) (t : JSVal) :
    templateHasMissing args env t = true ↔ ∃ e, resolveSettings t args env = .error e := by
  cases t with
  | arr xs =>
    have h := mapArray_toBool args env xs
    simp only [templateHasMissing, resolveSettings]
    cases hm : mapArray args env xs <;> simp [hm, Except.map, Except.toBool] at h ⊢ <;> exact h
  | obj fs =>
    have h := mapValues_toBool args env fs
    simp only [templateHasMissing, resolveSettings]
    cases hm : mapValues args env fs <;> simp [hm, Except.map, Except.toBool] at h ⊢ <;> exact h
  | _ => simp [templateHasMissing, resolveSettings]

/-! ## The walk follows the walk order -/

theorem scanItems_append_ok (args env : Bag) (ys : List Item) :
    ∀ xs : List Item, (scanItems args env xs).2 = none →
      scanItems args env (xs ++ ys)
        = ((scanItems args env xs).1 ++ (scanItems args env ys).1, (scanItems args env ys).2) := by
  intro xs
  induction xs with
  | nil => intro _; simp [scanItems]
  | cons x xs ih =>
    intro h
    simp only [scanItems, List.cons_append] at h ⊢
    cases hx : x.invoke args env with
    | error e => simp [hx] at h
    | ok v =>
      simp only [hx, List.append_eq] at h ⊢
      rw [ih h]
      simp

theorem scanItems_append_error (args env : Bag) (ys : List Item) :
    ∀ (xs : List Item) (e : ValidationError), (scanItems args env xs).2 = some e →
      scanItems args env (xs ++ ys) = scanItems args env xs := by
  intro xs
  induction xs with
  | nil => intro e h; simp [scanItems] at h
  | cons x xs ih =>
    intro e h
    simp only [scanItems, List.cons_append] at h ⊢
    cases hx : x.invoke args env with
    | error e' => simp
    | ok v =>
      simp only [hx, List.append_eq] at h ⊢
      rw [ih e h]

mutual
theorem buildStreamPipeline_walkOrder (args env : Bag) :
    ∀ (ps : List Pipeline) (st : RunState) (stream : Stream),
      (buildStreamPipeline args env ps st stream).1.calls.map Call.invoked
          = st.calls.map Call.invoked ++ (scanItems args env (walkOrder ps)).1 ∧
      (buildStreamPipeline args env ps st stream).2 = (scanItems args env (walkOrder ps)).2
  | [], st, stream => by simp [buildStreamPipeline, walkOrder, scanItems]
  | p :: rest, st, stream => by
    have h1 := stageStep_walkOrder args env p st stream
    simp only [buildStreamPipeline, walkOrder]
    rcases hs : stageStep args env p st stream with ⟨st1, e | s1⟩
    · simp only [hs, stepError] at h1
      rw [scanItems_append_error args env _ _ e h1.2.symm]
      exact ⟨h1.1, h1.2⟩
    · have h2 := buildStreamPipeline_walkOrder args env rest st1 s1
      simp only [hs, stepError] at h1
      rw [scanItems_append_ok args env _ _ h1.2.symm]
      refine ⟨?_, h2.2⟩
      rw [h2.1, h1.1, List.append_assoc]
theorem stageStep_walkOrder (args env : Bag) :
    ∀ (p : Pipeline) (st : RunState) (stream : Stream),
      (stageStep args env p st stream).1.calls.map Call.invoked
          = st.calls.map Call.invoked ++ (scanItems args env (stageItems p)).1 ∧
      stepError (stageStep args env p st stream).2 = (scanItems args env (stageItems p)).2
  | .array items, st, stream => by
    have h1 := forEachChild_walkOrder args env items st stream
    simp only [stageStep, stageItems]
    rcases hs : forEachChild args env items st stream with ⟨st1, _ | e⟩ <;>
      simpa [hs, stepError] using h1
  | .transform key processor settings, st, stream => by
    simp only [stageStep, stageItems, scanItems, Item.invoke]
    cases hr : resolveSettings settings args env with
    | error e => simp [Except.map, stepError]
    | ok s => simp [Except.map, stepError, RunState.pushTransform, Call.invoked, scanItems]
  | .input _, st, stream => by simp [stageStep, stageItems, scanItems, stepError]
  | .output _ _ _, st, stream => by
    simp [stageStep, stageItems, scanItems, stepError, Item.invoke]
  | .child _, st, stream => by
    simp [stageStep, stageItems, scanItems, stepError, Item.invoke]
  | .other _, st, stream => by
    simp [stageStep, stageItems, scanItems, stepError, Item.invoke]
theorem forEachChild_walkOrder (args env : Bag) :
    ∀ (cs : List Pipeline) (st : RunState) (stream : Stream),
      (forEachChild args env cs st stream).1.calls.map Call.invoked
          = st.calls.map Call.invoked ++ (scanItems args env (forkItems cs)).1 ∧
      (forEachChild args env cs st stream).2 = (scanItems args env (forkItems cs)).2
  | [], st, stream => by simp [forEachChild, forkItems, scanItems]
  | c :: rest, st, stream => by
    have h1 := childStep_walkOrder args env c st stream
    simp only [forEachChild, forkItems]
    rcases hs : childStep args env c st stream with ⟨st1, _ | e⟩
    · have h2 := forEachChild_walkOrder args env rest st1 stream
      simp only [hs] at h1
      rw [scanItems_append_ok args env _ _ h1.2.symm]
      refine ⟨?_, h2.2⟩
      rw [h2.1, h1.1, List.append_assoc]
    · simp only [hs] at h1
      rw [scanItems_append_error args env _ _ e h1.2.symm]
      exact ⟨h1.1, h1.2⟩
theorem childStep_walkOrder (args env : Bag) :
    ∀ (c : Pipeline) (st : RunState) (stream : Stream),
      (childStep args env c st stream).1.calls.map Call.invoked
          = st.calls.map Call.invoked ++ (scanItems args env (entryItems c)).1 ∧
      (childStep args env c st stream).2 = (scanItems args env (entryItems c)).2
  | .output key processor settings, st, stream => by
    simp only [childStep, entryItems, scanItems, Item.invoke]
    cases hr : resolveSettings settings args env with
    | error e => simp [Except.map]
    | ok s => simp [Except.map, RunState.pushOutput, Call.invoked, scanItems]
  | .child pipelines, st, stream => by
    simp only [childStep, entryItems]
    exact buildStreamPipeline_walkOrder args env pipelines st (Stream.fork stream)
  | .input _, st, stream => by simp [childStep, entryItems, scanItems, Item.invoke]
  | .transform _ _ _, st, stream => by simp [childStep, entryItems, scanItems, Item.invoke]
  | .array _, st, stream => by simp [childStep, entryItems, scanItems, Item.invoke]
  | .other _, st, stream => by simp [childStep, entryItems, scanItems, Item.invoke]
end

theorem runPipeline_walkOrder (pipelines : List Pipeline) (args env : Bag)
    (rootStream : Stream) :
    (runPipeline pipelines args env rootStream).calls.map Call.invoked
        = (scanItems args env (walkOrder pipelines)).1 ∧
    (∀ e, (runPipeline pipelines args env rootStream).result = .error e ↔
      (scanItems args env (walkOrder pipelines)).2 = some e) := by
  have h := buildStreamPipeline_walkOrder args env pipelines ⟨[], []⟩ rootStream
  unfold runPipeline
  rcases hb : buildStreamPipeline args env pipelines ⟨[], []⟩ rootStream with ⟨st, _ | e⟩
  · simp only [hb, List.map_nil, List.nil_append] at h
    refine ⟨h.1, ?_⟩
    intro e
    simp [← h.2]
  · simp only [hb, List.map_nil, List.nil_append] at h
    refine ⟨h.1, ?_⟩
    intro e'
    simp [← h.2]

theorem scanItems_stops_at (args env : Bag) (pre post : List Item) (item : Item)
    (e : ValidationError) (hpre : (scanItems args env pre).2 = none)
    (hitem : item.invoke args env = .error e) :
    scanItems args env (pre ++ item :: post) = ((scanItems args env pre).1, some e) := by
  rw [scanItems_append_ok args env _ pre hpre]
  simp [scanItems, hitem]

theorem scanItems_error_of_mem (args env : Bag) (item : Item) (e : ValidationError)
    (hitem : item.invoke args env = .error e) :
    ∀ items : List Item, item ∈ items → ∃ e', (scanItems args env items).2 = some e' := by
  intro items
  induction items with
  | nil => intro h; simp at h
  | cons x xs ih =>
    intro h
    simp only [scanItems]
    cases hx : x.invoke args env with
    | error e' => exact ⟨e', rfl⟩
    | ok v =>
      rcases List.mem_cons.mp h with rfl | hmem
      · rw [hitem] at hx
        cases hx
      · exact ih hmem

/-! ## Failures during the walk -/

theorem stageStep_array (args env : Bag) (cs : List Pipeline) (st : RunState) (stream : Stream) :
    stageStep args env (.array cs) st stream =
      match forEachChild args env cs st stream with
      | (st', none) => (st', .ok stream)
      | (st', some e) => (st', .error e) := by
  simp [stageStep]

theorem walkStages_stage_error (args env : Bag) (p : Pipeline) (post : List Pipeline)
    (st st' : RunState) (stream : Stream) (e : ValidationError)
    (hp : stageStep args env p st stream = (st', .error e)) :
    walkStages args env (p :: post) st stream = (st', .error e) := by
  simp [walkStages, hp]

theorem runPipeline_stage_error (args env : Bag) (pre post : List Pipeline) (p : Pipeline)
    (rootStream : Stream) (st1 st2 : RunState) (s1 : Stream) (e : ValidationError)
    (hpre : walkStages args env pre ⟨[], []⟩ rootStream = (st1, .ok s1))
    (hp : stageStep args env p st1 s1 = (st2, .error e)) :
    runPipeline (pre ++ p :: post) args env rootStream = ⟨st2.calls, .error e⟩ := by
  rw [runPipeline_eq_walkStages, walkStages_append_ok args env _ pre _ _ st1 s1 hpre,
    walkStages_stage_error args env p post st1 st2 s1 e hp]

/-- C7, counterexample: in a fork list whose second entry is malformed, the
run fails, but the output processor of the sibling placed before the malformed
entry has been invoked and handed a fork of the stream. -/
theorem malformed_fork_earlier_sibling_invoked :
    (runPipeline malformedForkTree [] [] .root).result = .error ⟨multiChildMessage⟩ ∧
    (runPipeline malformedForkTree [] [] .root).calls =
      [Call.output "stdout" "o1" (.fork .root) ⟨0, .null⟩] :=
  ⟨rfl, rfl⟩

/-- C7, amended: a fork list with an entry that is neither an output nor a
child pipeline always fails with a `ValidationError`; nothing placed after
the malformed entry is walked (the outcome is that of the list cut after the
malformed entry), and when the siblings before it raise no error the state at
the failure is exactly the state they left, with the message of the
configuration error. The same holds of `runPipeline` on a root stage list
holding such a fork; and at any depth, a tree whose walk order holds a
malformed fork entry makes `runPipeline` fail, with exactly the invocations of
the elements that precede the entry in walk order when none of them raises. -/
theorem fork_malformed_entry (args env : Bag) (before after : List Pipeline) (bad : Pipeline)
    (hbad : bad.isForkEntry = false) :
    (∀ st stream, ∃ st' e,
      forEachChild args env (before ++ bad :: after) st stream = (st', some e) ∧
      forEachChild args env (before ++ [bad]) st stream = (st', some e)) ∧
    (∀ st stream st1, forEachChild args env before st stream = (st1, none) →
      forEachChild args env (before ++ bad :: after) st stream
        = (st1, some ⟨multiChildMessage⟩)) ∧
    (∀ pre post rootStream,
      (∃ e, (runPipeline (pre ++ .array (before ++ bad :: after) :: post) args env
        rootStream).result = .error e) ∧
      runPipeline (pre ++ .array (before ++ bad :: after) :: post) args env rootStream
        = runPipeline (pre ++ [.array (before ++ [bad])]) args env rootStream) ∧
    (∀ pipelines rootStream met rest,
      walkOrder pipelines = met ++ Item.malformedEntry :: rest →
      (∃ e, (runPipeline pipelines args env rootStream).result = .error e) ∧
      ((scanItems args env met).2 = none →
        (runPipeline pipelines args env rootStream).result = .error ⟨multiChildMessage⟩ ∧
        (runPipeline pipelines args env rootStream).calls.map Call.invoked
          = (scanItems args env met).1)) := by
  refine ⟨?_, ?_, ?_, ?_⟩
  · intro st stream
    exact forEachChild_malformed_fails args env before after bad st stream hbad
  · intro st stream st1 hb
    rw [forEachChild_append_ok args env _ before st stream st1 hb]
    exact forEachChild_malformed_head args env bad after st1 stream hbad
  · intro pre post rootStream
    rcases hp : walkStages args env pre ⟨[], []⟩ rootStream with ⟨st1, e1 | s1⟩
    · have h1 := walkStages_append_error args env
        (.array (before ++ bad :: after) :: post) pre _ _ st1 e1 hp
      have h2 := walkStages_append_error args env
        [.array (before ++ [bad])] pre _ _ st1 e1 hp
      rw [runPipeline_eq_walkStages, runPipeline_eq_walkStages, h1, h2]
      exact ⟨⟨e1, rfl⟩, rfl⟩
    · obtain ⟨st', e, hf1, hf2⟩ :=
        forEachChild_malformed_fails args env before after bad st1 s1 hbad
      have hs1 : stageStep args env (.array (before ++ bad :: after)) st1 s1
          = (st', .error e) := by rw [stageStep_array, hf1]
      have hs2 : stageStep args env (.array (before ++ [bad])) st1 s1
          = (st', .error e) := by rw [stageStep_array, hf2]
      rw [runPipeline_stage_error args env pre post _ rootStream st1 st' s1 e hp hs1,
        runPipeline_stage_error args env pre [] _ rootStream st1 st' s1 e hp hs2]
      exact ⟨⟨e, rfl⟩, rfl⟩
  · intro pipelines rootStream met rest hw
    have hrun := runPipeline_walkOrder pipelines args env rootStream
    refine ⟨?_, ?_⟩
    · obtain ⟨e', he'⟩ := scanItems_error_of_mem args env Item.malformedEntry
        ⟨multiChildMessage⟩ rfl (walkOrder pipelines) (by rw [hw]; simp)
      exact ⟨e', (hrun.2 e').mpr he'⟩
    · intro hmet
      have hscan := scanItems_stops_at args env met rest Item.malformedEntry
        ⟨multiChildMessage⟩ hmet rfl
      rw [← hw] at hscan
      refine ⟨(hrun.2 _).mpr (by rw [hscan]), ?_⟩
      rw [hrun.1, hscan]

/-- C7, amended, at a concrete input: the sibling after the malformed entry
is not invoked, the one before it is. -/
theorem fork_malformed_entry_witness :
    forEachChild [] [] ([.output "o1" "stdout" .null] ++
        .other "x" :: [.output "o2" "file" .null]) ⟨[], []⟩ .root
      = (⟨[0], [Call.output "stdout" "o1" (.fork .root) ⟨0, .null⟩]⟩,
         some ⟨multiChildMessage⟩) :=
  (fork_malformed_entry [] [] [.output "o1" "stdout" .null] [.output "o2" "file" .null]
    (.other "x") rfl).2.1 ⟨[], []⟩ .root _ rfl

theorem stageStep_transform_error (args env : Bag) (key processor : String) (settings : JSVal)
    (e : ValidationError) (st : RunState) (stream : Stream)
    (hres : resolveSettings settings args env = .error e) :
    stageStep args env (.transform key processor settings) st stream = (st, .error e) := by
  simp [stageStep, hres]

theorem childStep_output_error (args env : Bag) (key processor : String) (settings : JSVal)
    (e : ValidationError) (st : RunState) (stream : Stream)
    (hres : resolveSettings settings args env = .error e) :
    childStep args env (.output key processor settings) st stream = (st, some e) := by
  simp [childStep, hres]

theorem forEachChild_output_error (args env : Bag) (before after : List Pipeline)
    (key processor : String) (settings : JSVal) (e : ValidationError)
    (st st1 : RunState) (stream : Stream)
    (hres : resolveSettings settings args env = .error e)
    (hb : forEachChild args env before st stream = (st1, none)) :
    forEachChild args env (before ++ .output key processor settings :: after) st stream
      = (st1, some e) := by
  rw [forEachChild_append_ok args env _ before st stream st1 hb]
  simp [forEachChild, childStep_output_error args env key processor settings e st1 stream hres]

/-- C8, counterexample: the output's template needs the argument `pattern`,
absent from the bag; the run fails with the resolution error, but the
transform processor placed before the output has been invoked. -/
theorem resolution_failure_after_transform_invoked :
    templateHasMissing [] [] (.obj [("path", .pipelineArg patternArg)]) = true ∧
    (runPipeline needsPatternTree [] [] .root).result
      = .error ⟨"Required arg pattern not provided"⟩ ∧
    (runPipeline needsPatternTree [] [] .root).calls
      = [Call.transform "json" "t1" .root (.obj [])] :=
  ⟨rfl, rfl, rfl⟩

/-- C8, amended: a template (mapping or sequence) holding an unresolvable
placeholder (one that is required, has no default, and whose name `_.has`
does not find in its bag) makes `resolveSettings` fail, and conversely; this
is stated for names without path syntax, and for any names against bags of
data. When the walk
reaches a transform or output stage whose template fails with `e`, the stage's
processor is not invoked and the walk stops there with `e`: the state is the
one left by what was walked before, nothing placed after is walked, and
`runPipeline` fails with `e` having made exactly the invocations that precede
the stage in walk order (for a stage of the root list or of a root fork, and
through `walkOrder` at any depth). -/
theorem resolution_failure_stops_walk (args env : Bag) (key processor : String)
    (settings : JSVal) :
    ((namesPlain settings = true ∨ (bagData args = true ∧ bagData env = true)) →
      (templateHasMissing args env settings = true ↔
        ∃ e, resolveSettings settings args env = .error e)) ∧
    (∀ e, resolveSettings settings args env = .error e →
      (∀ st stream,
        stageStep args env (.transform key processor settings) st stream = (st, .error e) ∧
        childStep args env (.output key processor settings) st stream = (st, some e)) ∧
      (∀ before after st stream st1, forEachChild args env before st stream = (st1, none) →
        forEachChild args env (before ++ .output key processor settings :: after) st stream
          = (st1, some e)) ∧
      (∀ pre post rootStream st1 s1,
        walkStages args env pre ⟨[], []⟩ rootStream = (st1, .ok s1) →
        runPipeline (pre ++ .transform key processor settings :: post) args env rootStream
          = ⟨st1.calls, .error e⟩ ∧
        ∀ before after st2, forEachChild args env before st1 s1 = (st2, none) →
          runPipeline (pre ++ .array (before ++ .output key processor settings :: after)
            :: post) args env rootStream = ⟨st2.calls, .error e⟩) ∧
      (∀ pipelines rootStream met rest,
        (walkOrder pipelines = met ++ Item.transform key processor settings :: rest ∨
          walkOrder pipelines = met ++ Item.output key processor settings :: rest) →
        (scanItems args env met).2 = none →
        (runPipeline pipelines args env rootStream).result = .error e ∧
        (runPipeline pipelines args env rootStream).calls.map Call.invoked
          = (scanItems args env met).1)) := by
  refine ⟨fun _ => resolveSettings_fails_iff args env settings, ?_⟩
  intro e hres
  refine ⟨?_, ?_, ?_, ?_⟩
  · intro st stream
    exact ⟨stageStep_transform_error args env key processor settings e st stream hres,
      childStep_output_error args env key processor settings e st stream hres⟩
  · intro before after st stream st1 hb
    exact forEachChild_output_error args env before after key processor settings e
      st st1 stream hres hb
  · intro pre post rootStream st1 s1 hpre
    refine ⟨?_, ?_⟩
    · exact runPipeline_stage_error args env pre post _ rootStream st1 st1 s1 e hpre
        (stageStep_transform_error args env key processor settings e st1 s1 hres)
    · intro before after st2 hb
      apply runPipeline_stage_error args env pre post _ rootStream st1 st2 s1 e hpre
      rw [stageStep_array, forEachChild_output_error args env before after key processor
        settings e st1 st2 s1 hres hb]
  · intro pipelines rootStream met rest hw hmet
    have hrun := runPipeline_walkOrder pipelines args env rootStream
    have hscan : scanItems args env (walkOrder pipelines)
        = ((scanItems args env met).1, some e) := by
      rcases hw with hw | hw
      · rw [hw]
        exact scanItems_stops_at args env met rest _ e hmet (by simp [Item.invoke, hres, Except.map])
      · rw [hw]
        exact scanItems_stops_at args env met rest _ e hmet (by simp [Item.invoke, hres, Except.map])
    refine ⟨(hrun.2 e).mpr (by rw [hscan]), ?_⟩
    rw [hrun.1, hscan]

/-- C8, amended, at a concrete input: the run fails with the resolution error
and its only invocation is that of the transform walked before the output. -/
theorem resolution_failure_stops_walk_witness :
    runPipeline ([.input "in", .transform "t1" "json" (.obj [])] ++
        .array ([] ++ .output "o1" "file" (.obj [("path", .pipelineArg patternArg)]) :: [])
          :: []) [] [] .root
      = ⟨[Call.transform "json" "t1" .root (.obj [])],
         .error ⟨"Required arg pattern not provided"⟩⟩ :=
  (((resolution_failure_stops_walk [] [] "o1" "file"
      (.obj [("path", .pipelineArg patternArg)])).2
      ⟨"Required arg pattern not provided"⟩ rfl).2.2.1
      [.input "in", .transform "t1" "json" (.obj [])] [] .root _ _ rfl).2 [] [] _ rfl

theorem forEachChild_output_step (args env : Bag) (before after : List Pipeline)
    (key processor : String) (settings s : JSVal) (st st1 : RunState) (stream : Stream)
    (hb : forEachChild args env before st stream = (st1, none))
    (hres : resolveSettings settings args env = .ok s) :
    forEachChild args env (before ++ .output key processor settings :: after) st stream
      = forEachChild args env after (st1.pushOutput processor key stream s) stream := by
  rw [forEachChild_append_ok args env _ before st stream st1 hb]
  simp [forEachChild, childStep, hres]

/-! ## Transform chains -/

theorem walkStages_chain (args env : Bag) :
    ∀ (pre : List Pipeline) (ts : List TransformStep) (st : RunState) (stream : Stream),
      resolvedChain args env pre = some ts →
      walkStages args env pre st stream
        = (⟨st.promises, st.calls ++ chainCalls stream ts⟩, .ok (applyChain stream ts)) := by
  intro pre
  induction pre with
  | nil =>
    intro ts st stream h
    simp only [resolvedChain, Option.some.injEq] at h
    subst h
    simp [walkStages, chainCalls, applyChain]
  | cons p pre ih =>
    intro ts st stream h
    cases p with
    | transform key processor settings =>
      simp only [resolvedChain] at h
      cases hr : resolveSettings settings args env with
      | error e => simp [hr] at h
      | ok s =>
        simp only [hr, Option.map_eq_some'] at h
        obtain ⟨ts', hts', rfl⟩ := h
        simp only [walkStages, stageStep, hr]
        rw [ih ts' _ _ hts']
        simp [RunState.pushTransform, chainCalls, applyChain]
    | input key =>
      simp only [resolvedChain] at h
      simp only [walkStages, stageStep]
      exact ih ts st stream h
    | output _ _ _ => simp [resolvedChain] at h
    | child _ => simp [resolvedChain] at h
    | array _ => simp [resolvedChain] at h
    | other _ => simp [resolvedChain] at h

theorem buildStreamPipeline_single_fork (args env : Bag) (cs : List Pipeline)
    (st : RunState) (stream : Stream) :
    buildStreamPipeline args env [.array cs] st stream = forEachChild args env cs st stream := by
  simp only [buildStreamPipeline, stageStep]
  rcases forEachChild args env cs st stream with ⟨st', _ | e⟩ <;> rfl

/-- C10: for a stage list made of transforms (and input markers) followed by
a fork, each transform is invoked once, in definition order, on the output of
the previous one with its settings resolved against the bag, and the fork is
walked with the stream `Tn(kn, ... T1(k1, stream, s1) ..., sn)`: every output
child reached in it is handed a fork of that stream. -/
theorem chain_then_fork (args env : Bag) (pre cs : List Pipeline) (ts : List TransformStep)
    (st : RunState) (stream : Stream) (hpre : resolvedChain args env pre = some ts) :
    buildStreamPipeline args env (pre ++ [.array cs]) st stream
      = forEachChild args env cs ⟨st.promises, st.calls ++ chainCalls stream ts⟩
          (applyChain stream ts) ∧
    (∀ before after key processor settings s st1,
      cs = before ++ .output key processor settings :: after →
      forEachChild args env before ⟨st.promises, st.calls ++ chainCalls stream ts⟩
        (applyChain stream ts) = (st1, none) →
      resolveSettings settings args env = .ok s →
      buildStreamPipeline args env (pre ++ [.array cs]) st stream
        = forEachChild args env after
            ⟨st1.promises ++ [st1.promises.length],
             st1.calls ++ [Call.output processor key (.fork (applyChain stream ts))
               ⟨st1.promises.length, s⟩]⟩
            (applyChain stream ts)) := by
  have hmain : buildStreamPipeline args env (pre ++ [.array cs]) st stream
      = forEachChild args env cs ⟨st.promises, st.calls ++ chainCalls stream ts⟩
          (applyChain stream ts) := by
    rw [buildStreamPipeline_eq_walkStages,
      walkStages_append_ok args env _ pre st stream _ _ (walkStages_chain args env pre ts st stream hpre),
      ← buildStreamPipeline_eq_walkStages, buildStreamPipeline_single_fork]
  refine ⟨hmain, ?_⟩
  intro before after key processor settings s st1 hcs hb hres
  rw [hmain, hcs, forEachChild_output_step args env before after key processor settings s
    _ st1 _ hb hres]
  rfl

/-- C10 at a concrete input: two transforms around an input marker, then a
fork with one output. -/
theorem chain_then_fork_witness :
    (runPipeline chainTree [("pattern", .str "*.csv")] [] .root).calls
      = [Call.transform "json" "t1" .root (.obj [("depth", .num 1)]),
         Call.transform "pick" "t2"
           (.transformed "json" "t1" .root (.obj [("depth", .num 1)])) (.arr [.str "*.csv"]),
         Call.output "stdout" "o1"
           (.fork (.transformed "pick" "t2"
             (.transformed "json" "t1" .root (.obj [("depth", .num 1)]))
             (.arr [.str "*.csv"]))) ⟨0, .null⟩] ∧
    buildStreamPipeline [("pattern", .str "*.csv")] []
        ([.transform "t1" "json" (.obj [("depth", .num 1)]), .input "in",
          .transform "t2" "pick" (.arr [.pipelineArg patternArg])] ++
          [.array [.output "o1" "stdout" .null]]) ⟨[], []⟩ .root
      = forEachChild [("pattern", .str "*.csv")] [] [.output "o1" "stdout" .null]
          ⟨[], [] ++ chainCalls .root
            [⟨"t1", "json", .obj [("depth", .num 1)]⟩, ⟨"t2", "pick", .arr [.str "*.csv"]⟩]⟩
          (applyChain .root
            [⟨"t1", "json", .obj [("depth", .num 1)]⟩, ⟨"t2", "pick", .arr [.str "*.csv"]⟩]) :=
  ⟨rfl, (chain_then_fork [("pattern", .str "*.csv")] []
    [.transform "t1" "json" (.obj [("depth", .num 1)]), .input "in",
      .transform "t2" "pick" (.arr [.pipelineArg patternArg])]
    [.output "o1" "stdout" .null]
    [⟨"t1", "json", .obj [("depth", .num 1)]⟩, ⟨"t2", "pick", .arr [.str "*.csv"]⟩]
    ⟨[], []⟩ .root rfl).1⟩

/-! ## Handle count -/

mutual
theorem buildStreamPipeline_promises (args env : Bag) :
    ∀ (ps : List Pipeline) (st : RunState) (stream : Stream) (st' : RunState),
      buildStreamPipeline args env ps st stream = (st', none) →
      st'.promises.length = st.promises.length + countStageOutputs ps
  | [], st, stream, st', h => by
    simp only [buildStreamPipeline, Prod.mk.injEq, and_true] at h
    subst h
    simp [countStageOutputs]
  | p :: rest, st, stream, st', h => by
    simp only [buildStreamPipeline] at h
    split at h
    · next st1 stream1 h1 =>
      have e1 := stageStep_promises args env p st stream st1 stream1 h1
      have e2 := buildStreamPipeline_promises args env rest st1 stream1 st' h
      simp only [countStageOutputs]
      omega
    · simp at h
theorem stageStep_promises (args env : Bag) :
    ∀ (p : Pipeline) (st : RunState) (stream : Stream) (st' : RunState) (stream' : Stream),
      stageStep args env p st stream = (st', .ok stream') →
      st'.promises.length = st.promises.length + stageOutputs p
  | .array items, st, stream, st', stream', h => by
    simp only [stageStep] at h
    split at h
    · next st1 h1 =>
      have e1 := forEachChild_promises args env items st stream st1 h1
      simp only [Prod.mk.injEq] at h
      obtain ⟨h, -⟩ := h
      subst h
      simpa [stageOutputs] using e1
    · simp at h
  | .transform key processor settings, st, stream, st', stream', h => by
    simp only [stageStep] at h
    split at h
    · simp at h
    · simp only [Prod.mk.injEq] at h
      obtain ⟨h, -⟩ := h
      subst h
      simp [stageOutputs, RunState.pushTransform]
  | .input _, st, stream, st', stream', h => by
    simp only [stageStep, Prod.mk.injEq] at h
    obtain ⟨h, -⟩ := h
    subst h
    simp [stageOutputs]
  | .output _ _ _, st, stream, st', stream', h => by simp [stageStep] at h
  | .child _, st, stream, st', stream', h => by simp [stageStep] at h
  | .other _, st, stream, st', stream', h => by simp [stageStep] at h
theorem forEachChild_promises (args env : Bag) :
    ∀ (cs : List Pipeline) (st : RunState) (stream : Stream) (st' : RunState),
      forEachChild args env cs st stream = (st', none) →
      st'.promises.length = st.promises.length + countForkOutputs cs
  | [], st, stream, st', h => by
    simp only [forEachChild, Prod.mk.injEq, and_true] at h
    subst h
    simp [countForkOutputs]
  | c :: rest, st, stream, st', h => by
    simp only [forEachChild] at h
    split at h
    · next st1 h1 =>
      have e1 := childStep_promises args env c st stream st1 h1
      have e2 := forEachChild_promises args env rest st1 stream st' h
      simp only [countForkOutputs]
      omega
    · simp at h
theorem childStep_promises (args env : Bag) :
    ∀ (c : Pipeline) (st : RunState) (stream : Stream) (st' : RunState),
      childStep args env c st stream = (st', none) →
      st'.promises.length = st.promises.length + childOutputs c
  | .output key processor settings, st, stream, st', h => by
    simp only [childStep] at h
    split at h
    · simp at h
    · simp only [Prod.mk.injEq, and_true] at h
      subst h
      simp [childOutputs, RunState.pushOutput]
  | .child pipelines, st, stream, st', h => by
    simp only [childStep] at h
    simpa [childOutputs] using
      buildStreamPipeline_promises args env pipelines st (Stream.fork stream) st' h
  | .input _, st, stream, st', h => by simp [childStep] at h
  | .transform _ _ _, st, stream, st', h => by simp [childStep] at h
  | .array _, st, stream, st', h => by simp [childStep] at h
  | .other _, st, stream, st', h => by simp [childStep] at h
end

/-- C1: whenever `runPipeline` returns (raises no error), the number of
completion handles it returns is the number of `OutputPipeline` leaves
reachable through fork sequences and nested child pipelines. -/
theorem runPipeline_handle_count (pipelines : List Pipeline) (args env : Bag)
    (rootStream : Stream) (handles : List Nat)
    (h : (runPipeline pipelines args env rootStream).result = .ok handles) :
    handles.length = countStageOutputs pipelines := by
  unfold runPipeline at h
  split at h
  · next st hb =>
    simp only [Except.ok.injEq] at h
    subst h
    simpa using buildStreamPipeline_promises args env pipelines ⟨[], []⟩ rootStream st hb
  · simp at h

/-- C1, the two-level example: the run succeeds and returns exactly 3 handles,
the number of output leaves of the tree. -/
theorem runPipeline_handle_count_witness :
    (runPipeline twoLevelTree [] [] .root).result = .ok [0, 1, 2] ∧
    countStageOutputs twoLevelTree = 3 ∧
    [0, 1, 2].length = countStageOutputs twoLevelTree :=
  ⟨rfl, rfl, runPipeline_handle_count twoLevelTree [] [] .root [0, 1, 2] rfl⟩

/-! ## Output invocations and promises grow together -/

theorem outputCallCount_pushOutput (st : RunState) (processor key : String) (stream : Stream)
    (s : JSVal) :
    outputCallCount (st.pushOutput processor key stream s).calls
      = outputCallCount st.calls + 1 := by
  simp [outputCallCount, RunState.pushOutput, List.countP_append, Call.isOutput]

theorem outputCallCount_pushTransform (st : RunState) (processor key : String)
    (stream : Stream) (s : JSVal) :
    outputCallCount (st.pushTransform processor key stream s).calls
      = outputCallCount st.calls := by
  simp [outputCallCount, RunState.pushTransform, List.countP_append, Call.isOutput]

mutual
theorem buildStreamPipeline_outputCalls (args env : Bag) :
    ∀ (ps : List Pipeline) (st : RunState) (stream : Stream),
      outputCallCount (buildStreamPipeline args env ps st stream).1.calls
          + st.promises.length
        = outputCallCount st.calls
          + (buildStreamPipeline args env ps st stream).1.promises.length
  | [], st, stream => by simp [buildStreamPipeline]
  | p :: rest, st, stream => by
    have h1 := stageStep_outputCalls args env p st stream
    simp only [buildStreamPipeline]
    rcases hs : stageStep args env p st stream with ⟨st1, e | s1⟩
    · simpa [hs] using h1
    · have h2 := buildStreamPipeline_outputCalls args env rest st1 s1
      simp only [hs] at h1 ⊢
      omega
theorem stageStep_outputCalls (args env : Bag) :
    ∀ (p : Pipeline) (st : RunState) (stream : Stream),
      outputCallCount (stageStep args env p st stream).1.calls + st.promises.length
        = outputCallCount st.calls + (stageStep args env p st stream).1.promises.length
  | .array items, st, stream => by
    have h1 := forEachChild_outputCalls args env items st stream
    simp only [stageStep]
    rcases hs : forEachChild args env items st stream with ⟨st1, _ | e⟩ <;>
      simpa [hs] using h1
  | .transform key processor settings, st, stream => by
    simp only [stageStep]
    cases hr : resolveSettings settings args env with
    | error e => simp
    | ok s =>
      simp only [outputCallCount_pushTransform]
      simp [RunState.pushTransform]
  | .input _, st, stream => by simp [stageStep]
  | .output _ _ _, st, stream => by simp [stageStep]
  | .child _, st, stream => by simp [stageStep]
  | .other _, st, stream => by simp [stageStep]
theorem forEachChild_outputCalls (args env : Bag) :
    ∀ (cs : List Pipeline) (st : RunState) (stream : Stream),
      outputCallCount (forEachChild args env cs st stream).1.calls + st.promises.length
        = outputCallCount st.calls + (forEachChild args env cs st stream).1.promises.length
  | [], st, stream => by simp [forEachChild]
  | c :: rest, st, stream => by
    have h1 := childStep_outputCalls args env c st stream
    simp only [forEachChild]
    rcases hs : childStep args env c st stream with ⟨st1, _ | e⟩
    · have h2 := forEachChild_outputCalls args env rest st1 stream
      simp only [hs] at h1 ⊢
      omega
    · simpa [hs] using h1
theorem childStep_outputCalls (args env : Bag) :
    ∀ (c : Pipeline) (st : RunState) (stream : Stream),
      outputCallCount (childStep args env c st stream).1.calls + st.promises.length
        = outputCallCount st.calls + (childStep args env c st stream).1.promises.length
  | .output key processor settings, st, stream => by
    simp only [childStep]
    cases hr : resolveSettings settings args env with
    | error e => simp
    | ok s =>
      simp only [outputCallCount_pushOutput]
      simp [RunState.pushOutput]
      omega
  | .child pipelines, st, stream => by
    simp only [childStep]
    exact buildStreamPipeline_outputCalls args env pipelines st (Stream.fork stream)
  | .input _, st, stream => by simp [childStep]
  | .transform _ _ _, st, stream => by simp [childStep]
  | .array _, st, stream => by simp [childStep]
  | .other _, st, stream => by simp [childStep]
end

theorem forEachChild_outputCallCount (args env : Bag) (cs : List Pipeline)
    (st st' : RunState) (stream : Stream)
    (h : forEachChild args env cs st stream = (st', none)) :
    outputCallCount st'.calls = outputCallCount st.calls + countForkOutputs cs := by
  have h1 := forEachChild_outputCalls args env cs st stream
  have h2 := forEachChild_promises args env cs st stream st' h
  rw [h] at h1
  simp only at h1
  omega

/-! ## Fork points -/

/-- In a fork list walked with current stream `stream`, an output child
reached by the walk whose template resolves to `s` is invoked exactly once:
its step appends one invocation, with the child's key, a fork of `stream`
(whatever siblings precede it) and the resolved settings carrying the resolver
of the promise pushed for it; the walk then goes on to the next sibling with
the same `stream`, and a fork list walked without error has made as many
output invocations as it has output leaves. -/
theorem fork_output_invocation (args env : Bag) (before after : List Pipeline)
    (key processor : String) (settings s : JSVal) (st st1 : RunState) (stream : Stream)
    (hb : forEachChild args env before st stream = (st1, none))
    (hres : resolveSettings settings args env = .ok s) :
    childStep args env (.output key processor settings) st1 stream
      = (⟨st1.promises ++ [st1.promises.length],
          st1.calls ++ [Call.output processor key (.fork stream) ⟨st1.promises.length, s⟩]⟩,
         none) ∧
    forEachChild args env (before ++ .output key processor settings :: after) st stream
      = forEachChild args env after
          ⟨st1.promises ++ [st1.promises.length],
           st1.calls ++ [Call.output processor key (.fork stream) ⟨st1.promises.length, s⟩]⟩
          stream ∧
    (∀ st', forEachChild args env (before ++ .output key processor settings :: after)
        st stream = (st', none) →
      outputCallCount st'.calls = outputCallCount st.calls +
        countForkOutputs (before ++ .output key processor settings :: after)) := by
  refine ⟨?_, ?_, ?_⟩
  · simp [childStep, hres, RunState.pushOutput]
  · exact forEachChild_output_step args env before after key processor settings s
      st st1 stream hb hres
  · intro st' h
    exact forEachChild_outputCallCount args env _ st st' stream h

/-- Three sibling outputs, the second taking a setting from the bag: each is
invoked once with a fork of the same stream. -/
theorem fork_output_invocation_witness :
    forEachChild [("pattern", .str "*.csv")] []
        ([.output "a" "stdout" .null] ++
          .output "b" "file" (.obj [("path", .pipelineArg patternArg)]) ::
          [.output "c" "s3" .null]) ⟨[], []⟩ .root
      = (⟨[0, 1, 2],
          [Call.output "stdout" "a" (.fork .root) ⟨0, .null⟩,
           Call.output "file" "b" (.fork .root) ⟨1, .obj [("path", .str "*.csv")]⟩,
           Call.output "s3" "c" (.fork .root) ⟨2, .null⟩]⟩, none) :=
  ((fork_output_invocation [("pattern", .str "*.csv")] [] [.output "a" "stdout" .null]
    [.output "c" "s3" .null] "b" "file" (.obj [("path", .pipelineArg patternArg)])
    (.obj [("path", .str "*.csv")]) ⟨[], []⟩ _ .root rfl rfl).2.1).trans rfl

/-! ## Environment placeholders -/

/-- C13: a `PipelineEnvArg` with descriptor `d` resolves against the
environment exactly as a `PipelineArg` with the same descriptor resolves
against a bag equal to the environment: the same value, failure under the
same condition, the failure message saying `env` where the other says `arg`;
the result does not depend on the argument bag. -/
theorem envArg_resolves_like_arg (d : Placeholder JSVal) (bag bag' env env' : Bag) :
    (∀ v, mapSettingWithArgs bag env (.pipelineEnvArg d) = .ok v ↔
      mapSettingWithArgs env env' (.pipelineArg d) = .ok v) ∧
    ((∃ e, mapSettingWithArgs bag env (.pipelineEnvArg d) = .error e) ↔
      (∃ e, mapSettingWithArgs env env' (.pipelineArg d) = .error e)) ∧
    (∀ e, mapSettingWithArgs bag env (.pipelineEnvArg d) = .error e →
      e.message = "Required env " ++ d.name ++ " not provided") ∧
    (∀ e, mapSettingWithArgs env env' (.pipelineArg d) = .error e →
      e.message = "Required arg " ++ d.name ++ " not provided") ∧
    mapSettingWithArgs bag env (.pipelineEnvArg d)
      = mapSettingWithArgs bag' env (.pipelineEnvArg d) := by
  simp only [mapSettingWithArgs]
  unfold resolveFromArg
  cases hl : lodashFind env d.name with
  | some v => simp
  | none =>
    by_cases hc : (d.required && d.defaultValue.isUndefined) = true
    · simp only [hc, if_true]
      refine ⟨by simp, by simp, ?_, ?_, trivial⟩
      · intro e he
        simp only [Except.error.injEq] at he
        rw [← he]
        rfl
      · intro e he
        simp only [Except.error.injEq] at he
        rw [← he]
        rfl
    · simp [hc]

/-- C13 at concrete inputs: the value comes from the environment whatever the
argument bag holds, and an absent required name fails with the `env` message. -/
theorem envArg_resolves_like_arg_witness :
    mapSettingWithArgs [("pattern", .str "from-bag")] [("pattern", .str "from-env")]
        (.pipelineEnvArg patternArg) = .ok (.str "from-env") ∧
    mapSettingWithArgs [("pattern", .str "from-env")] [] (.pipelineArg patternArg)
        = .ok (.str "from-env") ∧
    mapSettingWithArgs [("pattern", .str "from-bag")] [] (.pipelineEnvArg patternArg)
        = .error ⟨"Required env pattern not provided"⟩ :=
  ⟨((envArg_resolves_like_arg patternArg [("pattern", .str "from-bag")] []
      [("pattern", .str "from-env")] []).1 (.str "from-env")).mpr rfl, rfl, rfl⟩

/-! ## A placeholder as the whole template -/

/-- C17, counterexample: a template that is itself the placeholder `pattern`
is returned as it is, although the bag holds a value for it and
`mapSettingWithArgs` resolves it; with an empty bag the call does not fail,
although the placeholder is required and has no default. -/
theorem top_level_placeholder_not_resolved :
    resolveSettings (.pipelineArg patternArg) [("pattern", .str "*.csv")] []
      = .ok (.pipelineArg patternArg) ∧
    mapSettingWithArgs [("pattern", .str "*.csv")] [] (.pipelineArg patternArg)
      = .ok (.str "*.csv") ∧
    resolveSettings (.pipelineArg patternArg) [] [] = .ok (.pipelineArg patternArg) ∧
    mapSettingWithArgs [] [] (.pipelineArg patternArg)
      = .error ⟨"Required arg pattern not provided"⟩ :=
  ⟨rfl, rfl, rfl, rfl⟩

/-- C17, amended: a template that is itself a single placeholder is returned
unchanged by `resolveSettings`, which neither looks it up nor fails; more
generally every template that is neither a sequence nor a mapping is returned
unchanged, and a placeholder is resolved only as an element of a sequence or
the value of a mapping entry. -/
theorem resolveSettings_top_level_unchanged (p : Placeholder JSVal) (args env : Bag) :
    resolveSettings (.pipelineArg p) args env = .ok (.pipelineArg p) ∧
    resolveSettings (.pipelineEnvArg p) args env = .ok (.pipelineEnvArg p) ∧
    (∀ t : JSVal, (∀ xs, t ≠ .arr xs) → (∀ fs, t ≠ .obj fs) →
      resolveSettings t args env = .ok t) ∧
    resolveSettings (.arr [.pipelineArg p]) args env
      = (resolveFromArg p args "arg").map (fun v => .arr [v]) ∧
    (∀ k, resolveSettings (.obj [(k, .pipelineArg p)]) args env
      = (resolveFromArg p args "arg").map (fun v => .obj [(k, v)])) := by
  refine ⟨rfl, rfl, ?_, ?_, ?_⟩
  · intro t ha ho
    cases t with
    | arr xs => exact absurd rfl (ha xs)
    | obj fs => exact absurd rfl (ho fs)
    | _ => rfl
  · simp only [resolveSettings, mapArray, mapSettingWithArgs]
    cases resolveFromArg p args "arg" <;> rfl
  · intro k
    simp only [resolveSettings, mapValues, mapSettingWithArgs]
    cases resolveFromArg p args "arg" <;> rfl

/-- C17, amended, at a concrete input. -/
theorem resolveSettings_top_level_unchanged_witness :
    resolveSettings (.str "plain") [] [] = .ok (.str "plain") :=
  (resolveSettings_top_level_unchanged patternArg [] []).2.2.1 (.str "plain")
    (fun _ h => by cases h) (fun _ h => by cases h)

/-! ## Resolving twice -/

mutual
theorem mapSettingWithArgs_of_free (args env : Bag) :
    ∀ v : JSVal, placeholderFree v = true → mapSettingWithArgs args env v = .ok v
  | .pipelineArg _, h => by simp [placeholderFree] at h
  | .pipelineEnvArg _, h => by simp [placeholderFree] at h
  | .arr xs, h => by
    simp only [placeholderFree] at h
    simp [mapSettingWithArgs, mapArray_of_free args env xs h, Except.map]
  | .obj fs, h => by
    simp only [placeholderFree] at h
    simp [mapSettingWithArgs, mapValues_of_free args env fs h, Except.map]
  | .undefined, _ => rfl
  | .null, _ => rfl
  | .bool _, _ => rfl
  | .num _, _ => rfl
  | .str _, _ => rfl
  | .func _, _ => rfl
  | .inst _ _, _ => rfl
theorem mapArray_of_free (args env : Bag) :
    ∀ xs : List JSVal, allFree xs = true → mapArray args env xs = .ok xs
  | [], _ => rfl
  | x :: xs, h => by
    simp only [allFree, Bool.and_eq_true] at h
    simp [mapArray, mapSettingWithArgs_of_free args env x h.1, mapArray_of_free args env xs h.2]
theorem mapValues_of_free (args env : Bag) :
    ∀ fs : List (String × JSVal), allFieldsFree fs = true → mapValues args env fs = .ok fs
  | [], _ => rfl
  | (k, x) :: fs, h => by
    simp only [allFieldsFree, Bool.and_eq_true] at h
    simp [mapValues, mapSettingWithArgs_of_free args env x h.1,
      mapValues_of_free args env fs h.2]
end

theorem bagFree_lookup (bag : Bag) (k : String) (v : JSVal) (hb : bagFree bag = true)
    (hl : bag.lookup k = some v) : placeholderFree v = true := by
  induction bag with
  | nil => simp at hl
  | cons kv rest ih =>
    obtain ⟨k', v'⟩ := kv
    simp only [bagFree, List.all_cons, Bool.and_eq_true] at hb
    simp only [List.lookup] at hl
    split at hl
    · simp only [Option.some.injEq] at hl
      subst hl
      exact hb.1
    · exact ih hb.2 hl

theorem findFree_of_plain (bag : Bag) (name : String) (hb : bagFree bag = true)
    (hp : hasNoPathSyntax name = true) : findFree bag name = true := by
  unfold findFree
  rw [lodashFind_of_noPathSyntax bag name hp]
  cases hl : bag.lookup name with
  | none => rfl
  | some v => exact bagFree_lookup bag name v hb hl

mutual
theorem isData_placeholderFree : ∀ v : JSVal, isData v = true → placeholderFree v = true
  | .pipelineArg _, h => by simp [isData] at h
  | .pipelineEnvArg _, h => by simp [isData] at h
  | .func _, h => by simp [isData] at h
  | .arr xs, h => by
    simp only [isData] at h
    simpa [placeholderFree] using allData_allFree xs h
  | .obj fs, h => by
    simp only [isData] at h
    simpa [placeholderFree] using allFieldsData_allFieldsFree fs h
  | .undefined, _ => rfl
  | .null, _ => rfl
  | .bool _, _ => rfl
  | .num _, _ => rfl
  | .str _, _ => rfl
  | .inst _ _, _ => rfl
theorem allData_allFree : ∀ xs : List JSVal, allData xs = true → allFree xs = true
  | [], _ => rfl
  | x :: xs, h => by
    simp only [allData, Bool.and_eq_true] at h
    simp [allFree, isData_placeholderFree x h.1, allData_allFree xs h.2]
theorem allFieldsData_allFieldsFree :
    ∀ fs : List (String × JSVal), allFieldsData fs = true → allFieldsFree fs = true
  | [], _ => rfl
  | (_, x) :: fs, h => by
    simp only [allFieldsData, Bool.and_eq_true] at h
    simp [allFieldsFree, isData_placeholderFree x h.1, allFieldsData_allFieldsFree fs h.2]
end

theorem allFieldsData_lookup (fs : List (String × JSVal)) (k : String) (v : JSVal)
    (hf : allFieldsData fs = true) (hl : fs.lookup k = some v) : isData v = true := by
  induction fs with
  | nil => simp at hl
  | cons kv rest ih =>
    obtain ⟨k', v'⟩ := kv
    simp only [allFieldsData, Bool.and_eq_true] at hf
    simp only [List.lookup] at hl
    split at hl
    · simp only [Option.some.injEq] at hl
      subst hl
      exact hf.1
    · exact ih hf.2 hl

theorem allData_get? (xs : List JSVal) (i : Nat) (v : JSVal)
    (hx : allData xs = true) (hl : xs.get? i = some v) : isData v = true := by
  induction xs generalizing i with
  | nil => simp at hl
  | cons x rest ih =>
    simp only [allData, Bool.and_eq_true] at hx
    cases i with
    | zero =>
      simp only [List.get?_cons_zero, Option.some.injEq] at hl
      subst hl
      exact hx.1
    | succ j =>
      simp only [List.get?_cons_succ] at hl
      exact ih j hx.2 hl

theorem ownProp_isData (value : JSVal) (key : String) (v : JSVal)
    (hd : isData value = true) (h : ownProp value key = some v) : isData v = true := by
  cases value with
  | obj fs =>
    simp only [isData] at hd
    exact allFieldsData_lookup fs key v hd h
  | inst cls fs =>
    simp only [isData] at hd
    exact allFieldsData_lookup fs key v hd h
  | arr xs =>
    simp only [isData] at hd
    simp only [ownProp] at h
    split at h
    · simp only [Option.some.injEq] at h
      subst h
      rfl
    · cases hi : indexKey key with
      | none => simp [hi] at h
      | some i =>
        simp only [hi, Option.bind] at h
        exact allData_get? xs i v hd h
  | str s =>
    simp only [ownProp] at h
    split at h
    · simp only [Option.some.injEq] at h
      subst h
      rfl
    · cases hi : indexKey key with
      | none => simp [hi] at h
      | some i =>
        simp only [hi, Option.bind] at h
        cases hc : s.data.get? i with
        | none =>
          rw [hc] at h
          cases h
        | some c =>
          rw [hc] at h
          simp only [Option.map, Option.some.injEq] at h
          subst h
          rfl
  | _ => simp [ownProp] at h

theorem followPath_isData (path : List String) :
    ∀ (value v : JSVal), isData value = true → followPath value path = some v →
      isData v = true := by
  induction path with
  | nil =>
    intro value v hd h
    simp only [followPath, Option.some.injEq] at h
    subst h
    exact hd
  | cons key keys ih =>
    intro value v hd h
    simp only [followPath] at h
    cases ho : ownProp value key with
    | none => simp [ho] at h
    | some next =>
      simp only [ho] at h
      exact ih next v (ownProp_isData value key next hd ho) h

theorem lodashFind_isData (bag : Bag) (name : String) (v : JSVal)
    (hb : bagData bag = true) (h : lodashFind bag name = some v) : isData v = true := by
  unfold lodashFind at h
  have hobj : isData (.obj bag) = true := by simpa [isData] using hb
  cases hc : castPath name bag with
  | nil => simp [hc] at h
  | cons key keys =>
    simp only [hc] at h
    exact followPath_isData (key :: keys) (.obj bag) v hobj h

theorem findFree_of_data (bag : Bag) (name : String) (hb : bagData bag = true) :
    findFree bag name = true := by
  unfold findFree
  cases hl : lodashFind bag name with
  | none => rfl
  | some v => exact isData_placeholderFree v (lodashFind_isData bag name v hb hl)

mutual
theorem foundFree_of_plain (args env : Bag) (ha : bagFree args = true)
    (he : bagFree env = true) :
    ∀ t : JSVal, namesPlain t = true → foundFree args env t = true
  | .pipelineArg p, h => by
    simp only [namesPlain] at h
    simpa [foundFree] using findFree_of_plain args p.name ha h
  | .pipelineEnvArg p, h => by
    simp only [namesPlain] at h
    simpa [foundFree] using findFree_of_plain env p.name he h
  | .arr xs, h => by
    simp only [namesPlain] at h
    simpa [foundFree] using allFoundFree_of_plain args env ha he xs h
  | .obj fs, h => by
    simp only [namesPlain] at h
    simpa [foundFree] using allFieldsFoundFree_of_plain args env ha he fs h
  | .undefined, _ => rfl
  | .null, _ => rfl
  | .bool _, _ => rfl
  | .num _, _ => rfl
  | .str _, _ => rfl
  | .func _, _ => rfl
  | .inst _ _, _ => rfl
theorem allFoundFree_of_plain (args env : Bag) (ha : bagFree args = true)
    (he : bagFree env = true) :
    ∀ xs : List JSVal, allNamesPlain xs = true → allFoundFree args env xs = true
  | [], _ => rfl
  | x :: xs, h => by
    simp only [allNamesPlain, Bool.and_eq_true] at h
    simp [allFoundFree, foundFree_of_plain args env ha he x h.1,
      allFoundFree_of_plain args env ha he xs h.2]
theorem allFieldsFoundFree_of_plain (args env : Bag) (ha : bagFree args = true)
    (he : bagFree env = true) :
    ∀ fs : List (String × JSVal), allFieldNamesPlain fs = true →
      allFieldsFoundFree args env fs = true
  | [], _ => rfl
  | (_, x) :: fs, h => by
    simp only [allFieldNamesPlain, Bool.and_eq_true] at h
    simp [allFieldsFoundFree, foundFree_of_plain args env ha he x h.1,
      allFieldsFoundFree_of_plain args env ha he fs h.2]
end

mutual
theorem foundFree_of_data (args env : Bag) (ha : bagData args = true)
    (he : bagData env = true) : ∀ t : JSVal, foundFree args env t = true
  | .pipelineArg p => by simpa [foundFree] using findFree_of_data args p.name ha
  | .pipelineEnvArg p => by simpa [foundFree] using findFree_of_data env p.name he
  | .arr xs => by simpa [foundFree] using allFoundFree_of_data args env ha he xs
  | .obj fs => by simpa [foundFree] using allFieldsFoundFree_of_data args env ha he fs
  | .undefined => rfl
  | .null => rfl
  | .bool _ => rfl
  | .num _ => rfl
  | .str _ => rfl
  | .func _ => rfl
  | .inst _ _ => rfl
theorem allFoundFree_of_data (args env : Bag) (ha : bagData args = true)
    (he : bagData env = true) : ∀ xs : List JSVal, allFoundFree args env xs = true
  | [] => rfl
  | x :: xs => by
    simp [allFoundFree, foundFree_of_data args env ha he x,
      allFoundFree_of_data args env ha he xs]
theorem allFieldsFoundFree_of_data (args env : Bag) (ha : bagData args = true)
    (he : bagData env = true) :
    ∀ fs : List (String × JSVal), allFieldsFoundFree args env fs = true
  | [] => rfl
  | (_, x) :: fs => by
    simp [allFieldsFoundFree, foundFree_of_data args env ha he x,
      allFieldsFoundFree_of_data args env ha he fs]
end

theorem resolveFromArg_free (p : Placeholder JSVal) (bag : Bag) (argGroup : String) (v : JSVal)
    (hb : findFree bag p.name = true) (hd : placeholderFree p.defaultValue = true)
    (h : resolveFromArg p bag argGroup = .ok v) : placeholderFree v = true := by
  unfold resolveFromArg at h
  unfold findFree at hb
  cases hl : lodashFind bag p.name with
  | some w =>
    simp only [hl, Except.ok.injEq] at h
    subst h
    simpa [hl] using hb
  | none =>
    simp only [hl] at h
    split at h
    · simp at h
    · simp only [Except.ok.injEq] at h
      subst h
      exact hd

mutual
theorem mapSettingWithArgs_free (args env : Bag) :
    ∀ t r : JSVal, defaultsFree t = true → foundFree args env t = true →
      mapSettingWithArgs args env t = .ok r → placeholderFree r = true
  | .pipelineArg p, r, hd, hf, h => by
    simp only [defaultsFree] at hd
    simp only [foundFree] at hf
    simp only [mapSettingWithArgs] at h
    exact resolveFromArg_free p args "arg" r hf hd h
  | .pipelineEnvArg p, r, hd, hf, h => by
    simp only [defaultsFree] at hd
    simp only [foundFree] at hf
    simp only [mapSettingWithArgs] at h
    exact resolveFromArg_free p env "env" r hf hd h
  | .arr xs, r, hd, hf, h => by
    simp only [defaultsFree] at hd
    simp only [foundFree] at hf
    simp only [mapSettingWithArgs] at h
    cases hm : mapArray args env xs with
    | error e => simp [hm, Except.map] at h
    | ok ys =>
      simp only [hm, Except.map, Except.ok.injEq] at h
      subst h
      simpa [placeholderFree] using mapArray_free args env xs ys hd hf hm
  | .obj fs, r, hd, hf, h => by
    simp only [defaultsFree] at hd
    simp only [foundFree] at hf
    simp only [mapSettingWithArgs] at h
    cases hm : mapValues args env fs with
    | error e => simp [hm, Except.map] at h
    | ok gs =>
      simp only [hm, Except.map, Except.ok.injEq] at h
      subst h
      simpa [placeholderFree] using mapValues_free args env fs gs hd hf hm
  | .undefined, r, _, _, h => by
    simp only [mapSettingWithArgs, Except.ok.injEq] at h
    subst h
    rfl
  | .null, r, _, _, h => by
    simp only [mapSettingWithArgs, Except.ok.injEq] at h
    subst h
    rfl
  | .bool _, r, _, _, h => by
    simp only [mapSettingWithArgs, Except.ok.injEq] at h
    subst h
    rfl
  | .num _, r, _, _, h => by
    simp only [mapSettingWithArgs, Except.ok.injEq] at h
    subst h
    rfl
  | .str _, r, _, _, h => by
    simp only [mapSettingWithArgs, Except.ok.injEq] at h
    subst h
    rfl
  | .func _, r, _, _, h => by
    simp only [mapSettingWithArgs, Except.ok.injEq] at h
    subst h
    rfl
  | .inst _ _, r, _, _, h => by
    simp only [mapSettingWithArgs, Except.ok.injEq] at h
    subst h
    rfl
theorem mapArray_free (args env : Bag) :
    ∀ xs ys : List JSVal, allDefaultsFree xs = true → allFoundFree args env xs = true →
      mapArray args env xs = .ok ys → allFree ys = true
  | [], ys, _, _, h => by
    simp only [mapArray, Except.ok.injEq] at h
    subst h
    rfl
  | x :: xs, ys, hd, hf, h => by
    simp only [allDefaultsFree, Bool.and_eq_true] at hd
    simp only [allFoundFree, Bool.and_eq_true] at hf
    simp only [mapArray] at h
    cases hx : mapSettingWithArgs args env x with
    | error e => simp [hx] at h
    | ok y =>
      cases hr : mapArray args env xs with
      | error e => simp [hx, hr] at h
      | ok ys' =>
        simp only [hx, hr, Except.ok.injEq] at h
        subst h
        simp [allFree, mapSettingWithArgs_free args env x y hd.1 hf.1 hx,
          mapArray_free args env xs ys' hd.2 hf.2 hr]
theorem mapValues_free (args env : Bag) :
    ∀ fs gs : List (String × JSVal), allFieldDefaultsFree fs = true →
      allFieldsFoundFree args env fs = true →
      mapValues args env fs = .ok gs → allFieldsFree gs = true
  | [], gs, _, _, h => by
    simp only [mapValues, Except.ok.injEq] at h
    subst h
    rfl
  | (k, x) :: fs, gs, hd, hf, h => by
    simp only [allFieldDefaultsFree, Bool.and_eq_true] at hd
    simp only [allFieldsFoundFree, Bool.and_eq_true] at hf
    simp only [mapValues] at h
    cases hx : mapSettingWithArgs args env x with
    | error e => simp [hx] at h
    | ok y =>
      cases hr : mapValues args env fs with
      | error e => simp [hx, hr] at h
      | ok gs' =>
        simp only [hx, hr, Except.ok.injEq] at h
        subst h
        simp [allFieldsFree, mapSettingWithArgs_free args env x y hd.1 hf.1 hx,
          mapValues_free args env fs gs' hd.2 hf.2 hr]
end

theorem resolveSettings_fixed (t r : JSVal) (args env : Bag)
    (hd : defaultsFree t = true) (hf : foundFree args env t = true)
    (h : resolveSettings t args env = .ok r) :
    resolveSettings r args env = .ok r := by
  cases t with
  | arr xs =>
    rw [← mapSettingWithArgs_arr] at h
    have hfree := mapSettingWithArgs_free args env _ r hd hf h
    simp only [mapSettingWithArgs] at h
    cases hm : mapArray args env xs with
    | error e => simp [hm, Except.map] at h
    | ok ys =>
      simp only [hm, Except.map, Except.ok.injEq] at h
      subst h
      rw [← mapSettingWithArgs_arr]
      exact mapSettingWithArgs_of_free args env _ hfree
  | obj fs =>
    rw [← mapSettingWithArgs_obj] at h
    have hfree := mapSettingWithArgs_free args env _ r hd hf h
    simp only [mapSettingWithArgs] at h
    cases hm : mapValues args env fs with
    | error e => simp [hm, Except.map] at h
    | ok gs =>
      simp only [hm, Except.map, Except.ok.injEq] at h
      subst h
      rw [← mapSettingWithArgs_obj]
      exact mapSettingWithArgs_of_free args env _ hfree
  | _ =>
    simp only [resolveSettings, Except.ok.injEq] at h
    subst h
    rfl

/-- A value held in an instance is not seen by `placeholderFree`, but a name
that is a path reaches it: the bag's value for `a` is an instance whose field
`b` is a placeholder, every value of the bag is `placeholderFree`, and the
template naming `a.b` does not resolve to a fixed point. -/
theorem path_reaches_placeholder_in_instance :
    bagFree instanceBag = true ∧ defaultsFree dottedTemplate = true ∧
    resolveSettings dottedTemplate instanceBag []
      = .ok (.obj [("x", .pipelineArg watchArg)]) ∧
    resolveSettings (.obj [("x", .pipelineArg watchArg)]) instanceBag []
      = .ok (.obj [("x", .bool false)]) :=
  ⟨rfl, rfl, rfl, rfl⟩

/-- C14, counterexample: the bag's value for `a` is itself a placeholder; the
first resolution puts it into the output, and resolving the output again
replaces it by its default, so the second output differs from the first. -/
theorem resolution_not_idempotent :
    resolveSettings watchTemplate placeholderBag []
      = .ok (.obj [("x", .pipelineArg watchArg)]) ∧
    resolveSettings (.obj [("x", .pipelineArg watchArg)]) placeholderBag []
      = .ok (.obj [("x", .bool false)]) ∧
    resolveSettings (.obj [("x", .pipelineArg watchArg)]) placeholderBag []
      ≠ resolveSettings watchTemplate placeholderBag [] := by
  refine ⟨rfl, rfl, ?_⟩
  intro h
  have h' : (Except.ok (JSVal.obj [("x", .bool false)]) : Except ValidationError JSVal)
      = .ok (.obj [("x", .pipelineArg watchArg)]) := h
  simp at h'

/-- C14, amended: when no default of a placeholder of the template is or
holds a placeholder, and either the placeholders of the template have names
without path syntax and no value of the bag or of the environment is or holds
a placeholder, or the bag and the environment hold data only (no placeholder
instance and no function at any depth, inside instances too), the output of a
successful `resolveSettings` resolves to itself. -/
theorem resolveSettings_idempotent (t r : JSVal) (args env : Bag)
    (hd : defaultsFree t = true)
    (hb : (namesPlain t = true ∧ bagFree args = true ∧ bagFree env = true) ∨
      (bagData args = true ∧ bagData env = true))
    (h : resolveSettings t args env = .ok r) :
    resolveSettings r args env = .ok r := by
  apply resolveSettings_fixed t r args env hd _ h
  rcases hb with ⟨hn, ha, he⟩ | ⟨ha, he⟩
  · exact foundFree_of_plain args env ha he t hn
  · exact foundFree_of_data args env ha he t

/-- C14, amended, at concrete inputs: a nested template resolved against a
bag of plain values, and a template naming a path into a bag of data. -/
theorem resolveSettings_idempotent_witness :
    resolveSettings (.obj [("file", .obj [("pattern", .str "*.csv"),
                                          ("flags", .arr [.bool false, .num 1])]),
                           ("label", .str "x")]) [("pattern", .str "*.csv")] []
      = .ok (.obj [("file", .obj [("pattern", .str "*.csv"),
                                  ("flags", .arr [.bool false, .num 1])]),
                   ("label", .str "x")]) ∧
    resolveSettings (.obj [("x", .num 1)]) nestedBag [] = .ok (.obj [("x", .num 1)]) :=
  ⟨resolveSettings_idempotent nestedTemplate _ [("pattern", .str "*.csv")] []
      rfl (Or.inl ⟨rfl, rfl, rfl⟩) rfl,
   resolveSettings_idempotent dottedTemplate _ nestedBag [] rfl (Or.inr ⟨rfl, rfl⟩) rfl⟩

/-! ## Child pipelines -/

theorem forEachChild_child_step (args env : Bag) (before after ps : List Pipeline)
    (st st1 st2 : RunState) (stream : Stream)
    (hb : forEachChild args env before st stream = (st1, none))
    (hc : buildStreamPipeline args env ps st1 (.fork stream) = (st2, none)) :
    forEachChild args env (before ++ .child ps :: after) st stream
      = forEachChild args env after st2 stream := by
  rw [forEachChild_append_ok args env _ before st stream st1 hb]
  simp [forEachChild, childStep, hc]

/-- C16: in a fork list walked with current stream `stream`, a child pipeline
has its stage list walked on a fork of `stream`, and whatever that stage list
does, the walk goes on to the siblings placed after the child with the same
`stream`: an output sibling placed after it is handed a fork of `stream`, as
the siblings placed before the child were. -/
theorem child_transforms_stay_inside (args env : Bag) (before after ps : List Pipeline)
    (st st1 st2 : RunState) (stream : Stream)
    (hb : forEachChild args env before st stream = (st1, none))
    (hc : buildStreamPipeline args env ps st1 (.fork stream) = (st2, none)) :
    childStep args env (.child ps) st1 stream
      = buildStreamPipeline args env ps st1 (.fork stream) ∧
    forEachChild args env (before ++ .child ps :: after) st stream
      = forEachChild args env after st2 stream ∧
    (∀ mid rest key processor settings s st3,
      after = mid ++ .output key processor settings :: rest →
      forEachChild args env mid st2 stream = (st3, none) →
      resolveSettings settings args env = .ok s →
      forEachChild args env (before ++ .child ps :: after) st stream
        = forEachChild args env rest
            ⟨st3.promises ++ [st3.promises.length],
             st3.calls ++ [Call.output processor key (.fork stream)
               ⟨st3.promises.length, s⟩]⟩ stream) := by
  refine ⟨by simp [childStep], ?_, ?_⟩
  · exact forEachChild_child_step args env before after ps st st1 st2 stream hb hc
  · intro mid rest key processor settings s st3 hafter hmid hres
    rw [forEachChild_child_step args env before after ps st st1 st2 stream hb hc, hafter,
      forEachChild_output_step args env mid rest key processor settings s st2 st3 stream
        hmid hres]
    rfl

/-- C16 at a concrete input: the child applies a transform to its own fork;
the outputs before and after the child both receive a fork of the root
stream, the output inside the child a fork of the transformed stream. -/
theorem child_transforms_stay_inside_witness :
    forEachChild [] [] childBetweenOutputs ⟨[], []⟩ .root
      = (⟨[0, 1, 2],
          [Call.output "stdout" "a" (.fork .root) ⟨0, .null⟩,
           Call.transform "json" "t" (.fork .root) .null,
           Call.output "file" "b" (.fork (.transformed "json" "t" (.fork .root) .null))
             ⟨1, .null⟩,
           Call.output "s3" "c" (.fork .root) ⟨2, .null⟩]⟩, none) :=
  ((child_transforms_stay_inside [] [] [.output "a" "stdout" .null]
    [.output "c" "s3" .null]
    [.transform "t" "json" .null, .array [.output "b" "file" .null]]
    ⟨[], []⟩ _ _ .root rfl rfl).2.2 [] [] "c" "s3" .null .null _ rfl rfl rfl).trans rfl

/-! ## Handles follow the output invocations -/

theorem RunState.Aligned.pushOutput {st : RunState} (h : st.Aligned) (processor key : String)
    (stream : Stream) (s : JSVal) : (st.pushOutput processor key stream s).Aligned := by
  obtain ⟨h1, h2⟩ := h
  refine ⟨?_, ?_⟩
  · simp [RunState.pushOutput, List.filter_append, Call.isOutput, Call.resolver, h1]
  · simp only [RunState.pushOutput, List.length_append, List.length_singleton]
    rw [List.range_succ, ← h2]

theorem RunState.Aligned.pushTransform {st : RunState} (h : st.Aligned) (processor key : String)
    (stream : Stream) (s : JSVal) : (st.pushTransform processor key stream s).Aligned := by
  obtain ⟨h1, h2⟩ := h
  refine ⟨?_, ?_⟩
  · simpa [RunState.pushTransform, List.filter_append, Call.isOutput] using h1
  · simpa [RunState.pushTransform] using h2

mutual
theorem buildStreamPipeline_aligned (args env : Bag) :
    ∀ (ps : List Pipeline) (st : RunState) (stream : Stream), st.Aligned →
      (buildStreamPipeline args env ps st stream).1.Aligned
  | [], st, stream, h => by simpa [buildStreamPipeline] using h
  | p :: rest, st, stream, h => by
    have h1 := stageStep_aligned args env p st stream h
    simp only [buildStreamPipeline]
    rcases hs : stageStep args env p st stream with ⟨st1, e | s1⟩
    · simpa [hs] using h1
    · simp only [hs] at h1 ⊢
      exact buildStreamPipeline_aligned args env rest st1 s1 h1
theorem stageStep_aligned (args env : Bag) :
    ∀ (p : Pipeline) (st : RunState) (stream : Stream), st.Aligned →
      (stageStep args env p st stream).1.Aligned
  | .array items, st, stream, h => by
    have h1 := forEachChild_aligned args env items st stream h
    simp only [stageStep]
    rcases hs : forEachChild args env items st stream with ⟨st1, _ | e⟩ <;>
      simpa [hs] using h1
  | .transform key processor settings, st, stream, h => by
    simp only [stageStep]
    cases hr : resolveSettings settings args env with
    | error e => simpa using h
    | ok s => exact h.pushTransform processor key stream s
  | .input _, st, stream, h => by simpa [stageStep] using h
  | .output _ _ _, st, stream, h => by simpa [stageStep] using h
  | .child _, st, stream, h => by simpa [stageStep] using h
  | .other _, st, stream, h => by simpa [stageStep] using h
theorem forEachChild_aligned (args env : Bag) :
    ∀ (cs : List Pipeline) (st : RunState) (stream : Stream), st.Aligned →
      (forEachChild args env cs st stream).1.Aligned
  | [], st, stream, h => by simpa [forEachChild] using h
  | c :: rest, st, stream, h => by
    have h1 := childStep_aligned args env c st stream h
    simp only [forEachChild]
    rcases hs : childStep args env c st stream with ⟨st1, _ | e⟩
    · simp only [hs] at h1 ⊢
      exact forEachChild_aligned args env rest st1 stream h1
    · simpa [hs] using h1
theorem childStep_aligned (args env : Bag) :
    ∀ (c : Pipeline) (st : RunState) (stream : Stream), st.Aligned →
      (childStep args env c st stream).1.Aligned
  | .output key processor settings, st, stream, h => by
    simp only [childStep]
    cases hr : resolveSettings settings args env with
    | error e => simpa using h
    | ok s => exact h.pushOutput processor key stream s
  | .child pipelines, st, stream, h => by
    simp only [childStep]
    exact buildStreamPipeline_aligned args env pipelines st (Stream.fork stream) h
  | .input _, st, stream, h => by simpa [childStep] using h
  | .transform _ _ _, st, stream, h => by simpa [childStep] using h
  | .array _, st, stream, h => by simpa [childStep] using h
  | .other _, st, stream, h => by simpa [childStep] using h
end

theorem runPipeline_aligned (pipelines : List Pipeline) (args env : Bag) (rootStream : Stream)
    (handles : List Nat)
    (h : (runPipeline pipelines args env rootStream).result = .ok handles) :
    ((runPipeline pipelines args env rootStream).calls.filter Call.isOutput).map Call.resolver
        = handles.map some ∧
    handles = List.range handles.length := by
  have ha := buildStreamPipeline_aligned args env pipelines ⟨[], []⟩ rootStream
    ⟨by simp, by simp⟩
  unfold runPipeline at h ⊢
  rcases hb : buildStreamPipeline args env pipelines ⟨[], []⟩ rootStream with ⟨st, _ | e⟩
  · simp only [hb, Except.ok.injEq] at h ha ⊢
    subst h
    exact ha
  · simp [hb] at h

/-! ## Walk order of a successful run -/

theorem scanItems_forall₂ (args env : Bag) :
    ∀ xs : List Item, (scanItems args env xs).2 = none →
      List.Forall₂ (fun item v => item.invoke args env = .ok v) xs (scanItems args env xs).1 := by
  intro xs
  induction xs with
  | nil => intro _; simp [scanItems]
  | cons x xs ih =>
    intro h
    simp only [scanItems] at h ⊢
    cases hx : x.invoke args env with
    | error e => simp [hx] at h
    | ok v =>
      simp only [hx] at h ⊢
      exact List.Forall₂.cons hx (ih h)

theorem scanItems_take (args env : Bag) :
    ∀ xs : List Item, ∃ k, k ≤ xs.length ∧
      List.Forall₂ (fun item v => item.invoke args env = .ok v) (xs.take k)
        (scanItems args env xs).1 := by
  intro xs
  induction xs with
  | nil => exact ⟨0, by simp, by simp [scanItems]⟩
  | cons x xs ih =>
    obtain ⟨k, hk, hf⟩ := ih
    simp only [scanItems]
    cases hx : x.invoke args env with
    | error e => exact ⟨0, by simp, by simp⟩
    | ok v =>
      refine ⟨k + 1, by simpa using hk, ?_⟩
      simp only [List.take_succ_cons]
      exact List.Forall₂.cons hx hf

theorem scanItems_none_of_all (args env : Bag) :
    ∀ xs : List Item, (∀ item ∈ xs, ∃ v, item.invoke args env = .ok v) →
      (scanItems args env xs).2 = none := by
  intro xs
  induction xs with
  | nil => intro _; rfl
  | cons x xs ih =>
    intro h
    obtain ⟨v, hv⟩ := h x (List.mem_cons_self _ _)
    simp only [scanItems, hv]
    exact ih (fun item hi => h item (List.mem_cons_of_mem _ hi))

theorem Item.invoke_ok (args env : Bag) (item : Item) (hm : item.isMalformed = false)
    (ht : ∀ t, item.template = some t → ∃ s, resolveSettings t args env = .ok s) :
    ∃ v, item.invoke args env = .ok v := by
  cases item with
  | transform key processor settings =>
    obtain ⟨s, hs⟩ := ht settings rfl
    exact ⟨Invoked.transform processor key s, by simp [Item.invoke, hs, Except.map]⟩
  | output key processor settings =>
    obtain ⟨s, hs⟩ := ht settings rfl
    exact ⟨Invoked.output processor key s, by simp [Item.invoke, hs, Except.map]⟩
  | malformedStage => simp [Item.isMalformed] at hm
  | malformedEntry => simp [Item.isMalformed] at hm

theorem Item.invoke_malformed (args env : Bag) (item : Item) (hm : item.isMalformed = true) :
    item.invoke args env = .error ⟨multiChildMessage⟩ := by
  cases item <;> simp [Item.isMalformed] at hm <;> rfl

theorem Item.invoke_isOutput (args env : Bag) (item : Item) (c : Call)
    (h : item.invoke args env = .ok (Call.invoked c)) : item.isOutput = c.isOutput := by
  cases item with
  | transform key processor settings =>
    cases hr : resolveSettings settings args env with
    | error e => simp [Item.invoke, hr, Except.map] at h
    | ok s =>
      cases c <;> simp [Item.invoke, hr, Except.map, Call.invoked] at h
      simp [Item.isOutput, Call.isOutput]
  | output key processor settings =>
    cases hr : resolveSettings settings args env with
    | error e => simp [Item.invoke, hr, Except.map] at h
    | ok s =>
      cases c <;> simp [Item.invoke, hr, Except.map, Call.invoked] at h
      simp [Item.isOutput, Call.isOutput]
  | malformedStage => simp [Item.invoke] at h
  | malformedEntry => simp [Item.invoke] at h

theorem forall₂_filter_outputs (args env : Bag) (xs : List Item) (cs : List Call)
    (h : List.Forall₂ (fun item c => item.invoke args env = .ok (Call.invoked c)) xs cs) :
    List.Forall₂ (fun item c => item.invoke args env = .ok (Call.invoked c))
      (xs.filter Item.isOutput) (cs.filter Call.isOutput) := by
  induction h with
  | nil => simp
  | @cons x c xs' cs' hxc _ ih =>
    have heq := Item.invoke_isOutput args env x c hxc
    cases hc : c.isOutput with
    | true =>
      rw [hc] at heq
      simp only [List.filter_cons, heq, hc, if_true]
      exact List.Forall₂.cons hxc ih
    | false =>
      rw [hc] at heq
      simpa [List.filter_cons, heq, hc] using ih

theorem runPipeline_ok_scan (pipelines : List Pipeline) (args env : Bag) (rootStream : Stream)
    (handles : List Nat)
    (h : (runPipeline pipelines args env rootStream).result = .ok handles) :
    (scanItems args env (walkOrder pipelines)).2 = none := by
  have hrun := (runPipeline_walkOrder pipelines args env rootStream).2
  cases hs : (scanItems args env (walkOrder pipelines)).2 with
  | none => rfl
  | some e =>
    have := (hrun e).mpr hs
    rw [h] at this
    cases this

/-- C18: on a successful run the returned handles are the promises numbered
0, 1, 2, ... in push order, one for each output leaf of the walk order (stage
lists and fork lists in definition order, child pipelines descended into where
they occur); the output invocations, in the order they are made, are the
invocations of these leaves in walk order, and the i-th of them carries the
resolver of the i-th handle. -/
theorem handles_in_walk_order (pipelines : List Pipeline) (args env : Bag)
    (rootStream : Stream) (handles : List Nat)
    (h : (runPipeline pipelines args env rootStream).result = .ok handles) :
    handles = List.range ((walkOrder pipelines).filter Item.isOutput).length ∧
    ((runPipeline pipelines args env rootStream).calls.filter Call.isOutput).map Call.resolver
      = handles.map some ∧
    List.Forall₂ (fun item c => item.invoke args env = .ok (Call.invoked c))
      ((walkOrder pipelines).filter Item.isOutput)
      ((runPipeline pipelines args env rootStream).calls.filter Call.isOutput) := by
  have hal := runPipeline_aligned pipelines args env rootStream handles h
  have hscan := runPipeline_ok_scan pipelines args env rootStream handles h
  have hf := scanItems_forall₂ args env (walkOrder pipelines) hscan
  rw [← (runPipeline_walkOrder pipelines args env rootStream).1,
    List.forall₂_map_right_iff] at hf
  have hfo := forall₂_filter_outputs args env _ _ hf
  refine ⟨?_, hal.1, hfo⟩
  have hlen := hfo.length_eq
  have hlen2 := congrArg List.length hal.1
  simp only [List.length_map] at hlen2
  rw [hlen, hlen2]
  exact hal.2

/-- C18 on the two-level example: three handles, for `o1`, `o2`, `o3` in this
order. -/
theorem handles_in_walk_order_witness :
    (runPipeline twoLevelTree [] [] .root).result = .ok [0, 1, 2] ∧
    (walkOrder twoLevelTree).filter Item.isOutput
      = [.output "o1" "stdout" .null, .output "o2" "file" .null,
         .output "o3" "file" .null] ∧
    ((runPipeline twoLevelTree [] [] .root).calls.filter Call.isOutput).map Call.resolver
      = [some 0, some 1, some 2] :=
  ⟨rfl, rfl, (handles_in_walk_order twoLevelTree [] [] .root [0, 1, 2] rfl).2.1⟩

/-! ## Malformed elements -/

/-- With processors that return: when the walk order of the tree holds a
malformed element, `runPipeline` fails with a `ValidationError` and the
invocations it has made are invocations of elements placed before that
element, in order. When the elements before it are well formed and their
templates resolve, all of them are invoked and the error is the configuration
error raised at that element. When no element is malformed and every template
resolves, `runPipeline` returns. -/
theorem runPipeline_malformed_element (pipelines : List Pipeline) (args env : Bag)
    (rootStream : Stream) :
    (∀ met rest item, item.isMalformed = true →
      walkOrder pipelines = met ++ item :: rest →
      (∃ e, (runPipeline pipelines args env rootStream).result = .error e) ∧
      (runPipeline pipelines args env rootStream).calls.map Call.invoked
        = (scanItems args env met).1 ∧
      (∃ k, k ≤ met.length ∧
        List.Forall₂ (fun m v => m.invoke args env = .ok v) (met.take k)
          ((runPipeline pipelines args env rootStream).calls.map Call.invoked)) ∧
      ((∀ m ∈ met, m.isMalformed = false) →
        (∀ m ∈ met, ∀ t, m.template = some t → ∃ s, resolveSettings t args env = .ok s) →
        (runPipeline pipelines args env rootStream).result = .error ⟨multiChildMessage⟩ ∧
        List.Forall₂ (fun m v => m.invoke args env = .ok v) met
          ((runPipeline pipelines args env rootStream).calls.map Call.invoked))) ∧
    ((∀ item ∈ walkOrder pipelines, item.isMalformed = false) →
      (∀ item ∈ walkOrder pipelines, ∀ t, item.template = some t →
        ∃ s, resolveSettings t args env = .ok s) →
      ∃ handles, (runPipeline pipelines args env rootStream).result = .ok handles) := by
  have hrun := runPipeline_walkOrder pipelines args env rootStream
  refine ⟨?_, ?_⟩
  · intro met rest item hm hw
    have hinv := Item.invoke_malformed args env item hm
    have hcalls : (runPipeline pipelines args env rootStream).calls.map Call.invoked
        = (scanItems args env met).1 := by
      rw [hrun.1, hw]
      cases hs : (scanItems args env met).2 with
      | none => rw [scanItems_stops_at args env met rest item _ hs hinv]
      | some e => rw [scanItems_append_error args env _ met e hs]
    refine ⟨?_, hcalls, ?_, ?_⟩
    · obtain ⟨e, he⟩ := scanItems_error_of_mem args env item _ hinv (walkOrder pipelines)
        (by rw [hw]; simp)
      exact ⟨e, (hrun.2 e).mpr he⟩
    · rw [hcalls]
      exact scanItems_take args env met
    · intro hwf hres
      have hnone := scanItems_none_of_all args env met
        (fun m hmem => Item.invoke_ok args env m (hwf m hmem) (hres m hmem))
      refine ⟨(hrun.2 _).mpr ?_, ?_⟩
      · rw [hw, scanItems_stops_at args env met rest item _ hnone hinv]
      · rw [hcalls]
        exact scanItems_forall₂ args env met hnone
  · intro hwf hres
    have hnone := scanItems_none_of_all args env (walkOrder pipelines)
      (fun m hmem => Item.invoke_ok args env m (hwf m hmem) (hres m hmem))
    cases hr : (runPipeline pipelines args env rootStream).result with
    | ok handles => exact ⟨handles, rfl⟩
    | error e =>
      have := (hrun.2 e).mp hr
      rw [hnone] at this
      cases this

/-! ## FilePattern: the pattern guard -/

namespace FilePattern

theorem run_guard (params : JSVal) (glob : JSVal → Except String (List String))
    (processFile : String → JSVal → Except String JSVal)
    (h : (!params.truthy || !(patternOf params).truthy) = true) :
    run params glob processFile = .error ⟨"Must pass file(s) pattern!"⟩ := by
  simp only [run, h, if_true]

theorem run_passed (params : JSVal) (glob : JSVal → Except String (List String))
    (processFile : String → JSVal → Except String JSVal)
    (h : (!params.truthy || !(patternOf params).truthy) = false) :
    run params glob processFile =
      match glob (patternOf params) with
      | .error e => .ok ⟨[.glob (patternOf params)], .error e⟩
      | .ok files =>
        .ok ⟨.glob (patternOf params) :: (mapSeries processFile params files).1,
          (mapSeries processFile params files).2⟩ := by
  simp only [run, h, Bool.false_eq_true, if_false]

/-- C19: `run()` throws exactly when the params are falsy or their `pattern`
is falsy, and what it throws is the `ValidationError` 'Must pass file(s)
pattern!'; for params that are absent, and for params that are a mapping whose
`pattern` entry is absent or a string, this is: absent params, absent pattern
or empty pattern. When it throws nothing has been matched or processed; when
it does not throw, the file match is the first thing it does. -/
theorem run_fails_iff (params : JSVal) (glob : JSVal → Except String (List String))
    (processFile : String → JSVal → Except String JSVal) :
    ((∃ e, run params glob processFile = .error e) ↔
      (params.truthy = false ∨ (patternOf params).truthy = false)) ∧
    (∀ e, run params glob processFile = .error e →
      e = ⟨"Must pass file(s) pattern!"⟩) ∧
    (∀ r, run params glob processFile = .ok r →
      ∃ rest, r.events = .glob (patternOf params) :: rest) ∧
    (params = .undefined ∨ params = .null → ∃ e, run params glob processFile = .error e) ∧
    (∀ fields, params = .obj fields →
      (fields.lookup "pattern" = none ∨ ∃ s, fields.lookup "pattern" = some (.str s)) →
      ((∃ e, run params glob processFile = .error e) ↔
        (fields.lookup "pattern" = none ∨ fields.lookup "pattern" = some (.str "")))) := by
  have hiff : (∃ e, run params glob processFile = .error e) ↔
      (params.truthy = false ∨ (patternOf params).truthy = false) := by
    cases hg : (!params.truthy || !(patternOf params).truthy) with
    | true =>
      rw [run_guard params glob processFile hg]
      simp only [Bool.or_eq_true, Bool.not_eq_true'] at hg
      simp [hg]
    | false =>
      rw [run_passed params glob processFile hg]
      simp only [Bool.or_eq_false_iff, Bool.not_eq_false'] at hg
      cases glob (patternOf params) <;> simp [hg.1, hg.2]
  refine ⟨hiff, ?_, ?_, ?_, ?_⟩
  · intro e he
    cases hg : (!params.truthy || !(patternOf params).truthy) with
    | true =>
      rw [run_guard params glob processFile hg] at he
      exact (Except.error.inj he).symm
    | false =>
      rw [run_passed params glob processFile hg] at he
      cases hgl : glob (patternOf params) <;> simp [hgl] at he
  · intro r hr
    cases hg : (!params.truthy || !(patternOf params).truthy) with
    | true =>
      rw [run_guard params glob processFile hg] at hr
      cases hr
    | false =>
      rw [run_passed params glob processFile hg] at hr
      cases hgl : glob (patternOf params) with
      | error e =>
        simp only [hgl, Except.ok.injEq] at hr
        exact ⟨[], by rw [← hr]⟩
      | ok files =>
        simp only [hgl, Except.ok.injEq] at hr
        exact ⟨_, by rw [← hr]⟩
  · intro hp
    apply hiff.mpr
    rcases hp with rfl | rfl <;> exact Or.inl rfl
  · intro fields hp hstr
    subst hp
    rw [hiff]
    rcases hstr with hnone | ⟨s, hs⟩
    · simp [JSVal.truthy, patternOf, hnone]
    · simp [JSVal.truthy, patternOf, hs]

/-- C19 at concrete inputs: an empty pattern is refused, a pattern is accepted
and the file match comes first. -/
theorem run_fails_iff_witness :
    run (.obj [("pattern", .str "")]) threeFiles alwaysDone
      = .error ⟨"Must pass file(s) pattern!"⟩ ∧
    (∃ e, run .undefined threeFiles alwaysDone = .error e) ∧
    ((∃ e, run csvParams threeFiles alwaysDone = .error e) ↔
      ([("pattern", JSVal.str "*.csv")].lookup "pattern" = none ∨
       [("pattern", JSVal.str "*.csv")].lookup "pattern" = some (.str ""))) :=
  ⟨rfl, (run_fails_iff .undefined threeFiles alwaysDone).2.2.2.1 (Or.inl rfl),
    (run_fails_iff csvParams threeFiles alwaysDone).2.2.2.2 _ rfl
      (Or.inr ⟨"*.csv", rfl⟩)⟩

/-! ## FilePattern: the builder -/

/-- C20: `builder` returns the settings and the processor factory for every
`x`; the settings are the mapping with the single entry `input` when `x` is a
non-empty string, `x` itself when `x` is an object, and `null` for every other
`x`; nothing depends on `buildKey`. -/
theorem builder_settings (buildKey buildKey' : JSVal) (x : JSVal) :
    (∀ s, x = .str s → s ≠ "" → (builder buildKey x).settings = .obj [("input", x)]) ∧
    (x.isObject = true → (builder buildKey x).settings = x) ∧
    ((∀ s, x = .str s → s = "") → x.isObject = false →
      (builder buildKey x).settings = .null) ∧
    (x.truthy = false → (builder buildKey x).settings = .null) ∧
    (builder buildKey x).inputProcessor = .filePatternInputProcessor ∧
    builder buildKey x = builder buildKey' x := by
  refine ⟨?_, ?_, ?_, ?_, rfl, rfl⟩
  · intro s hx hs
    subst hx
    simp [builder, JSVal.truthy, JSVal.isString, hs]
  · intro ho
    cases x <;> simp [JSVal.isObject] at ho <;> simp [builder, JSVal.truthy, JSVal.isString,
      JSVal.isObject]
  · intro hstr ho
    cases x with
    | str s =>
      have := hstr s rfl
      subst this
      simp [builder, JSVal.truthy]
    | _ => first
      | (simp [JSVal.isObject] at ho; done)
      | simp [builder, JSVal.truthy, JSVal.isString, JSVal.isObject]
  · intro ht
    simp [builder, ht]

/-- C20 at concrete inputs: a path, a settings object, the empty string and a
number. -/
theorem builder_settings_witness :
    (builder (.str "k") (.str "data.csv")).settings = .obj [("input", .str "data.csv")] ∧
    (builder (.str "k") csvParams).settings = csvParams ∧
    (builder (.str "k") (.str "")).settings = .null ∧
    (builder (.str "k") (.num 5)).settings = .null :=
  ⟨(builder_settings (.str "k") .null (.str "data.csv")).1 "data.csv" rfl (by decide),
   (builder_settings (.str "k") .null csvParams).2.1 rfl,
   (builder_settings (.str "k") .null (.str "")).2.2.1 (fun s h => by cases h; rfl) rfl,
   (builder_settings (.str "k") .null (.num 5)).2.2.1 (fun s h => by cases h) rfl⟩

/-! ## FilePattern: one file after the other -/

theorem mapSeries_all_ok (processFile : String → JSVal → Except String JSVal)
    (params : JSVal) :
    ∀ files : List String, (∀ f ∈ files, ∃ r, processFile f params = .ok r) →
      ∃ results, mapSeries processFile params files
          = (completedEvents params files, .ok results) ∧
        List.Forall₂ (fun f r => processFile f params = .ok r) files results := by
  intro files
  induction files with
  | nil => intro _; exact ⟨[], rfl, List.Forall₂.nil⟩
  | cons f fs ih =>
    intro h
    obtain ⟨r, hr⟩ := h f (List.mem_cons_self _ _)
    obtain ⟨rs, hrs, hf⟩ := ih (fun g hg => h g (List.mem_cons_of_mem _ hg))
    refine ⟨r :: rs, ?_, List.Forall₂.cons hr hf⟩
    simp [mapSeries, hr, hrs, completedEvents, Except.map]

theorem mapSeries_first_failure (processFile : String → JSVal → Except String JSVal)
    (params : JSVal) (file : String) (rest : List String) (error : String)
    (hfail : processFile file params = .error error) :
    ∀ done : List String, (∀ f ∈ done, ∃ r, processFile f params = .ok r) →
      mapSeries processFile params (done ++ file :: rest)
        = (completedEvents params done ++ [.started file params, .failed file error],
           .error error) := by
  intro done
  induction done with
  | nil => intro _; simp [mapSeries, hfail, completedEvents]
  | cons f fs ih =>
    intro h
    obtain ⟨r, hr⟩ := h f (List.mem_cons_self _ _)
    have ih' := ih (fun g hg => h g (List.mem_cons_of_mem _ hg))
    simp [mapSeries, hr, ih', completedEvents, Except.map]

/-- C15: when the guard passes and the match returns `files`, `run()` takes
the files in the order of the match, and the call for a file comes only after
the promise of the file before it is fulfilled. If every file is processed,
the result is fulfilled with the results in order; if processing of a file
fails, the files before it were completed, no file after it is started, and
the result is rejected with that failure. -/
theorem run_processes_files_in_series (params : JSVal)
    (glob : JSVal → Except String (List String))
    (processFile : String → JSVal → Except String JSVal) (files : List String)
    (hparams : params.truthy = true) (hpattern : (patternOf params).truthy = true)
    (hglob : glob (patternOf params) = .ok files) :
    ((∀ f ∈ files, ∃ r, processFile f params = .ok r) →
      ∃ results, run params glob processFile
          = .ok ⟨.glob (patternOf params) :: completedEvents params files, .ok results⟩ ∧
        List.Forall₂ (fun f r => processFile f params = .ok r) files results) ∧
    (∀ done file rest error, files = done ++ file :: rest →
      (∀ f ∈ done, ∃ r, processFile f params = .ok r) →
      processFile file params = .error error →
      run params glob processFile
        = .ok ⟨.glob (patternOf params) :: (completedEvents params done ++
            [.started file params, .failed file error]), .error error⟩) := by
  have hg : (!params.truthy || !(patternOf params).truthy) = false := by
    simp [hparams, hpattern]
  refine ⟨?_, ?_⟩
  · intro hall
    obtain ⟨results, hm, hf⟩ := mapSeries_all_ok processFile params files hall
    refine ⟨results, ?_, hf⟩
    rw [run_passed params glob processFile hg, hglob]
    simp [hm]
  · intro done file rest error hfiles hdone hfail
    rw [run_passed params glob processFile hg, hglob, hfiles]
    simp [mapSeries_first_failure processFile params file rest error hfail done hdone]

/-- C15 at concrete inputs: three matched files, processing of the second
fails; the first is completed before the second starts, the third is never
started, and the result is rejected with the failure of the second. -/
theorem run_processes_files_in_series_witness :
    run csvParams threeFiles failsOnB
      = .ok ⟨[.glob (.str "*.csv"), .started "a.csv" csvParams, .completed "a.csv",
              .started "b.csv" csvParams, .failed "b.csv" "unreadable"],
             .error "unreadable"⟩ :=
  (run_processes_files_in_series csvParams threeFiles failsOnB ["a.csv", "b.csv", "c.csv"]
    rfl rfl rfl).2 ["a.csv"] "b.csv" ["c.csv"] "unreadable" rfl
    (by intro f hf; simp at hf; subst hf; exact ⟨.str "a.csv", rfl⟩) rfl

end FilePattern

/-! ## Processors that raise -/

mutual
theorem buildStreamPipeline_calls (args env : Bag) :
    ∀ (ps : List Pipeline) (st : RunState) (stream : Stream),
      ∃ more, (buildStreamPipeline args env ps st stream).1.calls = st.calls ++ more
  | [], st, stream => ⟨[], by simp [buildStreamPipeline]⟩
  | p :: rest, st, stream => by
    obtain ⟨m1, h1⟩ := stageStep_calls args env p st stream
    simp only [buildStreamPipeline]
    rcases hs : stageStep args env p st stream with ⟨st1, e | s1⟩
    · rw [hs] at h1
      exact ⟨m1, h1⟩
    · rw [hs] at h1
      obtain ⟨m2, h2⟩ := buildStreamPipeline_calls args env rest st1 s1
      refine ⟨m1 ++ m2, ?_⟩
      simp only [] at h1 ⊢
      rw [h2, h1, List.append_assoc]
theorem stageStep_calls (args env : Bag) :
    ∀ (p : Pipeline) (st : RunState) (stream : Stream),
      ∃ more, (stageStep args env p st stream).1.calls = st.calls ++ more
  | .array items, st, stream => by
    obtain ⟨m1, h1⟩ := forEachChild_calls args env items st stream
    simp only [stageStep]
    rcases hs : forEachChild args env items st stream with ⟨st1, _ | e⟩ <;>
      exact ⟨m1, by simpa [hs] using h1⟩
  | .transform key processor settings, st, stream => by
    simp only [stageStep]
    cases hr : resolveSettings settings args env with
    | error e => exact ⟨[], by simp⟩
    | ok s => exact ⟨[Call.transform processor key stream s], by simp [RunState.pushTransform]⟩
  | .input _, st, stream => ⟨[], by simp [stageStep]⟩
  | .output _ _ _, st, stream => ⟨[], by simp [stageStep]⟩
  | .child _, st, stream => ⟨[], by simp [stageStep]⟩
  | .other _, st, stream => ⟨[], by simp [stageStep]⟩
theorem forEachChild_calls (args env : Bag) :
    ∀ (cs : List Pipeline) (st : RunState) (stream : Stream),
      ∃ more, (forEachChild args env cs st stream).1.calls = st.calls ++ more
  | [], st, stream => ⟨[], by simp [forEachChild]⟩
  | c :: rest, st, stream => by
    obtain ⟨m1, h1⟩ := childStep_calls args env c st stream
    simp only [forEachChild]
    rcases hs : childStep args env c st stream with ⟨st1, _ | e⟩
    · rw [hs] at h1
      obtain ⟨m2, h2⟩ := forEachChild_calls args env rest st1 stream
      refine ⟨m1 ++ m2, ?_⟩
      simp only [] at h1 ⊢
      rw [h2, h1, List.append_assoc]
    · rw [hs] at h1
      exact ⟨m1, h1⟩
theorem childStep_calls (args env : Bag) :
    ∀ (c : Pipeline) (st : RunState) (stream : Stream),
      ∃ more, (childStep args env c st stream).1.calls = st.calls ++ more
  | .output key processor settings, st, stream => by
    simp only [childStep]
    cases hr : resolveSettings settings args env with
    | error e => exact ⟨[], by simp⟩
    | ok s => exact ⟨_, by simp [RunState.pushOutput]; rfl⟩
  | .child pipelines, st, stream => by
    simp only [childStep]
    exact buildStreamPipeline_calls args env pipelines st (Stream.fork stream)
  | .input _, st, stream => ⟨[], by simp [childStep]⟩
  | .transform _ _ _, st, stream => ⟨[], by simp [childStep]⟩
  | .array _, st, stream => ⟨[], by simp [childStep]⟩
  | .other _, st, stream => ⟨[], by simp [childStep]⟩
end

theorem WalkState.erase_pushTransform (st : WalkState) (processor key : String)
    (stream : Stream) (s : JSVal) :
    (st.pushTransform processor key stream s).erase
      = st.erase.pushTransform processor key stream s := rfl

theorem WalkState.erase_pushOutput (procs : Processors) (st : WalkState)
    (processor key : String) (stream : Stream) (s : JSVal) :
    (st.pushOutput procs processor key stream s).erase
      = st.erase.pushOutput processor key stream s := by
  simp [WalkState.erase, WalkState.pushOutput, RunState.pushOutput, List.range_succ]

mutual
theorem buildStreamPipelineWith_simulates (procs : Processors) (args env : Bag) :
    ∀ (ps : List Pipeline) (st : WalkState) (stream : Stream),
      simulates procs (buildStreamPipelineWith procs args env ps st stream)
        (buildStreamPipeline args env ps st.erase stream)
  | [], st, stream => by simp [buildStreamPipelineWith, buildStreamPipeline, simulates]
  | p :: rest, st, stream => by
    have h1 := stageStepWith_simulates procs args env p st stream
    simp only [buildStreamPipelineWith, buildStreamPipeline]
    rcases hs : stageStepWith procs args env p st stream with ⟨st1, e | s1⟩
    · rw [hs] at h1
      cases e with
      | validation v =>
        simp only [simulatesStep] at h1
        simp only [h1, simulates]
      | raised x =>
        simp only [simulatesStep] at h1
        obtain ⟨⟨more, hm⟩, hlast⟩ := h1
        simp only [simulates]
        refine ⟨?_, hlast⟩
        rcases ho : stageStep args env p st.erase stream with ⟨o1, e' | s'⟩
        · rw [ho] at hm
          exact ⟨more, hm⟩
        · rw [ho] at hm
          obtain ⟨m2, h2⟩ := buildStreamPipeline_calls args env rest o1 s'
          refine ⟨more ++ m2, ?_⟩
          simp only [] at hm ⊢
          rw [h2, hm, List.append_assoc]
    · rw [hs] at h1
      simp only [simulatesStep] at h1
      simp only [h1]
      exact buildStreamPipelineWith_simulates procs args env rest st1 s1
theorem stageStepWith_simulates (procs : Processors) (args env : Bag) :
    ∀ (p : Pipeline) (st : WalkState) (stream : Stream),
      simulatesStep procs (stageStepWith procs args env p st stream)
        (stageStep args env p st.erase stream)
  | .array items, st, stream => by
    have h1 := forEachChildWith_simulates procs args env items st stream
    simp only [stageStepWith, stageStep]
    rcases hs : forEachChildWith procs args env items st stream with ⟨st1, _ | e⟩
    · rw [hs] at h1
      simp only [simulates] at h1
      simp only [h1, simulatesStep]
    · rw [hs] at h1
      cases e with
      | validation v =>
        simp only [simulates] at h1
        simp only [h1, simulatesStep]
      | raised x =>
        simp only [simulates] at h1
        obtain ⟨⟨more, hm⟩, hlast⟩ := h1
        simp only [simulatesStep]
        refine ⟨?_, hlast⟩
        rcases ho : forEachChild args env items st.erase stream with ⟨o1, _ | e'⟩ <;>
          exact ⟨more, by simpa [ho] using hm⟩
  | .transform key processor settings, st, stream => by
    simp only [stageStepWith, stageStep]
    cases hr : resolveSettings settings args env with
    | error e => simp [simulatesStep]
    | ok s =>
      cases ht : procs.transform st.calls.length (Call.transform processor key stream s) with
      | returns => simp [ht, simulatesStep, WalkState.erase_pushTransform]
      | raises x =>
        simp only [ht, simulatesStep]
        refine ⟨⟨[], by simp [WalkState.pushTransform, RunState.pushTransform,
          WalkState.erase]⟩, st.calls, _, rfl, rfl, ht⟩
  | .input _, st, stream => by simp [stageStepWith, stageStep, simulatesStep]
  | .output _ _ _, st, stream => by simp [stageStepWith, stageStep, simulatesStep]
  | .child _, st, stream => by simp [stageStepWith, stageStep, simulatesStep]
  | .other _, st, stream => by simp [stageStepWith, stageStep, simulatesStep]
theorem forEachChildWith_simulates (procs : Processors) (args env : Bag) :
    ∀ (cs : List Pipeline) (st : WalkState) (stream : Stream),
      simulates procs (forEachChildWith procs args env cs st stream)
        (forEachChild args env cs st.erase stream)
  | [], st, stream => by simp [forEachChildWith, forEachChild, simulates]
  | c :: rest, st, stream => by
    have h1 := childStepWith_simulates procs args env c st stream
    simp only [forEachChildWith, forEachChild]
    rcases hs : childStepWith procs args env c st stream with ⟨st1, _ | e⟩
    · rw [hs] at h1
      simp only [simulates] at h1
      simp only [h1]
      exact forEachChildWith_simulates procs args env rest st1 stream
    · rw [hs] at h1
      cases e with
      | validation v =>
        simp only [simulates] at h1
        simp only [h1, simulates]
      | raised x =>
        simp only [simulates] at h1
        obtain ⟨⟨more, hm⟩, hlast⟩ := h1
        simp only [simulates]
        refine ⟨?_, hlast⟩
        rcases ho : childStep args env c st.erase stream with ⟨o1, _ | e'⟩
        · rw [ho] at hm
          obtain ⟨m2, h2⟩ := forEachChild_calls args env rest o1 stream
          refine ⟨more ++ m2, ?_⟩
          simp only [] at hm ⊢
          rw [h2, hm, List.append_assoc]
        · rw [ho] at hm
          exact ⟨more, hm⟩
theorem childStepWith_simulates (procs : Processors) (args env : Bag) :
    ∀ (c : Pipeline) (st : WalkState) (stream : Stream),
      simulates procs (childStepWith procs args env c st stream)
        (childStep args env c st.erase stream)
  | .output key processor settings, st, stream => by
    simp only [childStepWith, childStep]
    cases hr : resolveSettings settings args env with
    | error e => simp [simulates]
    | ok s => simp [simulates, WalkState.erase_pushOutput]
  | .child pipelines, st, stream => by
    simp only [childStepWith, childStep]
    exact buildStreamPipelineWith_simulates procs args env pipelines st (Stream.fork stream)
  | .input _, st, stream => by simp [childStepWith, childStep, simulates]
  | .transform _ _ _, st, stream => by simp [childStepWith, childStep, simulates]
  | .array _, st, stream => by simp [childStepWith, childStep, simulates]
  | .other _, st, stream => by simp [childStepWith, childStep, simulates]
end

theorem WalkState.Similar.similar_pushOutput {st st' : WalkState} (h : st.Similar st')
    (transform : Nat → Call → TransformOutcome) (output output' : Call → Outcome)
    (processor key : String) (stream : Stream) (s : JSVal) :
    (st.pushOutput ⟨transform, output⟩ processor key stream s).Similar
      (st'.pushOutput ⟨transform, output'⟩ processor key stream s) := by
  obtain ⟨h1, h2⟩ := h
  exact ⟨by simp [WalkState.pushOutput, h1, h2], by simp [WalkState.pushOutput, h2]⟩

theorem WalkState.Similar.similar_pushTransform {st st' : WalkState} (h : st.Similar st')
    (processor key : String) (stream : Stream) (s : JSVal) :
    (st.pushTransform processor key stream s).Similar
      (st'.pushTransform processor key stream s) := by
  obtain ⟨h1, h2⟩ := h
  exact ⟨by simp [WalkState.pushTransform, h1], by simpa [WalkState.pushTransform] using h2⟩

mutual
theorem buildStreamPipelineWith_similar (transform : Nat → Call → TransformOutcome)
    (output output' : Call → Outcome) (args env : Bag) :
    ∀ (ps : List Pipeline) (st st' : WalkState) (stream : Stream), st.Similar st' →
      (buildStreamPipelineWith ⟨transform, output⟩ args env ps st stream).1.Similar
        (buildStreamPipelineWith ⟨transform, output'⟩ args env ps st' stream).1 ∧
      (buildStreamPipelineWith ⟨transform, output⟩ args env ps st stream).2
        = (buildStreamPipelineWith ⟨transform, output'⟩ args env ps st' stream).2
  | [], st, st', stream, h => by simpa [buildStreamPipelineWith] using h
  | p :: rest, st, st', stream, h => by
    have h1 := stageStepWith_similar transform output output' args env p st st' stream h
    simp only [buildStreamPipelineWith]
    rcases hs : stageStepWith ⟨transform, output⟩ args env p st stream with ⟨st1, e | s1⟩ <;>
      rcases hs' : stageStepWith ⟨transform, output'⟩ args env p st' stream
        with ⟨st1', e' | s1'⟩ <;>
      simp only [hs, hs'] at h1 ⊢
    · obtain ⟨hsim, heq⟩ := h1
      simp only [Except.error.injEq] at heq
      subst heq
      exact ⟨hsim, rfl⟩
    · simp at h1
    · simp at h1
    · obtain ⟨hsim, heq⟩ := h1
      simp only [Except.ok.injEq] at heq
      subst heq
      exact buildStreamPipelineWith_similar transform output output' args env rest st1 st1'
        s1 hsim
theorem stageStepWith_similar (transform : Nat → Call → TransformOutcome)
    (output output' : Call → Outcome) (args env : Bag) :
    ∀ (p : Pipeline) (st st' : WalkState) (stream : Stream), st.Similar st' →
      (stageStepWith ⟨transform, output⟩ args env p st stream).1.Similar
        (stageStepWith ⟨transform, output'⟩ args env p st' stream).1 ∧
      (stageStepWith ⟨transform, output⟩ args env p st stream).2
        = (stageStepWith ⟨transform, output'⟩ args env p st' stream).2
  | .array items, st, st', stream, h => by
    have h1 := forEachChildWith_similar transform output output' args env items st st' stream h
    simp only [stageStepWith]
    rcases hs : forEachChildWith ⟨transform, output⟩ args env items st stream
      with ⟨st1, _ | e⟩ <;>
      rcases hs' : forEachChildWith ⟨transform, output'⟩ args env items st' stream
        with ⟨st1', _ | e'⟩ <;>
      simp only [hs, hs'] at h1 ⊢
    · exact ⟨h1.1, trivial⟩
    · simp at h1
    · simp at h1
    · obtain ⟨hsim, heq⟩ := h1
      simp only [Option.some.injEq] at heq
      subst heq
      exact ⟨hsim, rfl⟩
  | .transform key processor settings, st, st', stream, h => by
    simp only [stageStepWith]
    cases hr : resolveSettings settings args env with
    | error e => exact ⟨h, rfl⟩
    | ok s =>
      simp only [h.1]
      cases ht : transform st'.calls.length (Call.transform processor key stream s) with
      | returns => exact ⟨h.similar_pushTransform processor key stream s, rfl⟩
      | raises x => exact ⟨h.similar_pushTransform processor key stream s, rfl⟩
  | .input _, st, st', stream, h => by simpa [stageStepWith] using h
  | .output _ _ _, st, st', stream, h => by simpa [stageStepWith] using h
  | .child _, st, st', stream, h => by simpa [stageStepWith] using h
  | .other _, st, st', stream, h => by simpa [stageStepWith] using h
theorem forEachChildWith_similar (transform : Nat → Call → TransformOutcome)
    (output output' : Call → Outcome) (args env : Bag) :
    ∀ (cs : List Pipeline) (st st' : WalkState) (stream : Stream), st.Similar st' →
      (forEachChildWith ⟨transform, output⟩ args env cs st stream).1.Similar
        (forEachChildWith ⟨transform, output'⟩ args env cs st' stream).1 ∧
      (forEachChildWith ⟨transform, output⟩ args env cs st stream).2
        = (forEachChildWith ⟨transform, output'⟩ args env cs st' stream).2
  | [], st, st', stream, h => by simpa [forEachChildWith] using h
  | c :: rest, st, st', stream, h => by
    have h1 := childStepWith_similar transform output output' args env c st st' stream h
    simp only [forEachChildWith]
    rcases hs : childStepWith ⟨transform, output⟩ args env c st stream with ⟨st1, _ | e⟩ <;>
      rcases hs' : childStepWith ⟨transform, output'⟩ args env c st' stream
        with ⟨st1', _ | e'⟩ <;>
      simp only [hs, hs'] at h1 ⊢
    · exact forEachChildWith_similar transform output output' args env rest st1 st1' stream
        h1.1
    · simp at h1
    · simp at h1
    · exact h1
theorem childStepWith_similar (transform : Nat → Call → TransformOutcome)
    (output output' : Call → Outcome) (args env : Bag) :
    ∀ (c : Pipeline) (st st' : WalkState) (stream : Stream), st.Similar st' →
      (childStepWith ⟨transform, output⟩ args env c st stream).1.Similar
        (childStepWith ⟨transform, output'⟩ args env c st' stream).1 ∧
      (childStepWith ⟨transform, output⟩ args env c st stream).2
        = (childStepWith ⟨transform, output'⟩ args env c st' stream).2
  | .output key processor settings, st, st', stream, h => by
    simp only [childStepWith]
    cases hr : resolveSettings settings args env with
    | error e => exact ⟨h, rfl⟩
    | ok s => exact ⟨h.similar_pushOutput transform output output' processor key stream s, rfl⟩
  | .child pipelines, st, st', stream, h => by
    simp only [childStepWith]
    exact buildStreamPipelineWith_similar transform output output' args env pipelines st st'
      (Stream.fork stream) h
  | .input _, st, st', stream, h => by simpa [childStepWith] using h
  | .transform _ _ _, st, st', stream, h => by simpa [childStepWith] using h
  | .array _, st, st', stream, h => by simpa [childStepWith] using h
  | .other _, st, st', stream, h => by simpa [childStepWith] using h
end

theorem WalkState.Settled.settled_pushOutput {procs : Processors} {st : WalkState}
    (h : st.Settled procs) (processor key : String) (stream : Stream) (s : JSVal) :
    (st.pushOutput procs processor key stream s).Settled procs := by
  intro c hc k hk
  simp only [WalkState.pushOutput, List.mem_append, List.mem_singleton] at hc
  rcases hc with hc | hc
  · have hold := h c hc k hk
    have hlt : k < st.promises.length := by
      have := List.get?_eq_some.mp hold
      exact this.1
    simp only [WalkState.pushOutput, List.get?_eq_getElem?] at hold ⊢
    rw [List.getElem?_append_left hlt]
    exact hold
  · subst hc
    simp only [Call.resolver, Option.some.injEq] at hk
    subst hk
    simp [WalkState.pushOutput]

theorem WalkState.Settled.settled_pushTransform {procs : Processors} {st : WalkState}
    (h : st.Settled procs) (processor key : String) (stream : Stream) (s : JSVal) :
    (st.pushTransform processor key stream s).Settled procs := by
  intro c hc k hk
  simp only [WalkState.pushTransform, List.mem_append, List.mem_singleton] at hc
  rcases hc with hc | hc
  · exact h c hc k hk
  · subst hc
    simp [Call.resolver] at hk

mutual
theorem buildStreamPipelineWith_settled (procs : Processors) (args env : Bag) :
    ∀ (ps : List Pipeline) (st : WalkState) (stream : Stream), st.Settled procs →
      (buildStreamPipelineWith procs args env ps st stream).1.Settled procs
  | [], st, stream, h => by simpa [buildStreamPipelineWith] using h
  | p :: rest, st, stream, h => by
    have h1 := stageStepWith_settled procs args env p st stream h
    simp only [buildStreamPipelineWith]
    rcases hs : stageStepWith procs args env p st stream with ⟨st1, e | s1⟩
    · simpa [hs] using h1
    · simp only [hs] at h1 ⊢
      exact buildStreamPipelineWith_settled procs args env rest st1 s1 h1
theorem stageStepWith_settled (procs : Processors) (args env : Bag) :
    ∀ (p : Pipeline) (st : WalkState) (stream : Stream), st.Settled procs →
      (stageStepWith procs args env p st stream).1.Settled procs
  | .array items, st, stream, h => by
    have h1 := forEachChildWith_settled procs args env items st stream h
    simp only [stageStepWith]
    rcases hs : forEachChildWith procs args env items st stream with ⟨st1, _ | e⟩ <;>
      simpa [hs] using h1
  | .transform key processor settings, st, stream, h => by
    simp only [stageStepWith]
    cases hr : resolveSettings settings args env with
    | error e => simpa using h
    | ok s =>
      cases ht : procs.transform st.calls.length (Call.transform processor key stream s) <;>
        simp only [ht] <;>
        exact h.settled_pushTransform processor key stream s
  | .input _, st, stream, h => by simpa [stageStepWith] using h
  | .output _ _ _, st, stream, h => by simpa [stageStepWith] using h
  | .child _, st, stream, h => by simpa [stageStepWith] using h
  | .other _, st, stream, h => by simpa [stageStepWith] using h
theorem forEachChildWith_settled (procs : Processors) (args env : Bag) :
    ∀ (cs : List Pipeline) (st : WalkState) (stream : Stream), st.Settled procs →
      (forEachChildWith procs args env cs st stream).1.Settled procs
  | [], st, stream, h => by simpa [forEachChildWith] using h
  | c :: rest, st, stream, h => by
    have h1 := childStepWith_settled procs args env c st stream h
    simp only [forEachChildWith]
    rcases hs : childStepWith procs args env c st stream with ⟨st1, _ | e⟩
    · simp only [hs] at h1 ⊢
      exact forEachChildWith_settled procs args env rest st1 stream h1
    · simpa [hs] using h1
theorem childStepWith_settled (procs : Processors) (args env : Bag) :
    ∀ (c : Pipeline) (st : WalkState) (stream : Stream), st.Settled procs →
      (childStepWith procs args env c st stream).1.Settled procs
  | .output key processor settings, st, stream, h => by
    simp only [childStepWith]
    cases hr : resolveSettings settings args env with
    | error e => simpa using h
    | ok s => exact h.settled_pushOutput processor key stream s
  | .child pipelines, st, stream, h => by
    simp only [childStepWith]
    exact buildStreamPipelineWith_settled procs args env pipelines st (Stream.fork stream) h
  | .input _, st, stream, h => by simpa [childStepWith] using h
  | .transform _ _ _, st, stream, h => by simpa [childStepWith] using h
  | .array _, st, stream, h => by simpa [childStepWith] using h
  | .other _, st, stream, h => by simpa [childStepWith] using h
end

theorem runPipeline_ok_length (pipelines : List Pipeline) (args env : Bag)
    (rootStream : Stream) (handles : List Nat)
    (hrun : (runPipeline pipelines args env rootStream).result = .ok handles) :
    handles.length = countStageOutputs pipelines := by
  unfold runPipeline at hrun
  rcases hb : buildStreamPipeline args env pipelines ⟨[], []⟩ rootStream with ⟨st, _ | e⟩
  · simp only [hb, Except.ok.injEq] at hrun
    subst hrun
    simpa using buildStreamPipeline_promises args env pipelines ⟨[], []⟩ rootStream st hb
  · simp [hb] at hrun

theorem runPipelineWith_simulates (procs : Processors) (pipelines : List Pipeline)
    (args env : Bag) (rootStream : Stream) :
    (∀ handles, (runPipelineWith procs pipelines args env rootStream).result = .ok handles →
      runPipeline pipelines args env rootStream
        = ⟨(runPipelineWith procs pipelines args env rootStream).calls,
           .ok (List.range handles.length)⟩) ∧
    (∀ e, (runPipelineWith procs pipelines args env rootStream).result
        = .error (.validation e) →
      runPipeline pipelines args env rootStream
        = ⟨(runPipelineWith procs pipelines args env rootStream).calls, .error e⟩) ∧
    (∀ x, (runPipelineWith procs pipelines args env rootStream).result = .error (.raised x) →
      (∃ more, (runPipeline pipelines args env rootStream).calls
        = (runPipelineWith procs pipelines args env rootStream).calls ++ more) ∧
      ∃ cs c, (runPipelineWith procs pipelines args env rootStream).calls = cs ++ [c] ∧
        c.isOutput = false ∧ procs.transform cs.length c = .raises x) := by
  have h := buildStreamPipelineWith_simulates procs args env pipelines ⟨[], []⟩ rootStream
  have he : (⟨[], []⟩ : WalkState).erase = ⟨[], []⟩ := rfl
  rw [he] at h
  unfold runPipelineWith runPipeline
  rcases hb : buildStreamPipelineWith procs args env pipelines ⟨[], []⟩ rootStream
    with ⟨st, _ | e⟩
  · rw [hb] at h
    simp only [simulates] at h
    refine ⟨?_, ?_, ?_⟩
    · intro handles hh
      simp only [Except.ok.injEq] at hh
      subst hh
      simp [h, WalkState.erase]
    · intro e hh
      simp at hh
    · intro x hh
      simp at hh
  · rw [hb] at h
    cases e with
    | validation v =>
      simp only [simulates] at h
      refine ⟨?_, ?_, ?_⟩
      · intro handles hh
        simp at hh
      · intro e hh
        simp only [Except.error.injEq, RunError.validation.injEq] at hh
        subst hh
        simp [h, WalkState.erase]
      · intro x hh
        simp at hh
    | raised x =>
      simp only [simulates] at h
      obtain ⟨⟨more, hm⟩, hlast⟩ := h
      refine ⟨?_, ?_, ?_⟩
      · intro handles hh
        simp at hh
      · intro e hh
        simp at hh
      · intro y hh
        simp only [Except.error.injEq, RunError.raised.injEq] at hh
        subst hh
        refine ⟨⟨more, ?_⟩, hlast⟩
        rcases ho : buildStreamPipeline args env pipelines ⟨[], []⟩ rootStream
          with ⟨o1, _ | e'⟩ <;> simpa [ho] using hm

theorem runPipelineWith_calls_extend (procs : Processors) (pipelines : List Pipeline)
    (args env : Bag) (rootStream : Stream) :
    ∃ more, (runPipeline pipelines args env rootStream).calls
      = (runPipelineWith procs pipelines args env rootStream).calls ++ more := by
  have hsim := runPipelineWith_simulates procs pipelines args env rootStream
  cases hr : (runPipelineWith procs pipelines args env rootStream).result with
  | ok handles => exact ⟨[], by rw [hsim.1 handles hr]; simp⟩
  | error e =>
    cases e with
    | validation v => exact ⟨[], by rw [hsim.2.1 v hr]; simp⟩
    | raised x => exact (hsim.2.2 x hr).1

theorem runPipelineWith_not_raised (procs : Processors) (pipelines : List Pipeline)
    (args env : Bag) (rootStream : Stream)
    (hT : ∀ i c, (runPipelineWith procs pipelines args env rootStream).calls.get? i = some c →
      c.isOutput = false → procs.transform i c = .returns) (x : String) :
    (runPipelineWith procs pipelines args env rootStream).result ≠ .error (.raised x) := by
  intro hr
  obtain ⟨_, cs, c, hcalls, hout, hraise⟩ :=
    (runPipelineWith_simulates procs pipelines args env rootStream).2.2 x hr
  have := hT cs.length c (by rw [hcalls]; simp) hout
  rw [this] at hraise
  cases hraise

theorem forall₂_of_append_left {α β : Type} (R : α → β → Prop) (xs : List α) (ys zs : List β)
    (k : Nat) (hk : k ≤ xs.length) (h : List.Forall₂ R (xs.take k) (zs ++ ys)) :
    ∃ j, j ≤ xs.length ∧ List.Forall₂ R (xs.take j) zs := by
  have h2 := List.forall₂_take zs.length h
  rw [List.take_take, List.take_left'] at h2
  · exact ⟨min zs.length k, le_trans (Nat.min_le_right _ _) hk, h2⟩
  · rfl

/-- C12, counterexample: the stage list holds no malformed element and every
template resolves, yet the run fails: the transform processor placed after
the first fork raises, and what it raises is raised by `runPipeline`, the
output placed after it not being invoked. -/
theorem transform_raises_without_malformed_element :
    walkOrder transformAfterForkTree
      = [.output "o1" "stdout" .null, .transform "t2" "json" .null,
         .output "o2" "file" .null] ∧
    resolveSettings .null [] [] = .ok .null ∧
    (runPipelineWith raisingT2 transformAfterForkTree [] [] .root).result
      = .error (.raised "Stream already being consumed") ∧
    (runPipelineWith raisingT2 transformAfterForkTree [] [] .root).calls
      = [Call.output "stdout" "o1" (.fork .root) ⟨0, .null⟩,
         Call.transform "json" "t2" .root .null] :=
  ⟨rfl, rfl, rfl, rfl⟩

/-- C12, amended: whatever the processors do, when the walk order of the tree
holds a malformed element (a stage that is no array, transform or input, or a
fork entry that is no output or child pipeline), `runPipeline` fails and the
invocations it has made are invocations of elements placed before that
element, in order: nothing placed after it is invoked. When the elements
before it are well formed, their templates resolve and every transform
invocation made returns, all of them are invoked and the failure is the
`ValidationError` raised at that element. When no element is malformed, every
template resolves and every transform invocation made returns, `runPipeline`
returns one handle for each output leaf. A failure that is no
`ValidationError` is what the transform processor invoked last raised. -/
theorem malformed_element_fails_run (procs : Processors) (pipelines : List Pipeline)
    (args env : Bag) (rootStream : Stream) :
    (∀ met rest item, item.isMalformed = true →
      walkOrder pipelines = met ++ item :: rest →
      (∃ e, (runPipelineWith procs pipelines args env rootStream).result = .error e) ∧
      List.IsPrefix ((runPipelineWith procs pipelines args env rootStream).calls.map
        Call.invoked) (scanItems args env met).1 ∧
      (∃ k, k ≤ met.length ∧
        List.Forall₂ (fun m v => m.invoke args env = .ok v) (met.take k)
          ((runPipelineWith procs pipelines args env rootStream).calls.map Call.invoked)) ∧
      ((∀ m ∈ met, m.isMalformed = false) →
        (∀ m ∈ met, ∀ t, m.template = some t → ∃ s, resolveSettings t args env = .ok s) →
        (∀ i c, (runPipelineWith procs pipelines args env rootStream).calls.get? i = some c →
          c.isOutput = false → procs.transform i c = .returns) →
        (runPipelineWith procs pipelines args env rootStream).result
          = .error (.validation ⟨multiChildMessage⟩) ∧
        List.Forall₂ (fun m v => m.invoke args env = .ok v) met
          ((runPipelineWith procs pipelines args env rootStream).calls.map Call.invoked))) ∧
    ((∀ item ∈ walkOrder pipelines, item.isMalformed = false) →
      (∀ item ∈ walkOrder pipelines, ∀ t, item.template = some t →
        ∃ s, resolveSettings t args env = .ok s) →
      (∀ i c, (runPipelineWith procs pipelines args env rootStream).calls.get? i = some c →
        c.isOutput = false → procs.transform i c = .returns) →
      ∃ handles, (runPipelineWith procs pipelines args env rootStream).result = .ok handles ∧
        handles.length = countStageOutputs pipelines) ∧
    (∀ x, (runPipelineWith procs pipelines args env rootStream).result = .error (.raised x) →
      ∃ cs c, (runPipelineWith procs pipelines args env rootStream).calls = cs ++ [c] ∧
        c.isOutput = false ∧ procs.transform cs.length c = .raises x) := by
  have hold := runPipeline_malformed_element pipelines args env rootStream
  have hsim := runPipelineWith_simulates procs pipelines args env rootStream
  obtain ⟨more, hmore⟩ := runPipelineWith_calls_extend procs pipelines args env rootStream
  refine ⟨?_, ?_, ?_⟩
  · intro met rest item hm hw
    obtain ⟨⟨e0, he0⟩, hcalls, ⟨k, hk, hfk⟩, hfull⟩ := hold.1 met rest item hm hw
    refine ⟨?_, ?_, ?_, ?_⟩
    · cases hr : (runPipelineWith procs pipelines args env rootStream).result with
      | ok handles =>
        rw [hsim.1 handles hr] at he0
        cases he0
      | error e => exact ⟨e, rfl⟩
    · rw [← hcalls, hmore, List.map_append]
      exact List.prefix_append _ _
    · rw [hmore, List.map_append] at hfk
      exact forall₂_of_append_left _ met _ _ k hk hfk
    · intro hwf hres hT
      obtain ⟨hcfg, hall⟩ := hfull hwf hres
      cases hr : (runPipelineWith procs pipelines args env rootStream).result with
      | ok handles =>
        rw [hsim.1 handles hr] at hcfg
        cases hcfg
      | error e =>
        cases e with
        | validation v =>
          have hv := hsim.2.1 v hr
          rw [hv] at hcfg hall
          simp only [Except.error.injEq] at hcfg
          subst hcfg
          exact ⟨rfl, hall⟩
        | raised x =>
          exact absurd hr (runPipelineWith_not_raised procs pipelines args env rootStream hT x)
  · intro hwf hres hT
    obtain ⟨handles0, h0⟩ := hold.2 hwf hres
    cases hr : (runPipelineWith procs pipelines args env rootStream).result with
    | ok handles =>
      refine ⟨handles, rfl, ?_⟩
      have hv := hsim.1 handles hr
      have hlen := runPipeline_ok_length pipelines args env rootStream
        (List.range handles.length) (by rw [hv])
      simpa using hlen
    | error e =>
      cases e with
      | validation v =>
        rw [hsim.2.1 v hr] at h0
        cases h0
      | raised x =>
        exact absurd hr (runPipelineWith_not_raised procs pipelines args env rootStream hT x)
  · intro x hr
    exact (hsim.2.2 x hr).2

/-- C12, amended, at a concrete input: a child pipeline placed directly in the
stage list; the transform before it is invoked and returns, the output after
it is not invoked, and the run fails with the configuration error. -/
theorem malformed_element_fails_run_witness :
    walkOrder childAsStageTree
      = [.transform "t1" "json" .null] ++ Item.malformedStage ::
          [.output "o1" "stdout" .null] ∧
    (runPipelineWith wellBehaved childAsStageTree [] [] .root).result
      = .error (.validation ⟨multiChildMessage⟩) ∧
    List.Forall₂ (fun m v => m.invoke [] [] = .ok v) [Item.transform "t1" "json" .null]
      ((runPipelineWith wellBehaved childAsStageTree [] [] .root).calls.map Call.invoked) :=
  ⟨rfl, ((malformed_element_fails_run wellBehaved childAsStageTree [] [] .root).1
    [.transform "t1" "json" .null] [.output "o1" "stdout" .null] .malformedStage rfl rfl).2.2.2
    (by intro m hm; simp at hm; subst hm; rfl)
    (by intro m hm t ht; simp at hm; subst hm; cases ht; exact ⟨.null, rfl⟩)
    (by intro i c _ _; rfl)⟩

/-! ## A failing output processor -/

theorem runPipelineWith_settled (procs : Processors) (pipelines : List Pipeline)
    (args env : Bag) (rootStream : Stream) (handles : List HandleState)
    (hrun : (runPipelineWith procs pipelines args env rootStream).result = .ok handles) :
    ∀ c ∈ (runPipelineWith procs pipelines args env rootStream).calls, ∀ h,
      c.resolver = some h → handles.get? h = some (newPromise (procs.output c)) := by
  have hs := buildStreamPipelineWith_settled procs args env pipelines ⟨[], []⟩ rootStream
    (by intro c hc; simp at hc)
  unfold runPipelineWith at hrun ⊢
  rcases hb : buildStreamPipelineWith procs args env pipelines ⟨[], []⟩ rootStream
    with ⟨st, _ | e⟩
  · simp only [hb, Except.ok.injEq] at hrun hs ⊢
    subst hrun
    exact hs
  · simp [hb] at hrun

theorem runPipelineWith_similar (transform : Nat → Call → TransformOutcome)
    (output output' : Call → Outcome) (pipelines : List Pipeline) (args env : Bag)
    (rootStream : Stream) :
    (runPipelineWith ⟨transform, output'⟩ pipelines args env rootStream).calls
      = (runPipelineWith ⟨transform, output⟩ pipelines args env rootStream).calls ∧
    (∀ handles, (runPipelineWith ⟨transform, output⟩ pipelines args env rootStream).result
        = .ok handles →
      ∃ handles', (runPipelineWith ⟨transform, output'⟩ pipelines args env rootStream).result
        = .ok handles' ∧ handles'.length = handles.length) ∧
    (∀ e, (runPipelineWith ⟨transform, output⟩ pipelines args env rootStream).result
        = .error e →
      (runPipelineWith ⟨transform, output'⟩ pipelines args env rootStream).result
        = .error e) := by
  have h := buildStreamPipelineWith_similar transform output output' args env pipelines
    ⟨[], []⟩ ⟨[], []⟩ rootStream ⟨rfl, rfl⟩
  unfold runPipelineWith
  rcases hb : buildStreamPipelineWith ⟨transform, output⟩ args env pipelines ⟨[], []⟩
    rootStream with ⟨st, _ | e⟩ <;>
    rcases hb' : buildStreamPipelineWith ⟨transform, output'⟩ args env pipelines ⟨[], []⟩
      rootStream with ⟨st', _ | e'⟩ <;>
    simp only [hb, hb'] at h ⊢
  · obtain ⟨⟨hc, hl⟩, _⟩ := h
    refine ⟨hc.symm, ?_, ?_⟩
    · intro handles hh
      simp only [Except.ok.injEq] at hh
      subst hh
      exact ⟨st'.promises, rfl, hl.symm⟩
    · intro e hh
      simp at hh
  · simp at h
  · simp at h
  · obtain ⟨⟨hc, hl⟩, he⟩ := h
    simp only [Option.some.injEq] at he
    subst he
    refine ⟨hc.symm, ?_, ?_⟩
    · intro handles hh
      simp at hh
    · intro e1 hh
      simpa using hh

theorem runPipelineWith_resolver_exists (procs : Processors) (pipelines : List Pipeline)
    (args env : Bag) (rootStream : Stream) (handles : List HandleState)
    (hrun : (runPipelineWith procs pipelines args env rootStream).result = .ok handles)
    (h : Nat) (hlt : h < handles.length) :
    ∃ c ∈ (runPipelineWith procs pipelines args env rootStream).calls,
      c.resolver = some h := by
  have hv := (runPipelineWith_simulates procs pipelines args env rootStream).1 handles hrun
  have hal := runPipeline_aligned pipelines args env rootStream (List.range handles.length)
    (by rw [hv])
  rw [hv] at hal
  have hmem : some h ∈ (List.range handles.length).map some :=
    List.mem_map.mpr ⟨h, List.mem_range.mpr hlt, rfl⟩
  rw [← hal.1] at hmem
  obtain ⟨c, hc, hr⟩ := List.mem_map.mp hmem
  exact ⟨c, (List.mem_filter.mp hc).1, hr⟩

/-- C11, counterexample: the output processor under key `o2` fails after it
has returned; it was handed `resolve` and nothing to reject with, so its
handle, the second one, is not rejected: it stays pending. -/
theorem late_failure_leaves_handle_pending :
    lateFailureO2.output (Call.output "file" "o2" (.fork (.fork .root)) ⟨1, .null⟩)
      = .failsLater "disk full" ∧
    (runPipelineWith lateFailureO2 twoLevelTree [] [] .root).calls
      = (runPipeline twoLevelTree [] [] .root).calls ∧
    Call.output "file" "o2" (.fork (.fork .root)) ⟨1, .null⟩
      ∈ (runPipelineWith lateFailureO2 twoLevelTree [] [] .root).calls ∧
    (runPipelineWith lateFailureO2 twoLevelTree [] [] .root).result
      = .ok [.fulfilled, .pending, .fulfilled] :=
  ⟨rfl, rfl, List.mem_cons_of_mem _ (List.mem_cons_self _ _), rfl⟩

/-- C11, amended: take a run that returns its handles, whatever the output
processors do in it, and let the output processors behave in any other way in
which the processor of one output invocation raises during the invocation.
The run then makes the same invocations and still returns, with as many
handles, one for each output leaf of the tree; the handle whose resolver that
invocation was handed is rejected with what was raised; every handle ends in
the state that `new Promise` gives it from what its own processor does (a
processor that fails after it has returned leaves its handle pending); and a
handle whose own processor behaves as before ends in the same state as
before. -/
theorem output_failure_rejects_own_handle (transform : Nat → Call → TransformOutcome)
    (output0 output : Call → Outcome) (pipelines : List Pipeline) (args env : Bag)
    (rootStream : Stream) (handles0 : List HandleState) (c : Call) (h : Nat) (error : String)
    (hrun0 : (runPipelineWith ⟨transform, output0⟩ pipelines args env rootStream).result
      = .ok handles0)
    (hc : c ∈ (runPipelineWith ⟨transform, output0⟩ pipelines args env rootStream).calls)
    (hres : c.resolver = some h) (hfail : output c = .raises error) :
    (runPipelineWith ⟨transform, output⟩ pipelines args env rootStream).calls
      = (runPipelineWith ⟨transform, output0⟩ pipelines args env rootStream).calls ∧
    ∃ handles,
      (runPipelineWith ⟨transform, output⟩ pipelines args env rootStream).result
        = .ok handles ∧
      handles.length = handles0.length ∧
      handles.length = countStageOutputs pipelines ∧
      handles.get? h = some (.rejected error) ∧
      (∀ c' ∈ (runPipelineWith ⟨transform, output⟩ pipelines args env rootStream).calls,
        ∀ h', c'.resolver = some h' →
          handles.get? h' = some (newPromise (output c')) ∧
          (∀ late, output c' = .failsLater late → handles.get? h' = some .pending)) ∧
      (∀ h', (∀ c' ∈ (runPipelineWith ⟨transform, output⟩ pipelines args env
            rootStream).calls, c'.resolver = some h' → output c' = output0 c') →
        handles.get? h' = handles0.get? h') := by
  obtain ⟨hcalls, hok, _⟩ := runPipelineWith_similar transform output0 output pipelines
    args env rootStream
  obtain ⟨handles, hrun, hlen⟩ := hok handles0 hrun0
  have hset := runPipelineWith_settled ⟨transform, output⟩ pipelines args env rootStream
    handles hrun
  have hset0 := runPipelineWith_settled ⟨transform, output0⟩ pipelines args env rootStream
    handles0 hrun0
  refine ⟨hcalls, handles, hrun, hlen, ?_, ?_, ?_, ?_⟩
  · have hv := (runPipelineWith_simulates ⟨transform, output⟩ pipelines args env
      rootStream).1 handles hrun
    have hl := runPipeline_ok_length pipelines args env rootStream
      (List.range handles.length) (by rw [hv])
    simpa using hl
  · have := hset c (by rw [hcalls]; exact hc) h hres
    simpa [hfail, newPromise] using this
  · intro c' hc' h' hr'
    have hst := hset c' hc' h' hr'
    refine ⟨hst, ?_⟩
    intro late hlate
    simpa [hlate, newPromise] using hst
  · intro h' hsame
    by_cases hlt : h' < handles.length
    · obtain ⟨c', hc', hr'⟩ := runPipelineWith_resolver_exists ⟨transform, output⟩ pipelines
        args env rootStream handles hrun h' hlt
      have e1 : handles.get? h' = some (newPromise (output c')) := hset c' hc' h' hr'
      have e0 : handles0.get? h' = some (newPromise (output0 c')) :=
        hset0 c' (by rw [← hcalls]; exact hc') h' hr'
      rw [e1, e0, hsame c' hc' hr']
    · have h1 : handles.get? h' = none := by
        simp only [List.get?_eq_getElem?]
        exact List.getElem?_eq_none (Nat.le_of_not_lt hlt)
      have h2 : handles0.get? h' = none := by
        simp only [List.get?_eq_getElem?]
        exact List.getElem?_eq_none (by rw [← hlen]; exact Nat.le_of_not_lt hlt)
      rw [h1, h2]

/-- C11, amended, on the two-level example: with processors that resolve the
run returns three fulfilled handles; when the processor of `o2` raises, the
run still returns three handles, the second rejected, the others fulfilled. -/
theorem output_failure_rejects_own_handle_witness :
    (runPipelineWith wellBehaved twoLevelTree [] [] .root).result
      = .ok [.fulfilled, .fulfilled, .fulfilled] ∧
    (runPipelineWith failingO2 twoLevelTree [] [] .root).result
      = .ok [.fulfilled, .rejected "disk full", .fulfilled] ∧
    (runPipelineWith failingO2 twoLevelTree [] [] .root).calls
      = (runPipelineWith wellBehaved twoLevelTree [] [] .root).calls ∧
    ∃ handles, (runPipelineWith failingO2 twoLevelTree [] [] .root).result = .ok handles ∧
      handles.get? 1 = some (.rejected "disk full") :=
  ⟨rfl, rfl, rfl,
   match (output_failure_rejects_own_handle wellBehaved.transform wellBehaved.output
      failingO2.output twoLevelTree [] [] .root [.fulfilled, .fulfilled, .fulfilled]
      (Call.output "file" "o2" (.fork (.fork .root)) ⟨1, .null⟩) 1 "disk full" rfl
      (List.mem_cons_of_mem _ (List.mem_cons_self _ _)) rfl rfl).2 with
   | ⟨handles, hrun, _, _, hrej, _⟩ => ⟨handles, hrun, hrej⟩⟩

end HumanePipeline
